import Mathlib

/-!
# 8086 decoder and simulator: shallow embedding

Shallow embedding of the instruction decoder (`src/03.26/reader.go`,
`src/03.26/disassemble.go`) and of the CPU state simulator
(`src/part1-08/sim.go`, `src/part1-08/main.go`).

Conventions of the embedding:

* a Go `byte` of a buffer is a `Fin 256`; once read it is carried as a `Nat`;
* `uint16` values are `Nat`, with an explicit `% 65536` wherever the Go
  operation can wrap; `int8`, `int16` and `int` values are `Int`;
* a Go panic is an `Except.error` carrying a `Panic`; a returned Go `error` is
  an `Error` value returned next to the state the call leaves behind;
* the `Reader` is passed explicitly: a function that reads returns the value
  together with the reader left behind.
-/

namespace Sim8086

/-- Byte of a Go `[]byte` buffer. -/
abbrev Byte := Fin 256

/-- Go panics that the decoder and the simulator can raise. A panic unwinds
the whole run: no state is left to look at. -/
inductive Panic where
  /-- `panic(ErrOutOfBound)` raised by the `must...` functions of the reader. -/
  | ErrOutOfBound
  /-- Go run-time panic: slice bounds or index out of range. -/
  | indexOutOfRange
  /-- Panic raised by `assert`. -/
  | assertError
  /-- Panic raised by `panic("unreachable")`. -/
  | unreachable
  deriving DecidableEq, Repr

/-- Go `error` values returned by the decoder and the simulator. -/
inductive Error where
  /-- Error `invalid mov instruction: <bytes>`. -/
  | invalidMov (bs : List Byte)
  /-- Error `invalid add instruction: <bytes>`. -/
  | invalidAdd (bs : List Byte)
  /-- Error `unknown instruction: <bytes>`. -/
  | unknownInstruction (bs : List Byte)
  /-- Error `unsupported mov type`. -/
  | unsupportedMov
  /-- Error `unsupported jumpOrLoop`. -/
  | unsupportedJumpOrLoop
  deriving DecidableEq, Repr

deriving instance DecidableEq for Except

/-! ## Integer conversions -/

/-- Go conversion `int8(b)` of a byte. -/
def int8 (b : Nat) : Int :=
  if b % 256 < 128 then ((b % 256 : Nat) : Int) else ((b % 256 : Nat) : Int) - 256

/-- Go conversion `int16(v)` of a `uint16`. -/
def int16 (v : Nat) : Int :=
  if v % 65536 < 32768 then ((v % 65536 : Nat) : Int) else ((v % 65536 : Nat) : Int) - 65536

/-! ## Byte cursor (`src/03.26/reader.go`) -/

/-- Go `type Reader struct { idx int; buf []byte }`. -/
structure Reader where
  idx : Nat
  buf : List Byte
  deriving DecidableEq, Repr

/-- Go `newReader`. -/
def newReader (buf : List Byte) : Reader := ⟨0, buf⟩

/-- Go `Reader.isEmpty`. -/
def Reader.isEmpty (r : Reader) : Bool := decide (r.idx ≥ r.buf.length)

/-- Go `Reader.read`: the byte at `idx`, or the error value `ErrOutOfBound`,
together with the reader as the call leaves it. -/
def Reader.read (r : Reader) : Except Panic Nat × Reader :=
  if h : r.idx ≥ r.buf.length then (.error .ErrOutOfBound, r)
  else (.ok (r.buf[r.idx]).val, { r with idx := r.idx + 1 })

/-- Go `Reader.mustRead`: `read`, the error turned into a panic. -/
def Reader.mustRead (r : Reader) : Except Panic (Nat × Reader) :=
  match r.read with
  | (.error e, _) => .error e
  | (.ok result, r1) => .ok (result, r1)

/-- Go `Reader.readN`: the slice `r.buf[r.idx : r.idx+n]`, or the error value
`ErrOutOfBound`, together with the reader as the call leaves it. The test
`r.idx+n-1 >= len(r.buf)` is done on Go `int`s, so it is evaluated over `Int`
here. -/
def Reader.readN (r : Reader) (n : Nat) : Except Panic (List Byte) × Reader :=
  if (r.idx : Int) + (n : Int) - 1 ≥ (r.buf.length : Int) then (.error .ErrOutOfBound, r)
  else (.ok ((r.buf.drop r.idx).take n), { r with idx := r.idx + n })

/-- Go `Reader.mustReadN`. -/
def Reader.mustReadN (r : Reader) (n : Nat) : Except Panic (List Byte × Reader) :=
  match r.readN n with
  | (.error e, _) => .error e
  | (.ok result, r1) => .ok (result, r1)

/-- Go `Reader.mustPeek`: `mustReadN` followed by `r.idx -= n`. -/
def Reader.mustPeek (r : Reader) (n : Nat) : Except Panic (List Byte × Reader) :=
  match r.mustReadN n with
  | .error e => .error e
  | .ok (result, r1) => .ok (result, { r1 with idx := r1.idx - n })

/-- Go `Reader.mustReadUint16`: two bytes, low byte first. -/
def Reader.mustReadUint16 (r : Reader) : Except Panic (Nat × Reader) :=
  match r.readN 2 with
  | (.error e, _) => .error e
  | (.ok [low, high], r1) => .ok ((high.val <<< 8) ||| low.val, r1)
  | (.ok _, _) => .error .indexOutOfRange

/-- Go `Reader.mustReadUint16W`. -/
def Reader.mustReadUint16W (r : Reader) (wide : Bool) : Except Panic (Nat × Reader) :=
  if wide then r.mustReadUint16
  else r.mustRead

/-- Go `Reader.mustReadInt16`. -/
def Reader.mustReadInt16 (r : Reader) : Except Panic (Int × Reader) :=
  match r.mustReadUint16 with
  | .error e => .error e
  | .ok (result, r1) => .ok (int16 result, r1)

/-- Go `Reader.mustReadInt8`. -/
def Reader.mustReadInt8 (r : Reader) : Except Panic (Int × Reader) :=
  match r.mustRead with
  | .error e => .error e
  | .ok (result, r1) => .ok (int8 result, r1)

/-- Go `Reader.remaining`. -/
def Reader.remaining (r : Reader) : Nat := r.buf.length - r.idx

/-! ## Instruction values (`src/03.26/disassemble.go`) -/

/-- Go `isMov`. -/
def isMov (b : Nat) : Bool :=
  (b >>> 2) == 0b100010 || (b >>> 1) == 0b1100011 || (b >>> 4) == 0b1011 ||
    (b >>> 1) == 0b1010000 || (b >>> 1) == 0b1010001 || b == 0b10001110 || b == 0b10001100

/-- Go `isAdd`. -/
def isAdd (b : Nat) : Bool := (b >>> 2) == 0b0 || (b >>> 1) == 0b10

/-- Go `isSub`. -/
def isSub (b : Nat) : Bool := (b >>> 2) == 0b1010 || (b >>> 1) == 0b10110

/-- Go `isCmp`. -/
def isCmp (b : Nat) : Bool := (b >>> 2) == 0b1110 || (b >>> 1) == 0b11110

/-- Go `isArithmetic`. -/
def isArithmetic (b : Nat) : Bool :=
  isAdd b || isSub b || isCmp b || (b >>> 2) == 0b100000

/-- Go `isJumpOrLoop`. -/
def isJumpOrLoop (b : Nat) : Bool := (b >>> 4) == 0b0111 || (b >>> 2) == 0b111000

/-- Go `MovType`. -/
inductive MovType where
  | Mov_Invalid
  | Mov_RegisteryOrMemory_ToOrFrom_Register
  | Mov_Immediate_To_Register
  | Mov_Immediate_To_RegisterOrMemory
  | Mov_Memory_To_Accumulator
  | Mov_Accumulator_To_Memory
  deriving DecidableEq, Repr

/-- Go `Common`: the fields of a mod-reg-rm byte and the displacement. -/
structure Common where
  mod : Nat := 0
  reg : Nat := 0
  rm : Nat := 0
  disp : Int := 0
  deriving DecidableEq, Repr

/-- Go `Mov`; the Go struct embeds `Common`. -/
structure Mov extends Common where
  typ : MovType := .Mov_Invalid
  d : Nat := 0
  w : Nat := 0
  data : Nat := 0
  deriving DecidableEq, Repr

/-- Go `ArithmeticType`. -/
inductive ArithmeticType where
  | Arithmetic_Invalid
  | Arithmetic_RegOrMemory_With_Register_To_Either
  | Arithmetic_Immediate_To_RegisterOrMemory
  | Arithmetic_Immediate_To_Accumulator
  deriving DecidableEq, Repr

/-- Go `ArithmeticOp`; `Arithmetic_Add` is the zero value. -/
inductive ArithmeticOp where
  | Arithmetic_Add
  | Arithmetic_Sub
  | Arithmetic_Cmp
  deriving DecidableEq, Repr

/-- Go `Arithmetic`; the Go struct embeds `Common`. The defaults are the Go
zero values of `Arithmetic{}`. -/
structure Arithmetic extends Common where
  typ : ArithmeticType := .Arithmetic_Invalid
  op : ArithmeticOp := .Arithmetic_Add
  data : Nat := 0
  d : Nat := 0
  s : Nat := 0
  w : Nat := 0
  firstByte : Nat := 0
  deriving DecidableEq, Repr

/-- Go `JumpOrLoop`: the opcode byte and the signed 8-bit increment. -/
structure JumpOrLoop where
  op : Nat := 0
  inc : Int := 0
  deriving DecidableEq, Repr

/-- Go interface `Command`, with its three implementations. -/
inductive Command where
  | mov (m : Mov)
  | arithmetic (a : Arithmetic)
  | jumpOrLoop (j : JumpOrLoop)
  deriving DecidableEq, Repr

/-! ## Decoder (`src/03.26/disassemble.go`) -/

/-- Go `parseCommon`. The widening conversion `int16(int8(b))` keeps the value
of `int8(b)`. -/
def parseCommon (r : Reader) : Except Panic (Common × Reader) :=
  match r.mustRead with
  | .error e => .error e
  | .ok (b1, r1) =>
    let result : Common :=
      { mod := (b1 >>> 6) &&& 0b11, reg := (b1 >>> 3) &&& 0b111, rm := b1 &&& 0b111 }
    if result.mod = 0b01 then
      match r1.mustRead with
      | .error e => .error e
      | .ok (b, r2) => .ok ({ result with disp := int8 b }, r2)
    else if result.mod = 0b10 ∨ (result.mod = 0b00 ∧ result.rm = 0b110) then
      match r1.mustReadInt16 with
      | .error e => .error e
      | .ok (disp, r2) => .ok ({ result with disp := disp }, r2)
    else .ok (result, r1)

/-- Go `parseMov`. -/
def parseMov (r : Reader) : Except Panic (Mov × Reader) :=
  match r.mustRead with
  | .error e => .error e
  | .ok (firstByte, r1) =>
    let result : Mov := {}
    if (firstByte >>> 2) = 0b100010 then
      match parseCommon r1 with
      | .error e => .error e
      | .ok (c, r2) =>
        .ok ({ result with
                typ := .Mov_RegisteryOrMemory_ToOrFrom_Register
                d := (firstByte >>> 1) &&& 1
                w := firstByte &&& 1
                toCommon := c }, r2)
    else if (firstByte >>> 4) = 0b1011 then
      let w := (firstByte >>> 3) &&& 1
      match r1.mustReadUint16W (w == 1) with
      | .error e => .error e
      | .ok (data, r2) =>
        .ok ({ result with
                typ := .Mov_Immediate_To_Register
                w := w
                reg := firstByte &&& 0b111
                data := data }, r2)
    else if (firstByte >>> 1) = 0b1100011 then
      let w := firstByte &&& 1
      match parseCommon r1 with
      | .error e => .error e
      | .ok (c, r2) =>
        match r2.mustReadUint16W (w == 1) with
        | .error e => .error e
        | .ok (data, r3) =>
          .ok ({ result with
                  typ := .Mov_Immediate_To_RegisterOrMemory
                  w := w
                  toCommon := c
                  data := data }, r3)
    else if (firstByte >>> 1) = 0b1010000 then
      match r1.mustReadUint16 with
      | .error e => .error e
      | .ok (data, r2) => .ok ({ result with typ := .Mov_Memory_To_Accumulator, data := data }, r2)
    else if (firstByte >>> 1) = 0b1010001 then
      match r1.mustReadUint16 with
      | .error e => .error e
      | .ok (data, r2) => .ok ({ result with typ := .Mov_Accumulator_To_Memory, data := data }, r2)
    else .ok (result, r1)

/-- Go `parseArithmetic`. The field `op` is assigned in none of the three
cases, so it keeps the zero value `Arithmetic_Add` of `Arithmetic{}`. -/
def parseArithmetic (r : Reader) : Except Panic (Arithmetic × Reader) :=
  match r.mustRead with
  | .error e => .error e
  | .ok (firstByte, r1) =>
    let result : Arithmetic := { firstByte := firstByte }
    if (firstByte >>> 2) = 0b100000 then
      let s := (firstByte >>> 1) &&& 1
      let w := (firstByte >>> 0) &&& 1
      match parseCommon r1 with
      | .error e => .error e
      | .ok (c, r2) =>
        match r2.mustReadUint16W (s == 0 && w == 1) with
        | .error e => .error e
        | .ok (data, r3) =>
          .ok ({ result with
                  typ := .Arithmetic_Immediate_To_RegisterOrMemory
                  s := s
                  w := w
                  toCommon := c
                  data := data }, r3)
    else if (firstByte >>> 2) &&& 1 = 0b1 then
      let w := (firstByte >>> 0) &&& 1
      match r1.mustReadUint16W (w == 1) with
      | .error e => .error e
      | .ok (data, r2) =>
        .ok ({ result with
                typ := .Arithmetic_Immediate_To_Accumulator
                w := w
                data := data }, r2)
    else if (firstByte >>> 2) &&& 1 = 0b0 then
      match parseCommon r1 with
      | .error e => .error e
      | .ok (c, r2) =>
        .ok ({ result with
                typ := .Arithmetic_RegOrMemory_With_Register_To_Either
                d := (firstByte >>> 1) &&& 1
                w := (firstByte >>> 0) &&& 1
                toCommon := c }, r2)
    else .ok (result, r1)

/-! ## Formatter (`src/03.26/disassemble.go`) -/

/-- Go `fmt.Sprintf` verb `%d` on an unsigned value. -/
def fmtD (n : Nat) : String := toString n

/-- Go `fmt.Sprintf` verb `%d` on a signed value. -/
def fmtDInt (i : Int) : String := toString i

/-- Go `fmt.Sprintf` verb `%+d`: the sign is always written. -/
def fmtPlusD (i : Int) : String := if i < 0 then toString i else "+" ++ toString i

/-- Go negation `-x` on an `int16`: the result wraps to 16 bits. -/
def negInt16 (x : Int) : Int := (((-x) + 32768) % 65536) - 32768

/-- Go conversion `uint16(x)` of an `int16`. -/
def uint16OfInt (x : Int) : Nat := (x % 65536).toNat

/-- Go index expression `table[i]` on a table of strings. -/
def indexTable (table : List String) (i : Nat) : Except Panic String :=
  match table[i]? with
  | some x => .ok x
  | none => .error .indexOutOfRange

/-- Go `Jump_Labels`. -/
def Jump_Labels : List String :=
  ["jo", "jno", "jb", "jnb", "jz", "jnz", "jbe", "jnbe",
   "js", "jns", "jp", "jnp", "jl", "jnl", "jle", "jnle"]

/-- Go `Loop_Lables`. -/
def Loop_Lables : List String := ["loopnz", "loopz", "loop", "jcxz"]

/-- Go `REGISTERS_8`. -/
def REGISTERS_8 : List String := ["al", "cl", "dl", "bl", "ah", "ch", "dh", "bh"]

/-- Go `REGISTERS_16`. -/
def REGISTERS_16 : List String := ["ax", "cx", "dx", "bx", "sp", "bp", "si", "di"]

/-- Go `JumpOrLoop.opName`. -/
def JumpOrLoop.opName (j : JumpOrLoop) : Except Panic String :=
  if (j.op >>> 4) = 0b0111 then indexTable Jump_Labels (j.op &&& 0b1111)
  else indexTable Loop_Lables (j.op &&& 0b11)

/-- Go `JumpOrLoop.Disassemble`: format `"%s $+2%+d"`. -/
def JumpOrLoop.Disassemble (j : JumpOrLoop) : Except Panic String :=
  match j.opName with
  | .error e => .error e
  | .ok name => .ok (name ++ " $+2" ++ fmtPlusD j.inc)

/-- Go `Arithmetic.opName`. -/
def Arithmetic.opName (a : Arithmetic) : Except Panic String :=
  let b := a.firstByte
  if isAdd b then .ok "add"
  else if isSub b then .ok "sub"
  else if isCmp b then .ok "cmp"
  else if a.reg = 0b000 then .ok "add"
  else if a.reg = 0b111 then .ok "cmp"
  else if a.reg = 0b101 then .ok "sub"
  else .error .unreachable

/-- Go `regName`. -/
def regName (idx : Nat) (wide : Nat) : Except Panic String :=
  let regNames := if wide = 0 then REGISTERS_8 else REGISTERS_16
  indexTable regNames idx

/-- Go `Common.regName`. -/
def Common.regName (c : Common) (wide : Nat) : Except Panic String :=
  Sim8086.regName c.reg wide

/-- Go `Common.rmName`. -/
def Common.rmName (c : Common) (wide : Nat) : Except Panic String :=
  if c.mod = 0b11 then
    let regNames := if wide = 0 then REGISTERS_8 else REGISTERS_16
    indexTable regNames c.rm
  else if c.mod = 0b00 ∨ c.mod = 0b01 ∨ c.mod = 0b10 then
    match indexTable ["bx + si", "bx + di", "bp + si", "bp + di", "si", "di", "bp", "bx"] c.rm with
    | .error e => .error e
    | .ok base =>
      if c.mod = 0b00 then
        if c.rm = 0b110 then .ok ("[" ++ fmtD (uint16OfInt c.disp) ++ "]")
        else .ok ("[" ++ base ++ "]")
      else if c.disp < 0 then .ok ("[" ++ base ++ " - " ++ fmtDInt (negInt16 c.disp) ++ "]")
      else if c.disp = 0 then .ok ("[" ++ base ++ "]")
      else .ok ("[" ++ base ++ " + " ++ fmtDInt c.disp ++ "]")
  else .error .unreachable

/-- Go `Arithmetic.Disassemble`. -/
def Arithmetic.Disassemble (a : Arithmetic) : Except Panic String :=
  match a.opName with
  | .error e => .error e
  | .ok op =>
    match a.typ with
    | .Arithmetic_RegOrMemory_With_Register_To_Either =>
      match a.toCommon.regName a.w with
      | .error e => .error e
      | .ok regN =>
        match a.toCommon.rmName a.w with
        | .error e => .error e
        | .ok rmN =>
          let source := if a.d = 1 then rmN else regN
          let target := if a.d = 1 then regN else rmN
          .ok (op ++ " " ++ target ++ ", " ++ source)
    | .Arithmetic_Immediate_To_RegisterOrMemory =>
      -- register
      if a.mod = 0b11 then
        match a.toCommon.rmName a.w with
        | .error e => .error e
        | .ok rmN => .ok (op ++ " " ++ rmN ++ ", " ++ fmtD a.data)
      else
        let dataType := if a.w = 1 then "word" else "byte"
        match a.toCommon.rmName a.w with
        | .error e => .error e
        | .ok rmN => .ok (op ++ " " ++ dataType ++ " " ++ rmN ++ ", " ++ fmtD a.data)
    | .Arithmetic_Immediate_To_Accumulator =>
      let regN := if a.w = 0 then "al" else "ax"
      .ok (op ++ " " ++ regN ++ ", " ++ fmtD a.data)
    | .Arithmetic_Invalid => .error .unreachable

/-- Go `Mov.Disassemble`. -/
def Mov.Disassemble (m : Mov) : Except Panic String :=
  match m.typ with
  | .Mov_RegisteryOrMemory_ToOrFrom_Register =>
    match m.toCommon.regName m.w with
    | .error e => .error e
    | .ok regN =>
      match m.toCommon.rmName m.w with
      | .error e => .error e
      | .ok rmN =>
        let source := if m.d = 1 then rmN else regN
        let target := if m.d = 1 then regN else rmN
        .ok ("mov " ++ target ++ ", " ++ source)
  | .Mov_Immediate_To_Register =>
    match m.toCommon.regName m.w with
    | .error e => .error e
    | .ok regN => .ok ("mov " ++ regN ++ ", " ++ fmtD m.data)
  | .Mov_Immediate_To_RegisterOrMemory =>
    -- register
    if m.mod = 0b11 then
      match m.toCommon.rmName m.w with
      | .error e => .error e
      | .ok rmN => .ok ("mov " ++ rmN ++ ", " ++ fmtD m.data)
    else
      let dataType := if m.w = 1 then "word" else "byte"
      match m.toCommon.rmName m.w with
      | .error e => .error e
      | .ok rmN => .ok ("mov " ++ rmN ++ ", " ++ dataType ++ " " ++ fmtD m.data)
  | .Mov_Memory_To_Accumulator => .ok ("mov ax, [" ++ fmtD m.data ++ "]")
  | .Mov_Accumulator_To_Memory => .ok ("mov [" ++ fmtD m.data ++ "], ax")
  | .Mov_Invalid => .error .unreachable

/-- Go interface method `Command.Disassemble`. -/
def Command.Disassemble (cmd : Command) : Except Panic String :=
  match cmd with
  | .mov m => m.Disassemble
  | .arithmetic a => a.Disassemble
  | .jumpOrLoop j => j.Disassemble

/-! ## Buffer decoder (`src/03.26/disassemble.go`) -/

/-- Body of the loop of Go `disassemble`: decode one instruction at the cursor.
The look-ahead asks for `min(4, r.remaining())` bytes. -/
def decodeNext (r : Reader) : Except Panic (Except Error (Command × Reader)) :=
  match r.mustPeek (min 4 r.remaining) with
  | .error e => .error e
  | .ok ([], _) => .error .indexOutOfRange
  | .ok (firstByte :: rest, r0) =>
    let bs := firstByte :: rest
    if isMov firstByte.val then
      match parseMov r0 with
      | .error e => .error e
      | .ok (mov, r1) =>
        if mov.typ = .Mov_Invalid then .ok (.error (.invalidMov bs))
        else .ok (.ok (.mov mov, r1))
    else if isArithmetic firstByte.val then
      match parseArithmetic r0 with
      | .error e => .error e
      | .ok (add, r1) =>
        if add.typ = .Arithmetic_Invalid then .ok (.error (.invalidAdd bs))
        else .ok (.ok (.arithmetic add, r1))
    else if isJumpOrLoop firstByte.val then
      match r0.mustRead with
      | .error e => .error e
      | .ok (op, r1) =>
        match r1.mustReadInt8 with
        | .error e => .error e
        | .ok (inc, r2) => .ok (.ok (.jumpOrLoop { op := op, inc := inc }, r2))
    else .ok (.error (.unknownInstruction bs))

/-- The loop `for !r.isEmpty()` of Go `disassemble`, run for at most `fuel`
iterations; `none` when the bound is reached. -/
def disassembleLoop : Nat → Reader → List Command →
    Option (Except Panic (Except Error (List Command)))
  | 0, _, _ => none
  | fuel + 1, r, cmds =>
    if r.isEmpty then some (.ok (.ok cmds))
    else
      match decodeNext r with
      | .error e => some (.error e)
      | .ok (.error err) => some (.ok (.error err))
      | .ok (.ok (cmd, r1)) => disassembleLoop fuel r1 (cmds ++ [cmd])

/-- Go `disassemble`: every iteration that goes on consumes at least one byte,
so `len(buf) + 1` iterations are enough. -/
def disassemble (buf : List Byte) : Option (Except Panic (Except Error (List Command))) :=
  disassembleLoop (buf.length + 1) (newReader buf) []

/-! ## CPU state (`src/part1-08/sim.go`) -/

/-- Go `Flags`. -/
structure Flags where
  zero : Bool := false
  sign : Bool := false
  deriving DecidableEq, Repr

/-- Go `Sim`. `regs` is the array `[8]uint16` in the order
ax, cx, dx, bx, sp, bp, si, di. -/
structure Sim where
  regs : Fin 8 → Nat := fun _ => 0
  flags : Flags := {}
  mem : List Byte := []
  ip : Int := 0
  initSize : Nat := 0
  lastInsSize : Nat := 0

/-- Go `newSim`: memory of `max(len(instructions), 4096)` bytes, the program
copied to its start. -/
def newSim (instructions : List Byte) : Sim :=
  { initSize := instructions.length
    mem := instructions ++
      List.replicate (max instructions.length 4096 - instructions.length) 0 }

/-- Array assignment `regs[i] = v`. -/
def setAt (regs : Fin 8 → Nat) (i : Fin 8) (v : Nat) : Fin 8 → Nat :=
  fun j => if j = i then v else regs j

/-- Go `Sim.getReg`. -/
def Sim.getReg (s : Sim) (idx : Nat) (wide : Nat) : Except Panic Nat :=
  if h : idx < 8 then
    if wide = 1 then .ok (s.regs ⟨idx, h⟩)
    else
      let r := s.regs ⟨idx % 4, by omega⟩
      -- high part
      if idx > 3 then .ok (r >>> 8)
      -- low part
      else .ok (r &&& 0xff)
  else .error .assertError

/-- Go `Sim.setReg`; it returns, with the new state, the new value of the
whole register. After `idx = idx % 4` the test `idx > 3` is made on the
reduced index, as in the source. -/
def Sim.setReg (s : Sim) (idx : Nat) (val : Nat) (wide : Nat) : Except Panic (Sim × Nat) :=
  if h : idx < 8 then
    if wide = 1 then .ok ({ s with regs := setAt s.regs ⟨idx, h⟩ val }, val)
    else
      let idx4 : Fin 8 := ⟨idx % 4, by omega⟩
      let r := s.regs idx4
      -- high part
      if idx4.val > 3 then
        let r1 := (r &&& 0x00ff) ||| ((val <<< 8) % 65536)
        .ok ({ s with regs := setAt s.regs idx4 r1 }, r1)
      -- low part
      else
        let r1 := (r &&& 0xff00) ||| (val &&& 0x00ff)
        .ok ({ s with regs := setAt s.regs idx4 r1 }, r1)
  else .error .assertError

/-- First `switch` of Go `Sim.handleArithmetic` (on `a.typ`): the target
register index, the target value and the source value. The variables are
declared with their zero values, which they keep when no case applies. -/
def Sim.arithOperands (s : Sim) (a : Arithmetic) : Except Panic (Nat × Nat × Nat) :=
  match a.typ with
  | .Arithmetic_Immediate_To_RegisterOrMemory =>
    if a.mod = 0b11 then
      match s.getReg a.rm a.w with
      | .error e => .error e
      | .ok target => .ok (a.rm, target, a.data)
    else .error .assertError
  | .Arithmetic_RegOrMemory_With_Register_To_Either =>
    if a.mod = 0b11 then
      let sourceReg := if a.d = 1 then a.rm else a.reg
      let targetReg := if a.d = 1 then a.reg else a.rm
      match s.getReg sourceReg a.w with
      | .error e => .error e
      | .ok source =>
        match s.getReg targetReg a.w with
        | .error e => .error e
        | .ok target => .ok (targetReg, target, source)
    else .error .assertError
  | _ => .ok (0, 0, 0)

/-- Second `switch` of Go `Sim.handleArithmetic` (on `a.op`): the `uint16`
result and the `writeBack` flag. -/
def arithResult (op : ArithmeticOp) (target source : Nat) : Nat × Bool :=
  match op with
  | .Arithmetic_Cmp => ((((target : Int) - (source : Int)) % 65536).toNat, false)
  | .Arithmetic_Sub => ((((target : Int) - (source : Int)) % 65536).toNat, true)
  | .Arithmetic_Add => ((target + source) % 65536, true)

/-- Flag update of Go `Sim.handleArithmetic`:
`if result == 0 { s.flags.zero = true }; s.flags.sign = result > 0x7fff`. -/
def updateFlags (f : Flags) (result : Nat) : Flags :=
  { zero := if result = 0 then true else f.zero
    sign := decide (result > 0x7fff) }

/-- Go `Sim.handleArithmetic`; the returned `error` is always `nil`. The text
built in `output` is dropped by the source and is left out here. -/
def Sim.handleArithmetic (s : Sim) (a : Arithmetic) : Except Panic (Sim × Option Error) :=
  match s.arithOperands a with
  | .error e => .error e
  | .ok (targetReg, target, source) =>
    let (result, writeBack) := arithResult a.op target source
    if writeBack then
      match s.setReg targetReg result a.w with
      | .error e => .error e
      | .ok (s1, _) => .ok ({ s1 with flags := updateFlags s1.flags result }, none)
    else .ok ({ s with flags := updateFlags s.flags result }, none)

/-- Go `Sim.handleMov`. -/
def Sim.handleMov (s : Sim) (m : Mov) : Except Panic (Sim × Option Error) :=
  match m.typ with
  | .Mov_Immediate_To_Register =>
    match s.setReg m.reg m.data m.w with
    | .error e => .error e
    | .ok (s1, _) => .ok (s1, none)
  | .Mov_RegisteryOrMemory_ToOrFrom_Register =>
    if m.mod ≠ 0b11 then .ok (s, some .unsupportedMov)
    else
      let sIdx := if m.d = 1 then m.rm else m.reg
      let dIdx := if m.d = 1 then m.reg else m.rm
      match s.getReg sIdx m.w with
      | .error e => .error e
      | .ok v =>
        match s.setReg dIdx v m.w with
        | .error e => .error e
        | .ok (s1, _) => .ok (s1, none)
  | _ => .ok (s, some .unsupportedMov)

/-- Go `Sim.handleJumpOrLoop`. -/
def Sim.handleJumpOrLoop (s : Sim) (j : JumpOrLoop) : Sim × Option Error :=
  -- jz
  if j.op = 0b01110100 then
    if s.flags.zero then ({ s with ip := s.ip + j.inc }, none) else (s, none)
  -- jnz
  else if j.op = 0b01110101 then
    if !s.flags.zero then ({ s with ip := s.ip + j.inc }, none) else (s, none)
  else (s, some .unsupportedJumpOrLoop)

/-- Go `Sim.exec`: the state after the call and the returned `error`. The debug
text returned next to a `nil` error does not act on the state and is left out.
The error of `handleJumpOrLoop` is discarded by the source. -/
def Sim.exec (s : Sim) (cmd : Command) : Except Panic (Sim × Option Error) :=
  match cmd with
  | .mov m =>
    match s.handleMov m with
    | .error e => .error e
    | .ok (s1, err) => .ok ({ s1 with ip := s1.ip + s1.lastInsSize }, err)
  | .arithmetic a =>
    match s.handleArithmetic a with
    | .error e => .error e
    | .ok (s1, err) => .ok ({ s1 with ip := s1.ip + s1.lastInsSize }, err)
  | .jumpOrLoop j =>
    let s1 := { s with ip := s.ip + s.lastInsSize }
    .ok ((s1.handleJumpOrLoop j).1, none)

/-- Go slice expression `s.mem[s.ip:]`. -/
def memFrom (mem : List Byte) (ip : Int) : Except Panic (List Byte) :=
  if ip < 0 ∨ ip > mem.length then .error .indexOutOfRange
  else .ok (mem.drop ip.toNat)

/-- Go `Sim.disassemble`: the state after the call (only `lastInsSize` can
change) and the returned pair, `.ok none` standing for `(nil, nil)`. -/
def Sim.disassemble (s : Sim) : Except Panic (Sim × Except Error (Option Command)) :=
  if s.ip ≥ s.initSize then .ok (s, .ok none)
  else
    match memFrom s.mem s.ip with
    | .error e => .error e
    | .ok buf =>
      let r := newReader buf
      match r.mustPeek 4 with
      | .error e => .error e
      | .ok ([], _) => .error .indexOutOfRange
      | .ok (firstByte :: rest, r0) =>
        let bs := firstByte :: rest
        if isMov firstByte.val then
          match parseMov r0 with
          | .error e => .error e
          | .ok (mov, r1) =>
            if mov.typ = .Mov_Invalid then .ok (s, .error (.invalidMov bs))
            else .ok ({ s with lastInsSize := r1.idx }, .ok (some (.mov mov)))
        else if isArithmetic firstByte.val then
          match parseArithmetic r0 with
          | .error e => .error e
          | .ok (add, r1) =>
            if add.typ = .Arithmetic_Invalid then .ok (s, .error (.invalidAdd bs))
            else .ok ({ s with lastInsSize := r1.idx }, .ok (some (.arithmetic add)))
        else if isJumpOrLoop firstByte.val then
          match r0.mustRead with
          | .error e => .error e
          | .ok (op, r1) =>
            match r1.mustReadInt8 with
            | .error e => .error e
            | .ok (inc, r2) =>
              .ok ({ s with lastInsSize := r2.idx }, .ok (some (.jumpOrLoop { op := op, inc := inc })))
        else .ok (s, .error (.unknownInstruction bs))

/-! ## Execution driver (`src/part1-08/main.go`) -/

/-- How a run of the driver loop of `main` ends. -/
inductive Outcome where
  /-- The loop reached `break`: `disassemble` returned `(nil, nil)`. -/
  | done (s : Sim)
  /-- The run stopped in `log.Fatalln` or `log.Fatalf` on a returned error. -/
  | fatal (e : Error) (s : Sim)
  /-- The run stopped on a panic. -/
  | panicked (p : Panic)
  /-- The bound on the number of iterations was reached in state `s`. -/
  | outOfFuel (s : Sim)

/-- One iteration of the driver loop of `main`: decode at `ip`, then execute
(`execFlag`) or advance `ip` by the size of the instruction. `none` is the
`break` of the loop. -/
def driverStep (execFlag : Bool) (s : Sim) : Except Panic (Sim × Except Error (Option Unit)) :=
  match s.disassemble with
  | .error e => .error e
  | .ok (s1, .error err) => .ok (s1, .error err)
  | .ok (s1, .ok none) => .ok (s1, .ok none)
  | .ok (s1, .ok (some cmd)) =>
    if execFlag then
      match s1.exec cmd with
      | .error e => .error e
      | .ok (s2, some err) => .ok (s2, .error err)
      | .ok (s2, none) => .ok (s2, .ok (some ()))
    else .ok ({ s1 with ip := s1.ip + s1.lastInsSize }, .ok (some ()))

/-- The driver loop of `main`, run for at most `fuel` iterations. -/
def driver (execFlag : Bool) : Nat → Sim → Outcome
  | 0, s => .outOfFuel s
  | fuel + 1, s =>
    match driverStep execFlag s with
    | .error p => .panicked p
    | .ok (s1, .error err) => .fatal err s1
    | .ok (s1, .ok none) => .done s1
    | .ok (s1, .ok (some _)) => driver execFlag fuel s1

/-- Observation on a decode step (not part of the source): what `disassemble`
returns, with `ip` and the recorded instruction size as the call leaves them. -/
def Sim.decodeView (s : Sim) : Except Panic (Except Error (Option Command) × Int × Nat) :=
  match s.disassemble with
  | .error p => .error p
  | .ok (s1, res) => .ok (res, s1.ip, s1.lastInsSize)

/-- Decode followed by format on a two-byte buffer (composition of `parseMov`
and `Mov.Disassemble`). -/
def movRegText (fb m : Byte) : Except Panic String :=
  match parseMov (newReader [fb, m]) with
  | .error e => .error e
  | .ok (mov, _) => mov.Disassemble

/-- Observation on an outcome (not part of the source): the run reached the
`break` of the loop in a state that satisfies `p`. -/
def Outcome.doneWith (o : Outcome) (p : Sim → Bool) : Bool :=
  match o with
  | .done s => p s
  | _ => false

/-- Specification (not part of the source): length in bytes of the
displacement that follows the mod-reg-rm byte `m`, in the words of the
decoder design: two when `mod = 10` or when `mod = 00` and `rm = 110`, one
when `mod = 01`, none otherwise. It is used to state decoded lengths. -/
def dispLen (m : Nat) : Nat :=
  if m >>> 6 = 0b01 then 1
  else if m >>> 6 = 0b10 ∨ (m >>> 6 = 0b00 ∧ m &&& 0b111 = 0b110) then 2
  else 0

/-- A re-assembler for the text of a register-to-register Mov (not part of the
source): it reads the two register names of `mov D, S` and returns the
encoding `100010dw`, `11 reg rm` with the direction bit `d` it is asked for. -/
def reassembleMov (d : Nat) (text : String) : Option (Byte × Byte) :=
  match text.data with
  | ['m', 'o', 'v', ' ', a, b, ',', ' ', c, e] =>
    let i := (REGISTERS_8 ++ REGISTERS_16).indexOf (String.mk [a, b])
    let j := (REGISTERS_8 ++ REGISTERS_16).indexOf (String.mk [c, e])
    if i < 16 ∧ j < 16 ∧ i / 8 = j / 8 then
      let w := i / 8
      let reg := if d = 1 then i % 8 else j % 8
      let rm := if d = 1 then j % 8 else i % 8
      some (Fin.ofNat (0b10001000 + 2 * (d % 2) + w), Fin.ofNat (0b11000000 + 8 * reg + rm))
    else none
  | _ => none

/-- Round trip on one encoding, as a test that can be evaluated. -/
def roundTripMov (fb m : Byte) : Bool :=
  match movRegText fb m with
  | .ok text => decide (reassembleMov ((fb.val >>> 1) &&& 1) text = some (fb, m))
  | .error _ => false

/-- Test program (not part of the source): 1365 times `mov ax, 0`
(`B8 00 00`) followed by the single byte `F4`; 4096 bytes in all. -/
def endProgram : List Byte :=
  (List.range 4095).map (fun i => if i % 3 = 0 then 0xB8 else 0x00) ++ [0xF4]

/-- Specification (not part of the source): number of displacement bytes that
belong to the mod-reg-rm fields `c`, by the rule of the decoder design. -/
def Common.dispSize (c : Common) : Nat :=
  if c.mod = 0b01 then 1
  else if c.mod = 0b10 ∨ (c.mod = 0b00 ∧ c.rm = 0b110) then 2
  else 0

/-- Specification (not part of the source): number of bytes that the encoding
of a Mov occupies: opcode, mod-reg-rm byte, displacement and data bytes as its
form has them. -/
def Mov.encodedSize (m : Mov) : Nat :=
  match m.typ with
  | .Mov_RegisteryOrMemory_ToOrFrom_Register => 2 + m.toCommon.dispSize
  | .Mov_Immediate_To_Register => 1 + (if m.w = 1 then 2 else 1)
  | .Mov_Immediate_To_RegisterOrMemory => 2 + m.toCommon.dispSize + (if m.w = 1 then 2 else 1)
  | .Mov_Memory_To_Accumulator => 3
  | .Mov_Accumulator_To_Memory => 3
  | .Mov_Invalid => 1

/-- Specification (not part of the source): number of bytes that the encoding
of an arithmetic instruction occupies. -/
def Arithmetic.encodedSize (a : Arithmetic) : Nat :=
  match a.typ with
  | .Arithmetic_RegOrMemory_With_Register_To_Either => 2 + a.toCommon.dispSize
  | .Arithmetic_Immediate_To_RegisterOrMemory =>
    2 + a.toCommon.dispSize + (if a.s = 0 ∧ a.w = 1 then 2 else 1)
  | .Arithmetic_Immediate_To_Accumulator => 1 + (if a.w = 1 then 2 else 1)
  | .Arithmetic_Invalid => 1

/-- Specification (not part of the source): number of bytes that the encoding
of an instruction occupies; a jump or loop has two. -/
def Command.encodedSize (cmd : Command) : Nat :=
  match cmd with
  | .mov m => m.encodedSize
  | .arithmetic a => a.encodedSize
  | .jumpOrLoop _ => 2

/-- Observation on an outcome (not part of the source): the bound on the
number of iterations was reached, the loop still running, in a state that
satisfies `p`. -/
def Outcome.runningWith (o : Outcome) (p : Sim → Bool) : Bool :=
  match o with
  | .outOfFuel s => p s
  | _ => false

/-- Test program (not part of the source): 1364 times `mov ax, 0`
(`B8 00 00`) followed by twice `mov cx, bx` (`89 D9`); 4096 bytes in all. -/
def tailProgram : List Byte :=
  (List.range 4092).map (fun i => if i % 3 = 0 then 0xB8 else 0x00) ++ [0x89, 0xD9, 0x89, 0xD9]

/-! ## Auxiliary lemmas -/

theorem Outcome.exists_of_doneWith (o : Outcome) (p : Sim → Bool) (h : o.doneWith p = true) :
    ∃ s, o = .done s ∧ p s = true := by
  cases o <;> simp_all [Outcome.doneWith]

theorem and_one_eq_mod (x : Nat) : x &&& 1 = x % 2 := Nat.and_pow_two_sub_one_eq_mod x 1

theorem and_three_eq_mod (x : Nat) : x &&& 3 = x % 4 := Nat.and_pow_two_sub_one_eq_mod x 2

theorem and_seven_eq_mod (x : Nat) : x &&& 7 = x % 8 := Nat.and_pow_two_sub_one_eq_mod x 3

theorem and_ff_eq_mod (x : Nat) : x &&& 0xff = x % 256 := Nat.and_pow_two_sub_one_eq_mod x 8

/-- Little-endian combination of two bytes, as computed by `mustReadUint16`. -/
theorem shl_or_eq (lo hi : Nat) (h : lo < 256) : (hi <<< 8) ||| lo = lo + 256 * hi := by
  have h2 : lo < 2 ^ 8 := by simpa using h
  rw [Nat.shiftLeft_eq, Nat.mul_comm, ← Nat.mul_add_lt_is_or h2 hi]
  omega

theorem drop_cons_getElem {α : Type} {l : List α} {i : Nat} {b : α} {rest : List α}
    (h : l.drop i = b :: rest) : ∃ hlt : i < l.length, l[i] = b ∧ l.drop (i + 1) = rest := by
  have hlt : i < l.length := by
    by_contra hge
    rw [List.drop_eq_nil_of_le (by omega)] at h
    exact List.noConfusion h
  refine ⟨hlt, ?_⟩
  rw [List.drop_eq_getElem_cons hlt] at h
  injection h with h1 h2
  exact ⟨h1, h2⟩

/-- Reading one byte when the bytes from the cursor on are `b :: rest`. -/
theorem Reader.mustRead_of_drop (r : Reader) (b : Byte) (rest : List Byte)
    (h : r.buf.drop r.idx = b :: rest) :
    r.mustRead = .ok (b.val, ⟨r.idx + 1, r.buf⟩) := by
  obtain ⟨hlt, hb, _⟩ := drop_cons_getElem h
  have hn : ¬ r.idx ≥ r.buf.length := by omega
  simp [Reader.mustRead, Reader.read, hn, hb]

/-- Reading two bytes when the bytes from the cursor on are `lo :: hi :: rest`. -/
theorem Reader.mustReadUint16_of_drop (r : Reader) (lo hi : Byte) (rest : List Byte)
    (h : r.buf.drop r.idx = lo :: hi :: rest) :
    r.mustReadUint16 = .ok ((hi.val <<< 8) ||| lo.val, ⟨r.idx + 2, r.buf⟩) := by
  have hlen : r.idx + 2 ≤ r.buf.length := by
    have := congrArg List.length h
    simp at this
    omega
  have hn : ¬ ((r.idx : Int) + ((2 : Nat) : Int) - 1 ≥ (r.buf.length : Int)) := by omega
  simp only [Reader.mustReadUint16, Reader.readN]
  rw [if_neg hn]
  simp [h]

/-- The bytes left after the first one. -/
theorem drop_succ_of_drop (r : Reader) (b : Byte) (rest : List Byte)
    (h : r.buf.drop r.idx = b :: rest) : r.buf.drop (r.idx + 1) = rest :=
  (drop_cons_getElem h).2.2

theorem getReg_wide (s : Sim) (i : Fin 8) : s.getReg i.val 1 = .ok (s.regs i) := by
  simp [Sim.getReg, i.isLt]

theorem setReg_wide (s : Sim) (i : Fin 8) (v : Nat) :
    s.setReg i.val v 1 = .ok ({ s with regs := setAt s.regs i v }, v) := by
  simp [Sim.setReg, i.isLt]

/-- With a register index below 8, `getReg` returns a value. -/
theorem getReg_ok (s : Sim) (idx w : Nat) (h : idx < 8) : ∃ v, s.getReg idx w = .ok v := by
  unfold Sim.getReg
  simp only [h, dite_true]
  split
  · exact ⟨_, rfl⟩
  · split <;> exact ⟨_, rfl⟩

/-- With a register index below 8, `setReg` returns a state that differs from
the given one in `regs` only. -/
theorem setReg_ok (s : Sim) (idx v w : Nat) (h : idx < 8) :
    ∃ s1 r, s.setReg idx v w = .ok (s1, r) ∧ s1.flags = s.flags ∧ s1.ip = s.ip ∧
      s1.lastInsSize = s.lastInsSize ∧ s1.mem = s.mem ∧ s1.initSize = s.initSize := by
  unfold Sim.setReg
  simp only [h, dite_true]
  split
  · exact ⟨_, _, rfl, rfl, rfl, rfl, rfl, rfl⟩
  · split <;> exact ⟨_, _, rfl, rfl, rfl, rfl, rfl, rfl⟩

/-- Once the driver loop has ended within `n` iterations, more iterations
change nothing. -/
theorem driver_done_mono (e : Bool) (n k : Nat) (s s1 : Sim)
    (h : driver e n s = .done s1) : driver e (n + k) s = .done s1 := by
  induction n generalizing s with
  | zero => simp [driver] at h
  | succ n ih =>
    have hk : n + 1 + k = (n + k) + 1 := by omega
    rw [hk]
    simp only [driver] at h ⊢
    cases hstep : driverStep e s with
    | error p => simp [hstep] at h
    | ok res =>
      obtain ⟨s2, r⟩ := res
      cases r with
      | error err => simp [hstep] at h
      | ok o =>
        cases o with
        | none => simpa [hstep] using h
        | some u =>
          simp only [hstep] at h ⊢
          exact ih s2 h

theorem driver_done_of_le (e : Bool) (n m : Nat) (s s1 : Sim) (hle : n ≤ m)
    (h : driver e n s = .done s1) : driver e m s = .done s1 := by
  obtain ⟨k, rfl⟩ := Nat.exists_eq_add_of_le hle
  exact driver_done_mono e n k s s1 h

/-- The field `op` of a decoded arithmetic instruction is `Arithmetic_Add`,
whatever the bytes: `parseArithmetic` never assigns it. -/
theorem parseArithmetic_op (r r1 : Reader) (a : Arithmetic)
    (h : parseArithmetic r = .ok (a, r1)) : a.op = .Arithmetic_Add := by
  unfold parseArithmetic at h
  dsimp only at h
  repeat' (split at h)
  all_goals
    first
    | (simp at h; done)
    | (simp only [Except.ok.injEq, Prod.mk.injEq] at h; rw [← h.1])

/-- Operands of an immediate-to-register arithmetic instruction, 16 bits wide. -/
theorem arithOperands_imm_wide (s : Sim) (a : Arithmetic) (hrm : a.rm < 8)
    (ht : a.typ = .Arithmetic_Immediate_To_RegisterOrMemory) (hmod : a.mod = 0b11)
    (hw : a.w = 1) :
    s.arithOperands a = .ok (a.rm, s.regs ⟨a.rm, hrm⟩, a.data) := by
  have h := getReg_wide s ⟨a.rm, hrm⟩
  simp only [] at h
  simp [Sim.arithOperands, ht, hmod, hw, h]

/-- Operands of a register-with-register arithmetic instruction, 16 bits wide. -/
theorem arithOperands_reg_wide (s : Sim) (a : Arithmetic) (hrm : a.rm < 8) (hreg : a.reg < 8)
    (ht : a.typ = .Arithmetic_RegOrMemory_With_Register_To_Either) (hmod : a.mod = 0b11)
    (hw : a.w = 1) :
    s.arithOperands a =
      .ok (if a.d = 1 then (a.reg, s.regs ⟨a.reg, hreg⟩, s.regs ⟨a.rm, hrm⟩)
           else (a.rm, s.regs ⟨a.rm, hrm⟩, s.regs ⟨a.reg, hreg⟩)) := by
  have h1 := getReg_wide s ⟨a.rm, hrm⟩
  have h2 := getReg_wide s ⟨a.reg, hreg⟩
  simp only [] at h1 h2
  by_cases hd : a.d = 1 <;> simp [Sim.arithOperands, ht, hmod, hw, h1, h2, hd]

/-- A 16-bit add with known operands: the state after `exec`. -/
theorem exec_add_wide (s : Sim) (a : Arithmetic) (tgt : Fin 8) (target source : Nat)
    (hop : a.op = .Arithmetic_Add) (hw : a.w = 1)
    (h : s.arithOperands a = .ok (tgt.val, target, source)) :
    ∃ s1, s.exec (.arithmetic a) = .ok (s1, none) ∧
      s1.regs = setAt s.regs tgt ((target + source) % 65536) ∧
      s1.flags = updateFlags s.flags ((target + source) % 65536) ∧
      s1.ip = s.ip + s.lastInsSize := by
  have h1 := setReg_wide s tgt ((target + source) % 65536)
  simp [Sim.exec, Sim.handleArithmetic, h, arithResult, hop, hw, h1]


/-- Operands of a register-direct arithmetic instruction: with register
fields below 8 the first `switch` of `handleArithmetic` returns them, and the
target index is below 8. -/
theorem arithOperands_ok (s : Sim) (a : Arithmetic) (hmod : a.mod = 0b11)
    (hrm : a.rm < 8) (hreg : a.reg < 8) :
    ∃ tgt target source, s.arithOperands a = .ok (tgt, target, source) ∧ tgt < 8 := by
  unfold Sim.arithOperands
  cases a.typ with
  | Arithmetic_Invalid => exact ⟨0, 0, 0, rfl, by decide⟩
  | Arithmetic_Immediate_To_Accumulator => exact ⟨0, 0, 0, rfl, by decide⟩
  | Arithmetic_Immediate_To_RegisterOrMemory =>
    obtain ⟨v, hv⟩ := getReg_ok s a.rm a.w hrm
    simp only [hmod, if_true, hv]
    exact ⟨_, _, _, rfl, hrm⟩
  | Arithmetic_RegOrMemory_With_Register_To_Either =>
    by_cases hd : a.d = 1
    · obtain ⟨v1, hv1⟩ := getReg_ok s a.rm a.w hrm
      obtain ⟨v2, hv2⟩ := getReg_ok s a.reg a.w hreg
      simp only [hmod, if_true, hd, hv1, hv2]
      exact ⟨_, _, _, rfl, hreg⟩
    · obtain ⟨v1, hv1⟩ := getReg_ok s a.rm a.w hrm
      obtain ⟨v2, hv2⟩ := getReg_ok s a.reg a.w hreg
      simp only [hmod, if_true, hd, if_false, hv1, hv2]
      exact ⟨_, _, _, rfl, hrm⟩

/-- The state after `handleArithmetic`, given the operands: the flags are
recomputed from the result by `updateFlags`, `ip` and the recorded size are
kept. -/
theorem handleArithmetic_flags (s : Sim) (a : Arithmetic) (tgt target source : Nat)
    (h : s.arithOperands a = .ok (tgt, target, source)) (htgt : tgt < 8) :
    ∃ s1, s.handleArithmetic a = .ok (s1, none) ∧
      s1.flags = updateFlags s.flags (arithResult a.op target source).1 ∧
      s1.ip = s.ip ∧ s1.lastInsSize = s.lastInsSize := by
  unfold Sim.handleArithmetic
  simp only [h]
  cases hres : arithResult a.op target source with
  | mk result writeBack =>
    cases writeBack with
    | false => exact ⟨_, rfl, rfl, rfl, rfl⟩
    | true =>
      obtain ⟨s1, r, h1, hf, hip, hsz, _, _⟩ := setReg_ok s tgt result a.w htgt
      simp only [h1, if_true]
      exact ⟨_, rfl, by simp [hf], hip, hsz⟩

/-- The result computed by `handleArithmetic` fits 16 bits. -/
theorem arithResult_lt (op : ArithmeticOp) (target source : Nat) :
    (arithResult op target source).1 < 65536 := by
  cases op <;> simp only [arithResult] <;> omega

/-- Peeking four bytes at the start of a buffer that holds at least four. -/
theorem mustPeek_four (buf : List Byte) (h : 4 ≤ buf.length) :
    (newReader buf).mustPeek 4 = .ok (buf.take 4, newReader buf) := by
  have hn : ¬ (((0 : Nat) : Int) + ((4 : Nat) : Int) - 1 ≥ (buf.length : Int)) := by omega
  simp only [Reader.mustPeek, Reader.mustReadN, Reader.readN, newReader]
  rw [if_neg hn]
  simp

/-- Decoding a two-byte jump or loop at `ip`. -/
theorem disassemble_jump (s : Sim) (opc kb : Byte) (rest : List Byte)
    (hip : s.ip < s.initSize) (hmem : memFrom s.mem s.ip = .ok (opc :: kb :: rest))
    (hlen : 2 ≤ rest.length) (hm : isMov opc.val = false) (ha : isArithmetic opc.val = false)
    (hj : isJumpOrLoop opc.val = true) :
    s.disassemble = .ok ({ s with lastInsSize := 2 },
      .ok (some (.jumpOrLoop { op := opc.val, inc := int8 kb.val }))) := by
  have hn : ¬ s.ip ≥ (s.initSize : Int) := by omega
  have hpeek := mustPeek_four (opc :: kb :: rest) (by simp; omega)
  have hr0 : (newReader (opc :: kb :: rest)).mustRead = .ok (opc.val, ⟨1, opc :: kb :: rest⟩) :=
    Reader.mustRead_of_drop (newReader (opc :: kb :: rest)) opc (kb :: rest) rfl
  have hr1 : (⟨1, opc :: kb :: rest⟩ : Reader).mustRead = .ok (kb.val, ⟨2, opc :: kb :: rest⟩) :=
    Reader.mustRead_of_drop ⟨1, opc :: kb :: rest⟩ kb rest rfl
  unfold Sim.disassemble
  rw [if_neg hn]
  simp only [hmem, hpeek, List.take_succ_cons, hm, ha, hj, hr0, Reader.mustReadInt8, hr1]
  simp

/-- Range of the conversion `int8`. -/
theorem int8_range (b : Nat) : -128 ≤ int8 b ∧ int8 b < 128 ∧ int8 b % 256 = ((b % 256 : Nat) : Int) := by
  unfold int8
  split <;> omega

theorem byte_mod_field (b : Byte) : (b.val >>> 6) &&& 0b11 = b.val >>> 6 := by
  rw [and_three_eq_mod, Nat.shiftRight_eq_div_pow]
  have := b.isLt
  omega

theorem exists_drop_cons {α : Type} (l : List α) (k : Nat) (h : k + 1 ≤ l.length) :
    ∃ b rest, l.drop k = b :: rest :=
  ⟨_, _, List.drop_eq_getElem_cons (by omega)⟩

theorem exists_drop_cons_cons {α : Type} (l : List α) (k : Nat) (h : k + 2 ≤ l.length) :
    ∃ lo hi rest, l.drop k = lo :: hi :: rest := by
  refine ⟨l[k], l[k + 1], l.drop (k + 2), ?_⟩
  rw [List.drop_eq_getElem_cons (by omega), List.drop_eq_getElem_cons (by omega)]

/-- The three cases of `parseCommon` on the bytes `b :: rest`. -/
theorem parseCommon_cases (r : Reader) (b : Byte) (rest : List Byte)
    (h : r.buf.drop r.idx = b :: rest) :
    ((b.val >>> 6 = 0b10 ∨ (b.val >>> 6 = 0b00 ∧ b.val &&& 0b111 = 0b110)) →
      ∀ (lo hi : Byte) (rest2 : List Byte), rest = lo :: hi :: rest2 →
        parseCommon r = .ok ({ mod := b.val >>> 6, reg := (b.val >>> 3) &&& 0b111,
                               rm := b.val &&& 0b111,
                               disp := int16 (lo.val + 256 * hi.val) },
                             ⟨r.idx + 3, r.buf⟩)) ∧
    (b.val >>> 6 = 0b01 →
      ∀ (d : Byte) (rest2 : List Byte), rest = d :: rest2 →
        parseCommon r = .ok ({ mod := b.val >>> 6, reg := (b.val >>> 3) &&& 0b111,
                               rm := b.val &&& 0b111, disp := int8 d.val },
                             ⟨r.idx + 2, r.buf⟩)) ∧
    ((b.val >>> 6 = 0b11 ∨ (b.val >>> 6 = 0b00 ∧ b.val &&& 0b111 ≠ 0b110)) →
      parseCommon r = .ok ({ mod := b.val >>> 6, reg := (b.val >>> 3) &&& 0b111,
                             rm := b.val &&& 0b111, disp := 0 },
                           ⟨r.idx + 1, r.buf⟩)) := by
  have h1 := Reader.mustRead_of_drop r b rest h
  have hrest := drop_succ_of_drop r b rest h
  have hmod := byte_mod_field b
  refine ⟨?_, ?_, ?_⟩
  · intro hc lo hi rest2 hr
    have h2 : (⟨r.idx + 1, r.buf⟩ : Reader).mustReadUint16 =
        .ok ((hi.val <<< 8) ||| lo.val, ⟨r.idx + 1 + 2, r.buf⟩) :=
      Reader.mustReadUint16_of_drop ⟨r.idx + 1, r.buf⟩ lo hi rest2 (by rw [← hr]; exact hrest)
    have hne : ¬ (b.val >>> 6 = 0b01) := by omega
    unfold parseCommon
    simp only [h1, hmod, hne, if_false, hc, if_true, Reader.mustReadInt16, h2,
      shl_or_eq lo.val hi.val lo.isLt]
  · intro hc d rest2 hr
    have h2 : (⟨r.idx + 1, r.buf⟩ : Reader).mustRead = .ok (d.val, ⟨r.idx + 1 + 1, r.buf⟩) :=
      Reader.mustRead_of_drop ⟨r.idx + 1, r.buf⟩ d rest2 (by rw [← hr]; exact hrest)
    unfold parseCommon
    simp only [h1, hmod]
    simp only [hc, if_true, h2]
  · intro hc
    have hne1 : ¬ (b.val >>> 6 = 0b01) := by omega
    have hne2 : ¬ (b.val >>> 6 = 0b10 ∨ (b.val >>> 6 = 0b00 ∧ b.val &&& 0b111 = 0b110)) := by omega
    unfold parseCommon
    simp only [h1, hmod, hne1, hne2, if_false]

/-- With the displacement bytes present, `parseCommon` returns and leaves the
cursor `1 + dispLen` bytes further. -/
theorem parseCommon_ok (r : Reader) (b : Byte) (rest : List Byte)
    (h : r.buf.drop r.idx = b :: rest) (hlen : dispLen b.val ≤ rest.length) :
    ∃ c, parseCommon r = .ok (c, ⟨r.idx + (1 + dispLen b.val), r.buf⟩) ∧
      c.mod = b.val >>> 6 ∧ c.reg = (b.val >>> 3) &&& 0b111 ∧ c.rm = b.val &&& 0b111 := by
  obtain ⟨hA, hB, hC⟩ := parseCommon_cases r b rest h
  have hlt : b.val >>> 6 < 4 := by
    rw [Nat.shiftRight_eq_div_pow]
    have := b.isLt
    omega
  by_cases h1 : b.val >>> 6 = 0b01
  · have hd : dispLen b.val = 1 := by simp [dispLen, h1]
    rw [hd] at hlen ⊢
    obtain ⟨d, rest2, hr⟩ := exists_drop_cons rest 0 (by omega)
    exact ⟨_, hB h1 d rest2 (by simpa using hr), rfl, rfl, rfl⟩
  · by_cases h2 : b.val >>> 6 = 0b10 ∨ (b.val >>> 6 = 0b00 ∧ b.val &&& 0b111 = 0b110)
    · have hd : dispLen b.val = 2 := by simp only [dispLen, h1, h2, if_false, if_true]
      rw [hd] at hlen ⊢
      obtain ⟨lo, hi, rest2, hr⟩ := exists_drop_cons_cons rest 0 (by omega)
      exact ⟨_, hA h2 lo hi rest2 (by simpa using hr), rfl, rfl, rfl⟩
    · have hd : dispLen b.val = 0 := by simp only [dispLen, h1, h2, if_false]
      rw [hd]
      exact ⟨_, hC (by omega), rfl, rfl, rfl⟩

/-- With fewer than four bytes of memory from `ip` on, the look-ahead of the
decode step panics. -/
theorem disassemble_peek_short (s : Sim) (buf : List Byte) (hip : s.ip < s.initSize)
    (hmem : memFrom s.mem s.ip = .ok buf) (hlen : buf.length < 4) :
    s.disassemble = .error .ErrOutOfBound := by
  have hn : ¬ s.ip ≥ (s.initSize : Int) := by omega
  have hc : (((0 : Nat) : Int) + ((4 : Nat) : Int) - 1 ≥ (buf.length : Int)) := by omega
  unfold Sim.disassemble
  rw [if_neg hn]
  simp only [hmem, Reader.mustPeek, Reader.mustReadN, Reader.readN, newReader]
  rw [if_pos hc]

theorem newSim_mem (prog : List Byte) :
    (newSim prog).mem = prog ++ List.replicate (max prog.length 4096 - prog.length) 0 := rfl

theorem newSim_initSize (prog : List Byte) : (newSim prog).initSize = prog.length := rfl

/-- The memory from the end of a prefix on. -/
theorem memFrom_append_right (pre post : List Byte) :
    memFrom (pre ++ post) pre.length = .ok post := by
  unfold memFrom
  rw [if_neg (by rw [List.length_append]; omega)]
  simp

/-- Decoding at `ip` a byte that is no Mov, arithmetic or jump opcode, with at
least four bytes of memory from `ip` on: the `unknown instruction` error with
the four bytes looked at, and an unchanged state. -/
theorem disassemble_unknown (s : Sim) (fb : Byte) (rest : List Byte)
    (hip : s.ip < s.initSize) (hmem : memFrom s.mem s.ip = .ok (fb :: rest))
    (hlen : 3 ≤ rest.length) (hm : isMov fb.val = false) (ha : isArithmetic fb.val = false)
    (hj : isJumpOrLoop fb.val = false) :
    s.disassemble = .ok (s, .error (.unknownInstruction (fb :: rest.take 3))) := by
  have hn : ¬ s.ip ≥ (s.initSize : Int) := by omega
  have hpeek := mustPeek_four (fb :: rest) (by simp; omega)
  unfold Sim.disassemble
  rw [if_neg hn]
  simp only [hmem, hpeek, List.take_succ_cons, hm, ha, hj]
  simp

/-- A table index below the length of the table. -/
theorem indexTable_lt (t : List String) (i : Nat) (h : i < t.length) :
    t[i]? = some t[i] ∧ indexTable t i = .ok t[i] := by
  have h1 : t[i]? = some t[i] := List.getElem?_eq_getElem h
  exact ⟨h1, by simp [indexTable, h1]⟩

/-- The width bit is 0 or 1. -/
theorem and_one_cases (x : Nat) : x &&& 1 = 0 ∨ x &&& 1 = 1 := by
  rw [and_one_eq_mod]
  omega

theorem and_seven_lt (x : Nat) : x &&& 0b111 < 8 := by
  rw [and_seven_eq_mod]
  omega

/-- Decoding a register-to-register Mov `100010dw` with `mod = 11`. -/
theorem parseMov_regreg (r : Reader) (fb m : Byte) (rest : List Byte)
    (h : r.buf.drop r.idx = fb :: m :: rest) (hfb : fb.val >>> 2 = 0b100010)
    (hm : m.val >>> 6 = 0b11) :
    parseMov r = .ok ({ typ := .Mov_RegisteryOrMemory_ToOrFrom_Register,
                        d := (fb.val >>> 1) &&& 1, w := fb.val &&& 1,
                        mod := 0b11, reg := (m.val >>> 3) &&& 0b111, rm := m.val &&& 0b111,
                        disp := 0 }, ⟨r.idx + 2, r.buf⟩) := by
  have h1 := Reader.mustRead_of_drop r fb (m :: rest) h
  have hrest := drop_succ_of_drop r fb (m :: rest) h
  have hc := (parseCommon_cases ⟨r.idx + 1, r.buf⟩ m rest hrest).2.2 (Or.inl hm)
  unfold parseMov
  simp only [h1, hfb, if_true, hc, hm]

/-- Text of a register-to-register Mov. -/
theorem Disassemble_regreg (d w reg rm : Nat) (hreg : reg < 8) (hrm : rm < 8) :
    ∃ regN rmN,
      (if w = 0 then REGISTERS_8 else REGISTERS_16)[reg]? = some regN ∧
      (if w = 0 then REGISTERS_8 else REGISTERS_16)[rm]? = some rmN ∧
      Mov.Disassemble { typ := .Mov_RegisteryOrMemory_ToOrFrom_Register, d := d, w := w,
                        mod := 0b11, reg := reg, rm := rm, disp := 0 } =
        .ok (if d = 1 then "mov " ++ regN ++ ", " ++ rmN else "mov " ++ rmN ++ ", " ++ regN) := by
  have hlen : (if w = 0 then REGISTERS_8 else REGISTERS_16).length = 8 := by
    split <;> rfl
  obtain ⟨a1, a2⟩ := indexTable_lt (if w = 0 then REGISTERS_8 else REGISTERS_16) reg (by omega)
  obtain ⟨b1, b2⟩ := indexTable_lt (if w = 0 then REGISTERS_8 else REGISTERS_16) rm (by omega)
  refine ⟨_, _, a1, b1, ?_⟩
  simp only [Mov.Disassemble, Common.regName, regName, Common.rmName, a2, b2, if_true]
  by_cases hd : d = 1 <;> simp [hd]

/-- Decoding an immediate-to-register Mov `1011wreg` with `w = 1`. -/
theorem parseMov_imm_wide (r : Reader) (fb lo hi : Byte) (rest : List Byte)
    (h : r.buf.drop r.idx = fb :: lo :: hi :: rest) (hfb : fb.val >>> 4 = 0b1011)
    (hw : (fb.val >>> 3) &&& 1 = 1) :
    parseMov r = .ok ({ typ := .Mov_Immediate_To_Register, w := 1, reg := fb.val &&& 0b111,
                        data := lo.val + 256 * hi.val }, ⟨r.idx + 3, r.buf⟩) := by
  have h1 := Reader.mustRead_of_drop r fb (lo :: hi :: rest) h
  have hrest := drop_succ_of_drop r fb (lo :: hi :: rest) h
  have h2 := Reader.mustReadUint16_of_drop ⟨r.idx + 1, r.buf⟩ lo hi rest hrest
  have hne : ¬ (fb.val >>> 2 = 0b100010) := by
    rw [Nat.shiftRight_eq_div_pow] at hfb ⊢
    omega
  unfold parseMov
  simp only [h1, hne, if_false, hfb, if_true, hw, Reader.mustReadUint16W, beq_self_eq_true, h2,
    shl_or_eq lo.val hi.val lo.isLt]

/-- Decoding an immediate-to-register Mov `1011wreg` with `w = 0`. -/
theorem parseMov_imm_narrow (r : Reader) (fb b : Byte) (rest : List Byte)
    (h : r.buf.drop r.idx = fb :: b :: rest) (hfb : fb.val >>> 4 = 0b1011)
    (hw : (fb.val >>> 3) &&& 1 = 0) :
    parseMov r = .ok ({ typ := .Mov_Immediate_To_Register, w := 0, reg := fb.val &&& 0b111,
                        data := b.val }, ⟨r.idx + 2, r.buf⟩) := by
  have h1 := Reader.mustRead_of_drop r fb (b :: rest) h
  have hrest := drop_succ_of_drop r fb (b :: rest) h
  have h2 := Reader.mustRead_of_drop ⟨r.idx + 1, r.buf⟩ b rest hrest
  have hne : ¬ (fb.val >>> 2 = 0b100010) := by
    rw [Nat.shiftRight_eq_div_pow] at hfb ⊢
    omega
  have hb : ((0 : Nat) == 1) = false := rfl
  unfold parseMov
  simp only [h1, hne, if_false, hfb, if_true, hw, Reader.mustReadUint16W, hb, h2]
  rfl

/-- Text of an immediate-to-register Mov. -/
theorem Disassemble_imm (w reg data : Nat) (hreg : reg < 8) :
    ∃ regN,
      (if w = 0 then REGISTERS_8 else REGISTERS_16)[reg]? = some regN ∧
      Mov.Disassemble { typ := .Mov_Immediate_To_Register, w := w, reg := reg, data := data } =
        .ok ("mov " ++ regN ++ ", " ++ toString data) := by
  have hlen : (if w = 0 then REGISTERS_8 else REGISTERS_16).length = 8 := by
    split <;> rfl
  obtain ⟨a1, a2⟩ := indexTable_lt (if w = 0 then REGISTERS_8 else REGISTERS_16) reg (by omega)
  refine ⟨_, a1, ?_⟩
  simp only [Mov.Disassemble, Common.regName, regName, a2, fmtD]

/-- Every valid register-to-register encoding passes the round-trip test. -/
theorem roundTripMov_all :
    ∀ fb : Byte, fb.val >>> 2 = 0b100010 → ∀ m : Byte, m.val >>> 6 = 0b11 →
      roundTripMov fb m = true := by
  decide!

/-- What a passed round-trip test says. -/
theorem roundTripMov_spec (fb m : Byte) (h : roundTripMov fb m = true) :
    ∃ text, movRegText fb m = .ok text ∧
      reassembleMov ((fb.val >>> 1) &&& 1) text = some (fb, m) := by
  unfold roundTripMov at h
  cases ht : movRegText fb m with
  | error e => simp [ht] at h
  | ok text =>
    simp only [ht, decide_eq_true_eq] at h
    exact ⟨text, rfl, h⟩

/-- The bytes `buf[idx : idx+n]` when they lie within the buffer. -/
theorem take_drop_spec (buf : List Byte) (idx n : Nat) (h : idx + n ≤ buf.length) :
    ((buf.drop idx).take n).length = n ∧
    ∀ k, k < n → ((buf.drop idx).take n)[k]? = buf[idx + k]? := by
  refine ⟨?_, ?_⟩
  · rw [List.length_take, List.length_drop]
    omega
  · intro k hk
    rw [List.getElem?_take_of_lt hk, List.getElem?_drop]

/-- The outcome of Go `read`. -/
theorem read_spec (r : Reader) :
    (r.idx ≥ r.buf.length → r.read = (.error .ErrOutOfBound, r)) ∧
    (∀ h : r.idx < r.buf.length, r.read = (.ok (r.buf[r.idx]).val, ⟨r.idx + 1, r.buf⟩)) := by
  refine ⟨?_, ?_⟩
  · intro h
    simp [Reader.read, h]
  · intro h
    have hn : ¬ r.idx ≥ r.buf.length := by omega
    simp [Reader.read, hn]

/-- The outcome of Go `readN`. -/
theorem readN_spec (r : Reader) (n : Nat) :
    (r.idx + n > r.buf.length → r.readN n = (.error .ErrOutOfBound, r)) ∧
    (r.idx + n ≤ r.buf.length →
      r.readN n = (.ok ((r.buf.drop r.idx).take n), ⟨r.idx + n, r.buf⟩)) := by
  refine ⟨?_, ?_⟩
  · intro h
    have hc : (r.idx : Int) + (n : Int) - 1 ≥ (r.buf.length : Int) := by omega
    unfold Reader.readN
    rw [if_pos hc]
  · intro h
    have hc : ¬ ((r.idx : Int) + (n : Int) - 1 ≥ (r.buf.length : Int)) := by omega
    unfold Reader.readN
    rw [if_neg hc]

/-- A byte can be read when the cursor is inside the buffer. -/
theorem mustRead_ok (r : Reader) (h : r.idx + 1 ≤ r.buf.length) :
    ∃ b, r.mustRead = .ok (b, ⟨r.idx + 1, r.buf⟩) := by
  obtain ⟨b, rest, hd⟩ := exists_drop_cons r.buf r.idx h
  exact ⟨_, Reader.mustRead_of_drop r b rest hd⟩

/-- Two bytes can be read when two bytes remain. -/
theorem mustReadUint16_ok (r : Reader) (h : r.idx + 2 ≤ r.buf.length) :
    ∃ v, r.mustReadUint16 = .ok (v, ⟨r.idx + 2, r.buf⟩) := by
  obtain ⟨lo, hi, rest, hd⟩ := exists_drop_cons_cons r.buf r.idx h
  exact ⟨_, Reader.mustReadUint16_of_drop r lo hi rest hd⟩

/-- One or two bytes can be read when two bytes remain. -/
theorem mustReadUint16W_ok (r : Reader) (wide : Bool) (h : r.idx + 2 ≤ r.buf.length) :
    ∃ v r1, r.mustReadUint16W wide = .ok (v, r1) ∧ r1.buf = r.buf ∧
      r.idx + 1 ≤ r1.idx ∧ r1.idx ≤ r.idx + 2 := by
  cases wide with
  | true =>
    obtain ⟨v, hv⟩ := mustReadUint16_ok r h
    exact ⟨v, ⟨r.idx + 2, r.buf⟩, by simp [Reader.mustReadUint16W, hv], rfl,
      Nat.add_le_add_left (by decide) _, Nat.le_refl _⟩
  | false =>
    obtain ⟨v, hv⟩ := mustRead_ok r (by omega)
    exact ⟨v, ⟨r.idx + 1, r.buf⟩, by simp [Reader.mustReadUint16W, hv], rfl,
      Nat.le_refl _, Nat.add_le_add_left (by decide) _⟩

/-- A displacement has at most two bytes. -/
theorem dispLen_le (m : Nat) : dispLen m ≤ 2 := by
  unfold dispLen
  split
  · omega
  · split <;> omega

/-- With three bytes remaining `parseCommon` returns, one to three bytes
further. -/
theorem parseCommon_total (r : Reader) (h : r.idx + 3 ≤ r.buf.length) :
    ∃ c r1, parseCommon r = .ok (c, r1) ∧ r1.buf = r.buf ∧
      r.idx + 1 ≤ r1.idx ∧ r1.idx ≤ r.idx + 3 := by
  obtain ⟨b, rest, hd⟩ := exists_drop_cons r.buf r.idx (by omega)
  have hrl : rest.length + (r.idx + 1) = r.buf.length := by
    have := congrArg List.length hd
    simp at this
    omega
  have hdl := dispLen_le b.val
  obtain ⟨c, hc, _⟩ := parseCommon_ok r b rest hd (by omega)
  exact ⟨c, ⟨r.idx + (1 + dispLen b.val), r.buf⟩, hc, rfl,
    Nat.add_le_add_left (by omega) _, Nat.add_le_add_left (by omega) _⟩

/-- With six bytes remaining `parseMov` returns, one to six bytes further, and
at least two bytes further when the Mov is valid. -/
theorem parseMov_total (r : Reader) (h : r.idx + 6 ≤ r.buf.length) :
    ∃ m r1, parseMov r = .ok (m, r1) ∧ r1.buf = r.buf ∧
      r.idx + 1 ≤ r1.idx ∧ r1.idx ≤ r.idx + 6 ∧
      (m.typ ≠ .Mov_Invalid → r.idx + 2 ≤ r1.idx) := by
  obtain ⟨b, hb⟩ := mustRead_ok r (by omega)
  unfold parseMov
  simp only [hb]
  by_cases c1 : b >>> 2 = 0b100010
  · obtain ⟨c, r1, hc, hbuf, hlo, hhi⟩ := parseCommon_total ⟨r.idx + 1, r.buf⟩ (by simpa using by omega)
    simp only [c1, if_true, hc]
    simp only at hbuf hlo hhi
    exact ⟨_, r1, rfl, hbuf, by omega, by omega, fun _ => by omega⟩
  · by_cases c2 : b >>> 4 = 0b1011
    · obtain ⟨v, r1, hv, hbuf, hlo, hhi⟩ :=
        mustReadUint16W_ok ⟨r.idx + 1, r.buf⟩ ((b >>> 3) &&& 1 == 1) (by simpa using by omega)
      simp only [c1, if_false, c2, if_true, hv]
      simp only at hbuf hlo hhi
      exact ⟨_, r1, rfl, hbuf, by omega, by omega, fun _ => by omega⟩
    · by_cases c3 : b >>> 1 = 0b1100011
      · obtain ⟨c, r1, hc, hbuf, hlo, hhi⟩ :=
          parseCommon_total ⟨r.idx + 1, r.buf⟩ (by simpa using by omega)
        simp only at hbuf hlo hhi
        obtain ⟨v, r2, hv, hbuf2, hlo2, hhi2⟩ :=
          mustReadUint16W_ok r1 (b &&& 1 == 1) (by rw [hbuf]; omega)
        simp only [c1, if_false, c2, c3, if_true, hc, hv]
        exact ⟨_, r2, rfl, by rw [hbuf2, hbuf], by omega, by omega, fun _ => by omega⟩
      · by_cases c4 : b >>> 1 = 0b1010000
        · obtain ⟨v, hv⟩ := mustReadUint16_ok ⟨r.idx + 1, r.buf⟩ (by simpa using by omega)
          simp only [c1, if_false, c2, c3, c4, if_true, hv]
          exact ⟨_, ⟨r.idx + 1 + 2, r.buf⟩, rfl, rfl, by simp, by simp, fun _ => by simp⟩
        · by_cases c5 : b >>> 1 = 0b1010001
          · obtain ⟨v, hv⟩ := mustReadUint16_ok ⟨r.idx + 1, r.buf⟩ (by simpa using by omega)
            simp only [c1, if_false, c2, c3, c4, c5, if_true, hv]
            exact ⟨_, ⟨r.idx + 1 + 2, r.buf⟩, rfl, rfl, by simp, by simp, fun _ => by simp⟩
          · simp only [c1, if_false, c2, c3, c4, c5]
            exact ⟨_, ⟨r.idx + 1, r.buf⟩, rfl, rfl, by simp, by simp, fun hne => absurd rfl hne⟩

/-- With six bytes remaining `parseArithmetic` returns a valid instruction, two
to six bytes further. -/
theorem parseArithmetic_total (r : Reader) (h : r.idx + 6 ≤ r.buf.length) :
    ∃ a r1, parseArithmetic r = .ok (a, r1) ∧ r1.buf = r.buf ∧
      r.idx + 2 ≤ r1.idx ∧ r1.idx ≤ r.idx + 6 ∧ a.typ ≠ .Arithmetic_Invalid := by
  obtain ⟨b, hb⟩ := mustRead_ok r (by omega)
  unfold parseArithmetic
  simp only [hb]
  by_cases c1 : b >>> 2 = 0b100000
  · obtain ⟨c, r1, hc, hbuf, hlo, hhi⟩ :=
      parseCommon_total ⟨r.idx + 1, r.buf⟩ (by simpa using by omega)
    simp only at hbuf hlo hhi
    obtain ⟨v, r2, hv, hbuf2, hlo2, hhi2⟩ :=
      mustReadUint16W_ok r1 ((b >>> 1) &&& 1 == 0 && (b >>> 0) &&& 1 == 1) (by rw [hbuf]; omega)
    simp only [c1, if_true, hc, hv]
    exact ⟨_, r2, rfl, by rw [hbuf2, hbuf], by omega, by omega, by simp⟩
  · by_cases c2 : (b >>> 2) &&& 1 = 0b1
    · obtain ⟨v, r1, hv, hbuf, hlo, hhi⟩ :=
        mustReadUint16W_ok ⟨r.idx + 1, r.buf⟩ ((b >>> 0) &&& 1 == 1) (by simpa using by omega)
      simp only at hbuf hlo hhi
      simp only [c1, if_false, c2, if_true, hv]
      exact ⟨_, r1, rfl, hbuf, by omega, by omega, by simp⟩
    · have c3 : (b >>> 2) &&& 1 = 0b0 := by
        rcases and_one_cases (b >>> 2) with h0 | h1
        · exact h0
        · exact absurd h1 c2
      obtain ⟨c, r1, hc, hbuf, hlo, hhi⟩ :=
        parseCommon_total ⟨r.idx + 1, r.buf⟩ (by simpa using by omega)
      simp only at hbuf hlo hhi
      simp only [c1, if_false, c2, c3, if_true, hc]
      exact ⟨_, r1, rfl, hbuf, by omega, by omega, by simp⟩

/-- The slice `mem[ip:]` for `ip` within the memory. -/
theorem memFrom_ok (mem : List Byte) (ip : Int) (h0 : 0 ≤ ip) (h1 : ip ≤ mem.length) :
    memFrom mem ip = .ok (mem.drop ip.toNat) := by
  unfold memFrom
  rw [if_neg (by omega)]

/-- The memory of `newSim` has `max(len, 4096)` bytes. -/
theorem newSim_mem_length (prog : List Byte) :
    (newSim prog).mem.length = max prog.length 4096 := by
  rw [newSim_mem, List.length_append, List.length_replicate]
  omega

/-- With six bytes of memory from `ip` on, the decode step returns: either an
instruction with a recorded size from 2 to 6, or an error value with the
state unchanged; `ip` is unchanged in both cases. -/
theorem disassemble_total (s : Sim) (buf : List Byte) (hip : s.ip < s.initSize)
    (hmem : memFrom s.mem s.ip = .ok buf) (hlen : 6 ≤ buf.length) :
    ∃ s1 res, s.disassemble = .ok (s1, res) ∧ s1.ip = s.ip ∧
      ((∃ cmd, res = .ok (some cmd) ∧ 2 ≤ s1.lastInsSize ∧ s1.lastInsSize ≤ 6) ∨
       (∃ e, res = .error e ∧ s1 = s)) := by
  have hn : ¬ s.ip ≥ (s.initSize : Int) := by omega
  obtain ⟨fb, rest, rfl⟩ : ∃ fb rest, buf = fb :: rest := by
    cases buf with
    | nil => simp at hlen
    | cons fb rest => exact ⟨fb, rest, rfl⟩
  have hrl : 5 ≤ rest.length := by simpa using hlen
  have hl6 : (newReader (fb :: rest)).idx + 6 ≤ (newReader (fb :: rest)).buf.length := by
    simp only [newReader, List.length_cons]
    omega
  have hpeek := mustPeek_four (fb :: rest) (by simp only [List.length_cons]; omega)
  unfold Sim.disassemble
  rw [if_neg hn]
  simp only [hmem, hpeek, List.take_succ_cons]
  cases hm : isMov fb.val with
  | true =>
    obtain ⟨m, r1, hp, _, hlo, hhi, hv⟩ := parseMov_total (newReader (fb :: rest)) hl6
    simp only [newReader] at hlo hhi hv
    simp only [if_true, hp]
    by_cases ht : m.typ = .Mov_Invalid
    · simp only [ht, if_true]
      exact ⟨_, _, rfl, rfl, Or.inr ⟨_, rfl, rfl⟩⟩
    · simp only [ht, if_false]
      have h2 := hv ht
      exact ⟨_, _, rfl, rfl, Or.inl ⟨_, rfl, (by show 2 ≤ r1.idx; omega),
        (by show r1.idx ≤ 6; omega)⟩⟩
  | false =>
    simp only [Bool.false_eq_true, if_false]
    cases ha : isArithmetic fb.val with
    | true =>
      obtain ⟨a, r1, hp, _, hlo, hhi, hv⟩ := parseArithmetic_total (newReader (fb :: rest)) hl6
      simp only [newReader] at hlo hhi
      simp only [if_true, hp, hv, if_false]
      exact ⟨_, _, rfl, rfl, Or.inl ⟨_, rfl, (by show 2 ≤ r1.idx; omega),
        (by show r1.idx ≤ 6; omega)⟩⟩
    | false =>
      simp only [Bool.false_eq_true, if_false]
      cases hj : isJumpOrLoop fb.val with
      | true =>
        obtain ⟨b1, hb1⟩ := mustRead_ok (newReader (fb :: rest))
          (by simp only [newReader, List.length_cons]; omega)
        obtain ⟨b2, hb2⟩ := mustRead_ok ⟨(newReader (fb :: rest)).idx + 1, fb :: rest⟩
          (by simp only [newReader, List.length_cons]; omega)
        simp only [newReader] at hb1 hb2
        simp only [if_true, newReader, hb1, Reader.mustReadInt8, hb2]
        exact ⟨_, _, rfl, rfl, Or.inl ⟨_, rfl, by simp, by simp⟩⟩
      | false =>
        simp only [Bool.false_eq_true, if_false]
        exact ⟨_, _, rfl, rfl, Or.inr ⟨_, rfl, rfl⟩⟩

/-- The test program has 4096 bytes. -/
theorem endProgram_length : endProgram.length = 4096 := by
  simp [endProgram]

/-- No padding is added to a program of 4096 bytes. -/
theorem endProgram_mem : (newSim endProgram).mem = endProgram := by
  rw [newSim_mem, endProgram_length]
  exact List.append_nil _

/-- The bytes of the test program before the last one. -/
theorem endProgram_getElem (i : Nat) (h : i < 4095) (hi : i < endProgram.length) :
    endProgram[i] = if i % 3 = 0 then 0xB8 else 0x00 := by
  unfold endProgram
  rw [List.getElem_append_left (by simpa using h)]
  simp

/-- The memory of `endProgram` from the start of its `k`-th instruction on. -/
theorem endProgram_memFrom (k : Nat) (hk : k < 1365) :
    ∃ rest, memFrom endProgram ((3 * k : Nat) : Int) = .ok (0xB8 :: 0x00 :: 0x00 :: rest) ∧
      1 ≤ rest.length := by
  have hl := endProgram_length
  have h0 := endProgram_getElem (3 * k) (by omega) (by omega)
  have h1 := endProgram_getElem (3 * k + 1) (by omega) (by omega)
  have h2 := endProgram_getElem (3 * k + 2) (by omega) (by omega)
  rw [if_pos (by omega)] at h0
  rw [if_neg (by omega)] at h1 h2
  refine ⟨endProgram.drop (3 * k + 3), ?_, ?_⟩
  · rw [memFrom_ok _ _ (by omega) (by omega)]
    rw [Int.toNat_ofNat, List.drop_eq_getElem_cons (by omega), List.drop_eq_getElem_cons (by omega),
      List.drop_eq_getElem_cons (by omega), h0, h1, h2]
  · rw [List.length_drop]
    omega

/-- The memory of `endProgram` at its last byte. -/
theorem endProgram_memFrom_last : memFrom endProgram 4095 = .ok [0xF4] := by
  have h := memFrom_append_right
    ((List.range 4095).map (fun i => if i % 3 = 0 then (0xB8 : Byte) else 0x00)) [0xF4]
  rw [List.length_map, List.length_range] at h
  have e : ((4095 : Nat) : Int) = 4095 := rfl
  rw [e] at h
  exact h

/-- Decoding `B8 lo hi` at `ip`, four bytes of memory being there. -/
theorem disassemble_mov_ax (s : Sim) (lo hi : Byte) (rest : List Byte)
    (hip : s.ip < s.initSize) (hmem : memFrom s.mem s.ip = .ok (0xB8 :: lo :: hi :: rest))
    (hlen : 1 ≤ rest.length) :
    s.disassemble = .ok ({ s with lastInsSize := 3 },
      .ok (some (.mov { typ := .Mov_Immediate_To_Register, w := 1, reg := 0,
                        data := lo.val + 256 * hi.val }))) := by
  have hn : ¬ s.ip ≥ (s.initSize : Int) := by omega
  have hpeek := mustPeek_four (0xB8 :: lo :: hi :: rest) (by simp only [List.length_cons]; omega)
  have hp := parseMov_imm_wide (newReader (0xB8 :: lo :: hi :: rest)) 0xB8 lo hi rest rfl
    (by decide) (by decide)
  have hm : isMov (0xB8 : Byte).val = true := by decide
  unfold Sim.disassemble
  rw [if_neg hn]
  simp only [hmem, hpeek, List.take_succ_cons, hm, if_true, hp]
  rfl

/-- One iteration of the driver without execution on `B8 lo hi`. -/
theorem driverStep_mov_ax (s : Sim) (lo hi : Byte) (rest : List Byte)
    (hip : s.ip < s.initSize) (hmem : memFrom s.mem s.ip = .ok (0xB8 :: lo :: hi :: rest))
    (hlen : 1 ≤ rest.length) :
    driverStep false s = .ok ({ s with lastInsSize := 3, ip := s.ip + 3 }, .ok (some ())) := by
  unfold driverStep
  rw [disassemble_mov_ax s lo hi rest hip hmem hlen]
  rfl

/-- The driver without execution on the memory of `endProgram`, started at the
`(1365 - j)`-th instruction, stops after `j + 1` iterations on the panic of
the look-ahead. -/
theorem endProgram_run (j : Nat) (hj : j ≤ 1365) (s : Sim) (hmem : s.mem = endProgram)
    (hsz : s.initSize = 4096) (hip : s.ip = ((3 * (1365 - j) : Nat) : Int)) :
    driver false (j + 1) s = .panicked .ErrOutOfBound := by
  induction j generalizing s with
  | zero =>
    have hd := disassemble_peek_short s [0xF4] (by rw [hip, hsz]; decide)
      (by rw [hmem, hip]; exact endProgram_memFrom_last) (by decide)
    simp only [driver, driverStep, hd]
  | succ j ih =>
    obtain ⟨rest, hm, hl⟩ := endProgram_memFrom (1365 - (j + 1)) (by omega)
    have hs := driverStep_mov_ax s 0x00 0x00 rest (by rw [hip, hsz]; omega)
      (by rw [hmem, hip]; exact hm) hl
    have h2 := ih (by omega) { s with lastInsSize := 3, ip := s.ip + 3 } hmem hsz
      (by show s.ip + 3 = _
          rw [hip]; omega)
    simp only [driver, hs] at h2 ⊢
    exact h2

/-- The decode step on the memory of `endProgram` at `ip = 4095`. -/
theorem endProgram_decode_last (s : Sim) (hmem : s.mem = endProgram)
    (hsz : s.initSize = 4096) (hip : s.ip = 4095) :
    s.disassemble = .error .ErrOutOfBound :=
  disassemble_peek_short s [0xF4] (by rw [hip, hsz]; decide)
    (by rw [hmem, hip]; exact endProgram_memFrom_last) (by decide)

/-- Go `-x` on an `int16` is the mathematical negation except at `-32768`. -/
theorem negInt16_eq (d : Int) (h1 : -32768 < d) (h2 : d ≤ 32767) : negInt16 d = -d := by
  unfold negInt16
  omega

/-- For a negative displacement other than `-32768`, `rmName` writes the
magnitude after a minus sign. -/
theorem rmName_negative (c : Common) (wide : Nat) (hmod : c.mod = 0b01 ∨ c.mod = 0b10)
    (hrm : c.rm < 8) (h1 : -32768 < c.disp) (h2 : c.disp < 0) :
    ∃ base,
      ["bx + si", "bx + di", "bp + si", "bp + di", "si", "di", "bp", "bx"][c.rm]? = some base ∧
      c.rmName wide = .ok ("[" ++ base ++ " - " ++ toString (-c.disp) ++ "]") := by
  obtain ⟨a1, a2⟩ := indexTable_lt
    ["bx + si", "bx + di", "bp + si", "bp + di", "si", "di", "bp", "bx"] c.rm (by simpa using hrm)
  refine ⟨_, a1, ?_⟩
  have hne3 : ¬ c.mod = 0b11 := by omega
  have hne0 : ¬ c.mod = 0b00 := by omega
  have hor : c.mod = 0b00 ∨ c.mod = 0b01 ∨ c.mod = 0b10 := by omega
  unfold Common.rmName
  rw [if_neg hne3, if_pos hor]
  simp only [a2, hne0, if_false, h2, if_true, negInt16_eq c.disp h1 (by omega), fmtDInt]

/-- Whatever `setReg` returns differs from the given state in `regs` only. -/
theorem setReg_frame (s s1 : Sim) (idx v w r : Nat) (h : s.setReg idx v w = .ok (s1, r)) :
    s1.flags = s.flags ∧ s1.ip = s.ip ∧ s1.lastInsSize = s.lastInsSize ∧
      s1.mem = s.mem ∧ s1.initSize = s.initSize := by
  by_cases hidx : idx < 8
  · obtain ⟨s2, r2, h2, f1, f2, f3, f4, f5⟩ := setReg_ok s idx v w hidx
    rw [h2] at h
    injection h with h
    injection h with h3 _
    rw [← h3]
    exact ⟨f1, f2, f3, f4, f5⟩
  · simp [Sim.setReg, hidx] at h

/-- Outcome of `handleMov`: the returned error is `nil` or `unsupported mov
type`, the latter exactly for the forms that are not executed, and then the
state is unchanged; only `regs` can change. -/
theorem handleMov_frame (s s1 : Sim) (m : Mov) (err : Option Error)
    (h : s.handleMov m = .ok (s1, err)) :
    (s1.flags = s.flags ∧ s1.ip = s.ip ∧ s1.lastInsSize = s.lastInsSize ∧
      s1.mem = s.mem ∧ s1.initSize = s.initSize) ∧
    (err = none ∨ err = some .unsupportedMov) ∧
    (err = some .unsupportedMov ↔
      ¬ (m.typ = .Mov_Immediate_To_Register ∨
         (m.typ = .Mov_RegisteryOrMemory_ToOrFrom_Register ∧ m.mod = 0b11))) ∧
    (err = some .unsupportedMov → s1 = s) := by
  unfold Sim.handleMov at h
  cases ht : m.typ with
  | Mov_Immediate_To_Register =>
    simp only [ht] at h
    cases hs : s.setReg m.reg m.data m.w with
    | error e => simp [hs] at h
    | ok res =>
      obtain ⟨s2, r2⟩ := res
      simp only [hs, Except.ok.injEq, Prod.mk.injEq] at h
      obtain ⟨h1, h2⟩ := h
      subst h1 h2
      exact ⟨setReg_frame s s2 _ _ _ _ hs, Or.inl rfl, by simp, by simp⟩
  | Mov_RegisteryOrMemory_ToOrFrom_Register =>
    simp only [ht] at h
    by_cases hmod : m.mod = 0b11
    · simp only [hmod, ne_eq, not_true_eq_false, if_false] at h
      cases hg : s.getReg (if m.d = 1 then m.rm else m.reg) m.w with
      | error e => simp [hg] at h
      | ok v =>
        simp only [hg] at h
        cases hs : s.setReg (if m.d = 1 then m.reg else m.rm) v m.w with
        | error e => simp [hs] at h
        | ok res =>
          obtain ⟨s2, r2⟩ := res
          simp only [hs, Except.ok.injEq, Prod.mk.injEq] at h
          obtain ⟨h1, h2⟩ := h
          subst h1 h2
          exact ⟨setReg_frame s s2 _ _ _ _ hs, Or.inl rfl, by simp [hmod], by simp⟩
    · simp only [ne_eq, hmod, not_false_eq_true, if_true, Except.ok.injEq, Prod.mk.injEq] at h
      obtain ⟨h1, h2⟩ := h
      subst h1 h2
      exact ⟨⟨rfl, rfl, rfl, rfl, rfl⟩, Or.inr rfl, by simp [hmod], fun _ => rfl⟩
  | Mov_Invalid =>
    simp only [ht, Except.ok.injEq, Prod.mk.injEq] at h
    obtain ⟨h1, h2⟩ := h
    subst h1 h2
    exact ⟨⟨rfl, rfl, rfl, rfl, rfl⟩, Or.inr rfl, by simp, fun _ => rfl⟩
  | Mov_Immediate_To_RegisterOrMemory =>
    simp only [ht, Except.ok.injEq, Prod.mk.injEq] at h
    obtain ⟨h1, h2⟩ := h
    subst h1 h2
    exact ⟨⟨rfl, rfl, rfl, rfl, rfl⟩, Or.inr rfl, by simp, fun _ => rfl⟩
  | Mov_Memory_To_Accumulator =>
    simp only [ht, Except.ok.injEq, Prod.mk.injEq] at h
    obtain ⟨h1, h2⟩ := h
    subst h1 h2
    exact ⟨⟨rfl, rfl, rfl, rfl, rfl⟩, Or.inr rfl, by simp, fun _ => rfl⟩
  | Mov_Accumulator_To_Memory =>
    simp only [ht, Except.ok.injEq, Prod.mk.injEq] at h
    obtain ⟨h1, h2⟩ := h
    subst h1 h2
    exact ⟨⟨rfl, rfl, rfl, rfl, rfl⟩, Or.inr rfl, by simp, fun _ => rfl⟩

/-- With register fields below 8, `handleMov` returns. -/
theorem handleMov_ok (s : Sim) (m : Mov) (hreg : m.reg < 8) (hrm : m.rm < 8) :
    ∃ s1 err, s.handleMov m = .ok (s1, err) := by
  unfold Sim.handleMov
  cases ht : m.typ with
  | Mov_Immediate_To_Register =>
    obtain ⟨s2, r2, h2, _⟩ := setReg_ok s m.reg m.data m.w hreg
    simp only [h2]
    exact ⟨_, _, rfl⟩
  | Mov_RegisteryOrMemory_ToOrFrom_Register =>
    by_cases hmod : m.mod = 0b11
    · have hsrc : (if m.d = 1 then m.rm else m.reg) < 8 := by split <;> assumption
      have hdst : (if m.d = 1 then m.reg else m.rm) < 8 := by split <;> assumption
      obtain ⟨v, hv⟩ := getReg_ok s _ m.w hsrc
      obtain ⟨s2, r2, h2, _⟩ := setReg_ok s _ v m.w hdst
      simp only [hmod, ne_eq, not_true_eq_false, if_false, hv, h2]
      exact ⟨_, _, rfl⟩
    · simp only [ne_eq, hmod, not_false_eq_true, if_true]
      exact ⟨_, _, rfl⟩
  | Mov_Invalid => exact ⟨_, _, rfl⟩
  | Mov_Immediate_To_RegisterOrMemory => exact ⟨_, _, rfl⟩
  | Mov_Memory_To_Accumulator => exact ⟨_, _, rfl⟩
  | Mov_Accumulator_To_Memory => exact ⟨_, _, rfl⟩

/-- The jump and loop opcodes, and what the other opcode tests say of them. -/
theorem jump_opcode_range :
    ∀ b : Byte, ((0x70 ≤ b.val ∧ b.val ≤ 0x7F) ∨ (0xE0 ≤ b.val ∧ b.val ≤ 0xE3)) →
      isJumpOrLoop b.val = true ∧ isMov b.val = false ∧ isArithmetic b.val = false := by
  decide!

/-- What a successful `mustRead` tells. -/
theorem mustRead_inv (r r1 : Reader) (b : Nat) (h : r.mustRead = .ok (b, r1)) :
    r1 = ⟨r.idx + 1, r.buf⟩ ∧ b < 256 ∧ r.idx + 1 ≤ r.buf.length := by
  by_cases hc : r.idx + 1 ≤ r.buf.length
  · obtain ⟨x, rest, hd⟩ := exists_drop_cons r.buf r.idx hc
    rw [Reader.mustRead_of_drop r x rest hd] at h
    simp only [Except.ok.injEq, Prod.mk.injEq] at h
    exact ⟨h.2.symm, by rw [← h.1]; exact x.isLt, hc⟩
  · have hge : r.idx ≥ r.buf.length := by omega
    simp [Reader.mustRead, Reader.read, hge] at h

/-- What a successful `mustReadUint16` tells. -/
theorem mustReadUint16_inv (r r1 : Reader) (v : Nat) (h : r.mustReadUint16 = .ok (v, r1)) :
    r1 = ⟨r.idx + 2, r.buf⟩ ∧ r.idx + 2 ≤ r.buf.length := by
  by_cases hc : r.idx + 2 ≤ r.buf.length
  · obtain ⟨v2, h2⟩ := mustReadUint16_ok r hc
    rw [h2] at h
    simp only [Except.ok.injEq, Prod.mk.injEq] at h
    exact ⟨h.2.symm, hc⟩
  · have hge : (r.idx : Int) + ((2 : Nat) : Int) - 1 ≥ (r.buf.length : Int) := by omega
    simp only [Reader.mustReadUint16, Reader.readN] at h
    rw [if_pos hge] at h
    simp at h

/-- What a successful `mustReadUint16W` tells. -/
theorem mustReadUint16W_inv (r r1 : Reader) (wide : Bool) (v : Nat)
    (h : r.mustReadUint16W wide = .ok (v, r1)) :
    r1 = ⟨r.idx + (if wide = true then 2 else 1), r.buf⟩ := by
  cases wide with
  | true =>
    simp only [Reader.mustReadUint16W, if_true] at h
    exact (mustReadUint16_inv r r1 v h).1
  | false =>
    simp only [Reader.mustReadUint16W, Bool.false_eq_true, if_false] at h
    exact (mustRead_inv r r1 v h).1

/-- What a successful `parseCommon` tells: the cursor moved over the
mod-reg-rm byte and the displacement, and the fields are in range. -/
theorem parseCommon_inv (r r1 : Reader) (c : Common) (h : parseCommon r = .ok (c, r1)) :
    r1 = ⟨r.idx + 1 + c.dispSize, r.buf⟩ ∧ c.mod < 4 ∧ c.reg < 8 ∧ c.rm < 8 := by
  unfold parseCommon at h
  cases hb : r.mustRead with
  | error e => simp [hb] at h
  | ok res =>
    obtain ⟨b1, r0⟩ := res
    obtain ⟨hr0, hb1, _⟩ := mustRead_inv r r0 b1 hb
    subst hr0
    have hmod : (b1 >>> 6) &&& 0b11 < 4 := by rw [and_three_eq_mod]; omega
    simp only [hb] at h
    by_cases c1 : (b1 >>> 6) &&& 0b11 = 0b01
    · simp only [c1, if_true] at h
      cases h2 : Reader.mustRead ⟨r.idx + 1, r.buf⟩ with
      | error e => simp [h2] at h
      | ok res2 =>
        obtain ⟨b2, r2⟩ := res2
        obtain ⟨hr2, _, _⟩ := mustRead_inv _ r2 b2 h2
        simp only [h2, Except.ok.injEq, Prod.mk.injEq] at h
        obtain ⟨hc, hr⟩ := h
        subst hc hr
        simp only at hr2
        refine ⟨?_, (by show (1 : Nat) < 4; decide), and_seven_lt _, and_seven_lt _⟩
        rw [hr2]
        simp [Common.dispSize]
    · simp only [c1, if_false] at h
      by_cases c2 : (b1 >>> 6) &&& 0b11 = 0b10 ∨
          ((b1 >>> 6) &&& 0b11 = 0b00 ∧ b1 &&& 0b111 = 0b110)
      · simp only [c2, if_true] at h
        cases h2 : Reader.mustReadUint16 ⟨r.idx + 1, r.buf⟩ with
        | error e => simp [Reader.mustReadInt16, h2] at h
        | ok res2 =>
          obtain ⟨v, r2⟩ := res2
          obtain ⟨hr2, _⟩ := mustReadUint16_inv _ r2 v h2
          simp only [Reader.mustReadInt16, h2, Except.ok.injEq, Prod.mk.injEq] at h
          obtain ⟨hc, hr⟩ := h
          subst hc hr
          simp only at hr2
          refine ⟨?_, hmod, and_seven_lt _, and_seven_lt _⟩
          rw [hr2]
          simp only [Common.dispSize, c1, if_false, c2, if_true]
      · simp only [c2, if_false, Except.ok.injEq, Prod.mk.injEq] at h
        obtain ⟨hc, hr⟩ := h
        subst hc hr
        refine ⟨?_, hmod, and_seven_lt _, and_seven_lt _⟩
        simp only [Common.dispSize, c1, if_false, c2, Nat.add_zero]

/-- What a successful `parseMov` tells: the cursor moved over the bytes of the
encoding, the fields are in range, and the Mov is invalid exactly when the
first byte matches none of the five forms. -/
theorem parseMov_inv (r r1 : Reader) (m : Mov) (h : parseMov r = .ok (m, r1)) :
    r1 = ⟨r.idx + m.encodedSize, r.buf⟩ ∧ m.mod < 4 ∧ m.reg < 8 ∧ m.rm < 8 ∧
    ∃ fb, r.mustRead = .ok (fb, ⟨r.idx + 1, r.buf⟩) ∧ fb < 256 ∧
      (m.typ = .Mov_Invalid ↔
        ¬ (fb >>> 2 = 0b100010 ∨ fb >>> 4 = 0b1011 ∨ fb >>> 1 = 0b1100011 ∨
           fb >>> 1 = 0b1010000 ∨ fb >>> 1 = 0b1010001)) := by
  unfold parseMov at h
  cases hb : r.mustRead with
  | error e => rw [hb] at h; cases h
  | ok res =>
    obtain ⟨b, r0⟩ := res
    obtain ⟨hr0, hb256, _⟩ := mustRead_inv r r0 b hb
    subst hr0
    by_cases c1 : b >>> 2 = 0b100010
    · cases hc : parseCommon ⟨r.idx + 1, r.buf⟩ with
      | error e => simp only [hb, c1, if_true, hc] at h; cases h
      | ok res2 =>
        obtain ⟨c, r2⟩ := res2
        obtain ⟨hr2, k1, k2, k3⟩ := parseCommon_inv _ r2 c hc
        simp only [hb, c1, if_true, hc, Except.ok.injEq, Prod.mk.injEq] at h
        obtain ⟨hm, hr⟩ := h
        subst hm hr
        refine ⟨?_, k1, k2, k3, b, rfl, hb256, by simp [c1]⟩
        rw [hr2]
        simp only [Mov.encodedSize]
        congr 1
        omega
    · by_cases c2 : b >>> 4 = 0b1011
      · cases hv : Reader.mustReadUint16W ⟨r.idx + 1, r.buf⟩ ((b >>> 3) &&& 1 == 1) with
        | error e => simp only [hb, c1, if_false, c2, if_true, hv] at h; cases h
        | ok res2 =>
          obtain ⟨v, r2⟩ := res2
          have hr2 := mustReadUint16W_inv _ r2 _ v hv
          simp only [hb, c1, if_false, c2, if_true, hv, Except.ok.injEq, Prod.mk.injEq] at h
          obtain ⟨hm, hr⟩ := h
          subst hm hr
          refine ⟨?_, by show (0 : Nat) < 4; decide, and_seven_lt _, by show (0 : Nat) < 8; decide,
            b, rfl, hb256, by simp [c2]⟩
          rw [hr2]
          simp only [Mov.encodedSize, beq_iff_eq]
          congr 1
          omega
      · by_cases c3 : b >>> 1 = 0b1100011
        · cases hc : parseCommon ⟨r.idx + 1, r.buf⟩ with
          | error e => simp only [hb, c1, if_false, c2, c3, if_true, hc] at h; cases h
          | ok res2 =>
            obtain ⟨c, r2⟩ := res2
            obtain ⟨hr2, k1, k2, k3⟩ := parseCommon_inv _ r2 c hc
            cases hv : Reader.mustReadUint16W r2 (b &&& 1 == 1) with
            | error e => simp only [hb, c1, if_false, c2, c3, if_true, hc, hv] at h; cases h
            | ok res3 =>
              obtain ⟨v, r3⟩ := res3
              have hr3 := mustReadUint16W_inv _ r3 _ v hv
              simp only [hb, c1, if_false, c2, c3, if_true, hc, hv, Except.ok.injEq,
                Prod.mk.injEq] at h
              obtain ⟨hm, hr⟩ := h
              subst hm hr
              refine ⟨?_, k1, k2, k3, b, rfl, hb256, by simp [c3]⟩
              rw [hr3, hr2]
              simp only [Mov.encodedSize, beq_iff_eq]
              congr 1
              omega
        · by_cases c4 : b >>> 1 = 0b1010000
          · cases hv : Reader.mustReadUint16 ⟨r.idx + 1, r.buf⟩ with
            | error e => simp only [hb, c1, if_false, c2, c3, c4, if_true, hv] at h; cases h
            | ok res2 =>
              obtain ⟨v, r2⟩ := res2
              obtain ⟨hr2, _⟩ := mustReadUint16_inv _ r2 v hv
              simp only [hb, c1, if_false, c2, c3, c4, if_true, hv, Except.ok.injEq,
                Prod.mk.injEq] at h
              obtain ⟨hm, hr⟩ := h
              rw [hr2]
              exact ⟨rfl, by show (0 : Nat) < 4; decide, by show (0 : Nat) < 8; decide,
                by show (0 : Nat) < 8; decide, b, rfl, hb256, by simp [c4]⟩
          · by_cases c5 : b >>> 1 = 0b1010001
            · cases hv : Reader.mustReadUint16 ⟨r.idx + 1, r.buf⟩ with
              | error e => simp only [hb, c1, if_false, c2, c3, c4, c5, if_true, hv] at h; cases h
              | ok res2 =>
                obtain ⟨v, r2⟩ := res2
                obtain ⟨hr2, _⟩ := mustReadUint16_inv _ r2 v hv
                simp only [hb, c1, if_false, c2, c3, c4, c5, if_true, hv, Except.ok.injEq,
                  Prod.mk.injEq] at h
                obtain ⟨hm, hr⟩ := h
                rw [hr2]
                exact ⟨rfl, by show (0 : Nat) < 4; decide, by show (0 : Nat) < 8; decide,
                  by show (0 : Nat) < 8; decide, b, rfl, hb256, by simp [c5]⟩
            · simp only [hb, c1, if_false, c2, c3, c4, c5, Except.ok.injEq, Prod.mk.injEq] at h
              obtain ⟨hm, hr⟩ := h
              subst hm hr
              exact ⟨rfl, by show (0 : Nat) < 4; decide, by show (0 : Nat) < 8; decide,
                by show (0 : Nat) < 8; decide, b, rfl, hb256,
                by simp [c1, c2, c3, c4, c5]⟩

/-- What a successful `parseArithmetic` tells: the cursor moved over the bytes
of the encoding, the subtype is valid and the fields are in range. -/
theorem parseArithmetic_inv (r r1 : Reader) (a : Arithmetic)
    (h : parseArithmetic r = .ok (a, r1)) :
    r1 = ⟨r.idx + a.encodedSize, r.buf⟩ ∧ a.typ ≠ .Arithmetic_Invalid ∧
      a.mod < 4 ∧ a.reg < 8 ∧ a.rm < 8 := by
  unfold parseArithmetic at h
  cases hb : r.mustRead with
  | error e => rw [hb] at h; cases h
  | ok res =>
    obtain ⟨b, r0⟩ := res
    obtain ⟨hr0, hb256, _⟩ := mustRead_inv r r0 b hb
    subst hr0
    by_cases c1 : b >>> 2 = 0b100000
    · cases hc : parseCommon ⟨r.idx + 1, r.buf⟩ with
      | error e => simp only [hb, c1, if_true, hc] at h; cases h
      | ok res2 =>
        obtain ⟨c, r2⟩ := res2
        obtain ⟨hr2, k1, k2, k3⟩ := parseCommon_inv _ r2 c hc
        cases hv : Reader.mustReadUint16W r2 ((b >>> 1) &&& 1 == 0 && (b >>> 0) &&& 1 == 1) with
        | error e => simp only [hb, c1, if_true, hc, hv] at h; cases h
        | ok res3 =>
          obtain ⟨v, r3⟩ := res3
          have hr3 := mustReadUint16W_inv _ r3 _ v hv
          simp only [hb, c1, if_true, hc, hv, Except.ok.injEq, Prod.mk.injEq] at h
          obtain ⟨hm, hr⟩ := h
          subst hm hr
          refine ⟨?_, by simp, k1, k2, k3⟩
          rw [hr3, hr2]
          simp only [Arithmetic.encodedSize, Bool.and_eq_true, beq_iff_eq]
          congr 1
          omega
    · by_cases c2 : (b >>> 2) &&& 1 = 0b1
      · cases hv : Reader.mustReadUint16W ⟨r.idx + 1, r.buf⟩ ((b >>> 0) &&& 1 == 1) with
        | error e => simp only [hb, c1, if_false, c2, if_true, hv] at h; cases h
        | ok res2 =>
          obtain ⟨v, r2⟩ := res2
          have hr2 := mustReadUint16W_inv _ r2 _ v hv
          simp only [hb, c1, if_false, c2, if_true, hv, Except.ok.injEq, Prod.mk.injEq] at h
          obtain ⟨hm, hr⟩ := h
          subst hm hr
          refine ⟨?_, by simp, by show (0 : Nat) < 4; decide, by show (0 : Nat) < 8; decide,
            by show (0 : Nat) < 8; decide⟩
          rw [hr2]
          simp only [Arithmetic.encodedSize, beq_iff_eq]
          congr 1
          omega
      · have c3 : (b >>> 2) &&& 1 = 0b0 := by
          rcases and_one_cases (b >>> 2) with h0 | h1
          · exact h0
          · exact absurd h1 c2
        cases hc : parseCommon ⟨r.idx + 1, r.buf⟩ with
        | error e => simp only [hb, c1, if_false, c2, c3, if_true, hc] at h; cases h
        | ok res2 =>
          obtain ⟨c, r2⟩ := res2
          obtain ⟨hr2, k1, k2, k3⟩ := parseCommon_inv _ r2 c hc
          simp only [hb, c1, if_false, c2, c3, if_true, hc, Except.ok.injEq, Prod.mk.injEq] at h
          obtain ⟨hm, hr⟩ := h
          refine ⟨?_, by simp, k1, k2, k3⟩
          rw [hr2]
          simp only [Arithmetic.encodedSize]
          congr 1
          omega

/-- Bytes accepted by `isMov` that match none of the five forms of `parseMov`. -/
theorem isMov_no_form : ∀ b : Byte, isMov b.val = true →
    (¬ (b.val >>> 2 = 0b100010 ∨ b.val >>> 4 = 0b1011 ∨ b.val >>> 1 = 0b1100011 ∨
        b.val >>> 1 = 0b1010000 ∨ b.val >>> 1 = 0b1010001) ↔
      (b.val = 0x8C ∨ b.val = 0x8E)) := by
  decide!

/-- The bytes `8C` and `8E` are accepted by `isMov`. -/
theorem isMov_segment : ∀ b : Byte, (b.val = 0x8C ∨ b.val = 0x8E) → isMov b.val = true := by
  decide!

/-- A successful four-byte peek at the start of a buffer. -/
theorem mustPeek_four_inv (buf bs : List Byte) (r0 : Reader)
    (h : (newReader buf).mustPeek 4 = .ok (bs, r0)) :
    4 ≤ buf.length ∧ bs = buf.take 4 ∧ r0 = ⟨0, buf⟩ := by
  by_cases hlen : 4 ≤ buf.length
  · rw [mustPeek_four buf hlen] at h
    simp only [Except.ok.injEq, Prod.mk.injEq] at h
    exact ⟨hlen, h.1.symm, h.2.symm⟩
  · have hc : (((0 : Nat) : Int) + ((4 : Nat) : Int) - 1 ≥ (buf.length : Int)) := by omega
    simp only [Reader.mustPeek, Reader.mustReadN, Reader.readN, newReader] at h
    rw [if_pos hc] at h
    cases h

/-- The ways in which a decode step returns: at the end of the program, or
with four bytes peeked at `ip` and the result of the parser that the first
byte selects. -/
theorem disassemble_cases (s s1 : Sim) (res : Except Error (Option Command))
    (h : s.disassemble = .ok (s1, res)) :
    (s.ip ≥ s.initSize ∧ s1 = s ∧ res = .ok none) ∨
    (s.ip < s.initSize ∧ 0 ≤ s.ip ∧ ∃ fb tl, memFrom s.mem s.ip = .ok (fb :: tl) ∧ 3 ≤ tl.length ∧
      ((isMov fb.val = true ∧ ∃ m r1, parseMov ⟨0, fb :: tl⟩ = .ok (m, r1) ∧
          ((m.typ = .Mov_Invalid ∧ s1 = s ∧ res = .error (.invalidMov (fb :: tl.take 3))) ∨
           (m.typ ≠ .Mov_Invalid ∧ s1 = { s with lastInsSize := r1.idx } ∧
              res = .ok (some (.mov m))))) ∨
       (isMov fb.val = false ∧ isArithmetic fb.val = true ∧
          ∃ a r1, parseArithmetic ⟨0, fb :: tl⟩ = .ok (a, r1) ∧
            s1 = { s with lastInsSize := r1.idx } ∧ res = .ok (some (.arithmetic a))) ∨
       (isMov fb.val = false ∧ isArithmetic fb.val = false ∧ isJumpOrLoop fb.val = true ∧
          ∃ kb tl2, tl = kb :: tl2 ∧ s1 = { s with lastInsSize := 2 } ∧
            res = .ok (some (.jumpOrLoop { op := fb.val, inc := int8 kb.val }))) ∨
       (isMov fb.val = false ∧ isArithmetic fb.val = false ∧ isJumpOrLoop fb.val = false ∧
          s1 = s ∧ res = .error (.unknownInstruction (fb :: tl.take 3))))) := by
  by_cases hge : s.ip ≥ (s.initSize : Int)
  · left
    unfold Sim.disassemble at h
    rw [if_pos hge] at h
    simp only [Except.ok.injEq, Prod.mk.injEq] at h
    exact ⟨hge, h.1.symm, h.2.symm⟩
  · right
    have h0 : 0 ≤ s.ip := by
      by_contra hneg
      unfold Sim.disassemble at h
      rw [if_neg hge] at h
      have : memFrom s.mem s.ip = .error .indexOutOfRange := by
        unfold memFrom
        rw [if_pos (Or.inl (by omega))]
      rw [this] at h
      cases h
    refine ⟨by omega, h0, ?_⟩
    cases hmem : memFrom s.mem s.ip with
    | error e =>
      unfold Sim.disassemble at h
      rw [if_neg hge] at h
      simp only [hmem] at h
      cases h
    | ok buf =>
      cases hp : (newReader buf).mustPeek 4 with
      | error e =>
        unfold Sim.disassemble at h
        rw [if_neg hge] at h
        simp only [hmem, hp] at h
        cases h
      | ok pr =>
        obtain ⟨bs, r0⟩ := pr
        obtain ⟨hlen, hbs, hr0⟩ := mustPeek_four_inv buf bs r0 hp
        subst hbs hr0
        cases buf with
        | nil => simp at hlen
        | cons fb tl =>
          have hlen3 : 3 ≤ tl.length := by simpa using hlen
          refine ⟨fb, tl, rfl, hlen3, ?_⟩
          unfold Sim.disassemble at h
          rw [if_neg hge] at h
          simp only [hmem, hp, List.take_succ_cons] at h
          cases hm : isMov fb.val with
          | true =>
            left
            refine ⟨rfl, ?_⟩
            cases hpm : parseMov ⟨0, fb :: tl⟩ with
            | error e =>
              simp only [hm, if_true, hpm] at h
              cases h
            | ok pr2 =>
              obtain ⟨m, r1⟩ := pr2
              refine ⟨m, r1, rfl, ?_⟩
              simp only [hm, if_true, hpm] at h
              by_cases hinv : m.typ = .Mov_Invalid
              · left
                rw [if_pos hinv] at h
                simp only [Except.ok.injEq, Prod.mk.injEq] at h
                exact ⟨hinv, h.1.symm, h.2.symm⟩
              · right
                rw [if_neg hinv] at h
                simp only [Except.ok.injEq, Prod.mk.injEq] at h
                exact ⟨hinv, h.1.symm, h.2.symm⟩
          | false =>
            right
            cases ha : isArithmetic fb.val with
            | true =>
              left
              refine ⟨rfl, rfl, ?_⟩
              cases hpa : parseArithmetic ⟨0, fb :: tl⟩ with
              | error e =>
                simp only [hm, Bool.false_eq_true, if_false, ha, if_true, hpa] at h
                cases h
              | ok pr2 =>
                obtain ⟨a, r1⟩ := pr2
                refine ⟨a, r1, rfl, ?_⟩
                have hinv : ¬ a.typ = .Arithmetic_Invalid := (parseArithmetic_inv _ _ _ hpa).2.1
                simp only [hm, Bool.false_eq_true, if_false, ha, if_true, hpa] at h
                rw [if_neg hinv] at h
                simp only [Except.ok.injEq, Prod.mk.injEq] at h
                exact ⟨h.1.symm, h.2.symm⟩
            | false =>
              right
              cases hj : isJumpOrLoop fb.val with
              | true =>
                left
                refine ⟨rfl, rfl, rfl, ?_⟩
                cases tl with
                | nil => simp at hlen3
                | cons kb tl2 =>
                  have hd := disassemble_jump s fb kb tl2 (by omega) hmem
                    (by simpa using hlen3) hm ha hj
                  have hd2 : s.disassemble = .ok (s1, res) := by
                    unfold Sim.disassemble
                    rw [if_neg hge]
                    simp only [hmem, hp, List.take_succ_cons]
                    exact h
                  rw [hd] at hd2
                  simp only [Except.ok.injEq, Prod.mk.injEq] at hd2
                  exact ⟨kb, tl2, rfl, hd2.1.symm, hd2.2.symm⟩
              | false =>
                right
                simp only [hm, Bool.false_eq_true, if_false, ha, hj, Except.ok.injEq,
                  Prod.mk.injEq] at h
                exact ⟨rfl, rfl, rfl, h.1.symm, h.2.symm⟩

/-- A displacement has at most two bytes. -/
theorem dispSize_le (c : Common) : c.dispSize ≤ 2 := by
  unfold Common.dispSize
  split
  · omega
  · split <;> omega

/-- A valid Mov occupies two to six bytes. -/
theorem movEncodedSize_bounds (m : Mov) (h : m.typ ≠ .Mov_Invalid) :
    2 ≤ m.encodedSize ∧ m.encodedSize ≤ 6 := by
  have hd := dispSize_le m.toCommon
  unfold Mov.encodedSize
  cases ht : m.typ with
  | Mov_Invalid => exact absurd ht h
  | Mov_RegisteryOrMemory_ToOrFrom_Register => simp only; omega
  | Mov_Immediate_To_Register => simp only; split <;> omega
  | Mov_Immediate_To_RegisterOrMemory => simp only; split <;> omega
  | Mov_Memory_To_Accumulator => simp only; omega
  | Mov_Accumulator_To_Memory => simp only; omega

/-- A valid arithmetic instruction occupies two to six bytes. -/
theorem arithmeticEncodedSize_bounds (a : Arithmetic) (h : a.typ ≠ .Arithmetic_Invalid) :
    2 ≤ a.encodedSize ∧ a.encodedSize ≤ 6 := by
  have hd := dispSize_le a.toCommon
  unfold Arithmetic.encodedSize
  cases ht : a.typ with
  | Arithmetic_Invalid => exact absurd ht h
  | Arithmetic_RegOrMemory_With_Register_To_Either => simp only; omega
  | Arithmetic_Immediate_To_RegisterOrMemory => simp only; split <;> omega
  | Arithmetic_Immediate_To_Accumulator => simp only; split <;> omega

/-- The decode step changes nothing but the recorded instruction size. -/
theorem disassemble_frame (s s1 : Sim) (res : Except Error (Option Command))
    (h : s.disassemble = .ok (s1, res)) :
    s1.ip = s.ip ∧ s1.regs = s.regs ∧ s1.flags = s.flags ∧ s1.mem = s.mem ∧
      s1.initSize = s.initSize := by
  rcases disassemble_cases s s1 res h with ⟨_, h1, _⟩ | ⟨_, _, fb, tl, _, _, hc⟩
  · subst h1
    exact ⟨rfl, rfl, rfl, rfl, rfl⟩
  · rcases hc with ⟨_, m, r1, _, hm⟩ | ⟨_, _, a, r1, _, h1, _⟩ | ⟨_, _, _, kb, tl2, _, h1, _⟩ |
      ⟨_, _, _, h1, _⟩
    · rcases hm with ⟨_, h1, _⟩ | ⟨_, h1, _⟩
      · subst h1
        exact ⟨rfl, rfl, rfl, rfl, rfl⟩
      · subst h1
        exact ⟨rfl, rfl, rfl, rfl, rfl⟩
    · subst h1
      exact ⟨rfl, rfl, rfl, rfl, rfl⟩
    · subst h1
      exact ⟨rfl, rfl, rfl, rfl, rfl⟩
    · subst h1
      exact ⟨rfl, rfl, rfl, rfl, rfl⟩

/-- When the decode step returns no instruction, the state is unchanged; with
`(nil, nil)` the instruction pointer is at or beyond the end of the program. -/
theorem disassemble_none (s s1 : Sim) (res : Except Error (Option Command))
    (h : s.disassemble = .ok (s1, res)) :
    (res = .ok none → s1 = s ∧ s.ip ≥ s.initSize) ∧ (∀ e, res = .error e → s1 = s) := by
  rcases disassemble_cases s s1 res h with ⟨h0, h1, h2⟩ | ⟨_, _, fb, tl, _, _, hc⟩
  · subst h1 h2
    exact ⟨fun _ => ⟨rfl, h0⟩, fun e he => by cases he⟩
  · rcases hc with ⟨_, m, r1, _, hm⟩ | ⟨_, _, a, r1, _, h1, h2⟩ | ⟨_, _, _, kb, tl2, _, h1, h2⟩ |
      ⟨_, _, _, h1, h2⟩
    · rcases hm with ⟨_, h1, h2⟩ | ⟨_, h1, h2⟩
      · subst h1 h2
        exact ⟨fun he => (by cases he), fun _ _ => rfl⟩
      · subst h2
        exact ⟨fun he => (by cases he), fun e he => (by cases he)⟩
    · subst h2
      exact ⟨fun he => (by cases he), fun e he => (by cases he)⟩
    · subst h2
      exact ⟨fun he => (by cases he), fun e he => (by cases he)⟩
    · subst h1 h2
      exact ⟨fun he => (by cases he), fun _ _ => rfl⟩

/-- When the decode step returns an instruction, `ip` is inside the program,
the recorded size is the number of bytes of the encoding, two to six, and the
fields of the instruction are in range. -/
theorem disassemble_some (s s1 : Sim) (cmd : Command)
    (h : s.disassemble = .ok (s1, .ok (some cmd))) :
    s1 = { s with lastInsSize := cmd.encodedSize } ∧ 0 ≤ s.ip ∧ s.ip < s.initSize ∧
    2 ≤ cmd.encodedSize ∧ cmd.encodedSize ≤ 6 ∧
    (∀ m, cmd = .mov m → m.typ ≠ .Mov_Invalid ∧ m.mod < 4 ∧ m.reg < 8 ∧ m.rm < 8) ∧
    (∀ a, cmd = .arithmetic a →
      a.typ ≠ .Arithmetic_Invalid ∧ a.mod < 4 ∧ a.reg < 8 ∧ a.rm < 8 ∧ a.op = .Arithmetic_Add) ∧
    (∀ j, cmd = .jumpOrLoop j → -128 ≤ j.inc ∧ j.inc ≤ 127 ∧ j.op < 256) := by
  rcases disassemble_cases s s1 _ h with ⟨_, _, h2⟩ | ⟨hlt, h0, fb, tl, _, _, hc⟩
  · cases h2
  · rcases hc with ⟨_, m, r1, hp, hm⟩ | ⟨_, _, a, r1, hp, h1, h2⟩ |
      ⟨_, _, _, kb, tl2, _, h1, h2⟩ | ⟨_, _, _, _, h2⟩
    · rcases hm with ⟨_, _, h2⟩ | ⟨hv, h1, h2⟩
      · cases h2
      · obtain ⟨hr1, k1, k2, k3, _⟩ := parseMov_inv _ _ _ hp
        have hb := movEncodedSize_bounds m hv
        injection h2 with h2
        injection h2 with h2
        subst h2
        have hidx : r1.idx = m.encodedSize := by rw [hr1]; exact Nat.zero_add _
        refine ⟨by rw [h1, hidx]; rfl, h0, hlt, hb.1, hb.2, ?_, ?_, ?_⟩
        · intro m2 e
          injection e with e
          subst e
          exact ⟨hv, k1, k2, k3⟩
        · intro a e
          cases e
        · intro j e
          cases e
    · obtain ⟨hr1, hv, k1, k2, k3⟩ := parseArithmetic_inv _ _ _ hp
      have hop := parseArithmetic_op _ _ _ hp
      have hb := arithmeticEncodedSize_bounds a hv
      injection h2 with h2
      injection h2 with h2
      subst h2
      have hidx : r1.idx = a.encodedSize := by rw [hr1]; exact Nat.zero_add _
      refine ⟨by rw [h1, hidx]; rfl, h0, hlt, hb.1, hb.2, ?_, ?_, ?_⟩
      · intro m e
        cases e
      · intro a2 e
        injection e with e
        subst e
        exact ⟨hv, k1, k2, k3, hop⟩
      · intro j e
        cases e
    · injection h2 with h2
      injection h2 with h2
      subst h2
      refine ⟨h1, h0, hlt, Nat.le_refl 2, (by show (2 : Nat) ≤ 6; decide), ?_, ?_, ?_⟩
      · intro m e
        cases e
      · intro a e
        cases e
      · intro j e
        injection e with e
        subst e
        have hr := int8_range kb.val
        exact ⟨hr.1, by have := hr.2.1; show int8 kb.val ≤ 127; omega, fb.isLt⟩
    · cases h2

/-- Whatever `handleArithmetic` returns differs from the given state in `regs`
and `flags` only, and the returned error is `nil`. -/
theorem handleArithmetic_frame (s s1 : Sim) (a : Arithmetic) (err : Option Error)
    (h : s.handleArithmetic a = .ok (s1, err)) :
    s1.ip = s.ip ∧ s1.lastInsSize = s.lastInsSize ∧ s1.mem = s.mem ∧
      s1.initSize = s.initSize ∧ err = none := by
  unfold Sim.handleArithmetic at h
  cases ho : s.arithOperands a with
  | error e => rw [ho] at h; cases h
  | ok t =>
    obtain ⟨tgt, target, source⟩ := t
    rw [ho] at h
    simp only at h
    cases hw : (arithResult a.op target source).2 with
    | false =>
      simp only [hw, Bool.false_eq_true, if_false, Except.ok.injEq, Prod.mk.injEq] at h
      obtain ⟨h1, h2⟩ := h
      subst h1 h2
      exact ⟨rfl, rfl, rfl, rfl, rfl⟩
    | true =>
      simp only [hw, if_true] at h
      cases hs : s.setReg tgt (arithResult a.op target source).1 a.w with
      | error e => rw [hs] at h; cases h
      | ok pr =>
        obtain ⟨s2, r2⟩ := pr
        obtain ⟨_, f2, f3, f4, f5⟩ := setReg_frame s s2 _ _ _ _ hs
        simp only [hs, Except.ok.injEq, Prod.mk.injEq] at h
        obtain ⟨h1, h2⟩ := h
        subst h1 h2
        exact ⟨f2, f3, f4, f5, rfl⟩

/-- What `exec` does to `ip`: a Mov or an arithmetic instruction adds the
recorded size; a jump adds the recorded size and, when taken, the increment.
Memory and program size are unchanged. -/
theorem exec_frame (s s2 : Sim) (cmd : Command) (err : Option Error)
    (h : s.exec cmd = .ok (s2, err)) :
    s2.mem = s.mem ∧ s2.initSize = s.initSize ∧
    ((∀ j, cmd ≠ .jumpOrLoop j) → s2.ip = s.ip + s.lastInsSize) ∧
    (∀ j, cmd = .jumpOrLoop j →
      s2.ip = s.ip + s.lastInsSize ∨ s2.ip = s.ip + s.lastInsSize + j.inc) := by
  cases cmd with
  | mov m =>
    unfold Sim.exec at h
    simp only at h
    cases hm : s.handleMov m with
    | error e => rw [hm] at h; cases h
    | ok pr =>
      obtain ⟨s1, e1⟩ := pr
      obtain ⟨⟨_, f2, f3, f4, f5⟩, _⟩ := handleMov_frame s s1 m e1 hm
      simp only [hm, Except.ok.injEq, Prod.mk.injEq] at h
      obtain ⟨h1, h2⟩ := h
      subst h1 h2
      refine ⟨f4, f5, fun _ => ?_, fun j e => by cases e⟩
      show s1.ip + s1.lastInsSize = _
      rw [f2, f3]
  | arithmetic a =>
    unfold Sim.exec at h
    simp only at h
    cases hm : s.handleArithmetic a with
    | error e => rw [hm] at h; cases h
    | ok pr =>
      obtain ⟨s1, e1⟩ := pr
      obtain ⟨f2, f3, f4, f5, _⟩ := handleArithmetic_frame s s1 a e1 hm
      simp only [hm, Except.ok.injEq, Prod.mk.injEq] at h
      obtain ⟨h1, h2⟩ := h
      subst h1 h2
      refine ⟨f4, f5, fun _ => ?_, fun j e => by cases e⟩
      show s1.ip + s1.lastInsSize = _
      rw [f2, f3]
  | jumpOrLoop j =>
    unfold Sim.exec at h
    simp only [Except.ok.injEq, Prod.mk.injEq] at h
    obtain ⟨h1, h2⟩ := h
    subst h1 h2
    refine ⟨?_, ?_, fun hne => absurd rfl (hne j), ?_⟩
    · unfold Sim.handleJumpOrLoop
      split
      · split <;> rfl
      · split
        · split <;> rfl
        · rfl
    · unfold Sim.handleJumpOrLoop
      split
      · split <;> rfl
      · split
        · split <;> rfl
        · rfl
    · intro j2 e
      injection e with e
      subst e
      unfold Sim.handleJumpOrLoop
      split
      · split
        · right; rfl
        · left; rfl
      · split
        · split
          · right; rfl
          · left; rfl
        · left; rfl

/-- A register index below 8 has a name. -/
theorem regName_ok (idx w : Nat) (h : idx < 8) : ∃ t, regName idx w = .ok t := by
  have hlen : (if w = 0 then REGISTERS_8 else REGISTERS_16).length = 8 := by
    split <;> rfl
  obtain ⟨_, a2⟩ := indexTable_lt (if w = 0 then REGISTERS_8 else REGISTERS_16) idx (by omega)
  exact ⟨_, a2⟩

/-- With `mod` below 4 and `rm` below 8 the operand has a text. -/
theorem rmName_ok (c : Common) (w : Nat) (hmod : c.mod < 4) (hrm : c.rm < 8) :
    ∃ t, c.rmName w = .ok t := by
  unfold Common.rmName
  by_cases h3 : c.mod = 0b11
  · rw [if_pos h3]
    exact regName_ok c.rm w hrm
  · have hor : c.mod = 0b00 ∨ c.mod = 0b01 ∨ c.mod = 0b10 := by omega
    obtain ⟨_, a2⟩ := indexTable_lt
      ["bx + si", "bx + di", "bp + si", "bp + di", "si", "di", "bp", "bx"] c.rm (by simpa using hrm)
    rw [if_neg h3, if_pos hor]
    simp only [a2]
    split
    · split <;> exact ⟨_, rfl⟩
    · split
      · exact ⟨_, rfl⟩
      · split <;> exact ⟨_, rfl⟩

/-- A valid Mov with fields in range has a text. -/
theorem Mov.Disassemble_ok (m : Mov) (hv : m.typ ≠ .Mov_Invalid) (hmod : m.mod < 4)
    (hreg : m.reg < 8) (hrm : m.rm < 8) : ∃ t, m.Disassemble = .ok t := by
  obtain ⟨regN, h1⟩ := regName_ok m.reg m.w hreg
  obtain ⟨rmN, h2⟩ := rmName_ok m.toCommon m.w hmod hrm
  unfold Mov.Disassemble
  cases ht : m.typ with
  | Mov_Invalid => exact absurd ht hv
  | Mov_RegisteryOrMemory_ToOrFrom_Register =>
    simp only [Common.regName, h1, h2]
    exact ⟨_, rfl⟩
  | Mov_Immediate_To_Register =>
    simp only [Common.regName, h1]
    exact ⟨_, rfl⟩
  | Mov_Immediate_To_RegisterOrMemory =>
    simp only [h2]
    split <;> exact ⟨_, rfl⟩
  | Mov_Memory_To_Accumulator => exact ⟨_, rfl⟩
  | Mov_Accumulator_To_Memory => exact ⟨_, rfl⟩

/-- Executing an immediate-to-accumulator add with `w = 1`: no operand is
resolved, so the result 0 is written to register 0. -/
theorem exec_accumulator_add (s : Sim) (a : Arithmetic)
    (ht : a.typ = .Arithmetic_Immediate_To_Accumulator) (hop : a.op = .Arithmetic_Add)
    (hw : a.w = 1) :
    s.exec (.arithmetic a) =
      .ok ({ s with regs := setAt s.regs 0 0, flags := updateFlags s.flags 0,
                    ip := s.ip + s.lastInsSize }, none) := by
  simp only [Sim.exec, Sim.handleArithmetic, Sim.arithOperands, ht, hop, arithResult, hw,
    Sim.setReg]
  rfl

/-- A run observed by `runningWith` left the loop running in such a state. -/
theorem Outcome.exists_of_runningWith (o : Outcome) (p : Sim → Bool)
    (h : o.runningWith p = true) : ∃ s, o = .outOfFuel s ∧ p s = true := by
  cases o <;> simp_all [Outcome.runningWith]

/-- One more iteration after `n` iterations that left the loop running in
state `s` is one iteration from `s`. -/
theorem driver_succ_of_outOfFuel (e : Bool) (n : Nat) (s0 s : Sim)
    (h : driver e n s0 = .outOfFuel s) : driver e (n + 1) s0 = driver e 1 s := by
  induction n generalizing s0 with
  | zero =>
    simp only [driver, Outcome.outOfFuel.injEq] at h
    rw [h]
  | succ n ih =>
    rw [driver] at h
    rw [driver]
    cases hd : driverStep e s0 with
    | error p => rw [hd] at h; cases h
    | ok pr =>
      obtain ⟨s1, res⟩ := pr
      rw [hd] at h
      cases res with
      | error err => cases h
      | ok o =>
        cases o with
        | none => cases h
        | some u => exact ih s1 h

/-- An iteration of the driver that continues: the decode step returned an
instruction and, in execute mode, `exec` returned a `nil` error. -/
theorem driverStep_continue (e : Bool) (s s2 : Sim) (u : Unit)
    (h : driverStep e s = .ok (s2, .ok (some u))) :
    ∃ s1 cmd, s.disassemble = .ok (s1, .ok (some cmd)) ∧
      ((e = true ∧ s1.exec cmd = .ok (s2, none)) ∨
       (e = false ∧ s2 = { s1 with ip := s1.ip + s1.lastInsSize })) := by
  unfold driverStep at h
  cases hd : s.disassemble with
  | error p => rw [hd] at h; cases h
  | ok pr =>
    obtain ⟨s1, res⟩ := pr
    rw [hd] at h
    cases res with
    | error err => cases h
    | ok o =>
      cases o with
      | none => cases h
      | some cmd =>
        refine ⟨s1, cmd, rfl, ?_⟩
        cases e with
        | false =>
          right
          simp only [Bool.false_eq_true, if_false, Except.ok.injEq, Prod.mk.injEq] at h
          exact ⟨rfl, h.1.symm⟩
        | true =>
          left
          simp only [if_true] at h
          cases hx : s1.exec cmd with
          | error p => rw [hx] at h; cases h
          | ok pr2 =>
            obtain ⟨s3, err⟩ := pr2
            rw [hx] at h
            cases err with
            | some er => cases h
            | none =>
              simp only [Except.ok.injEq, Prod.mk.injEq] at h
              rw [h.1]
              exact ⟨rfl, rfl⟩

/-- After an iteration in execute mode that continues, `ip` is at least
`-126`: the decode step needs `ip ≥ 0`, the instruction has at least two
bytes and a jump adds at least `-128`. Memory and program size are kept. -/
theorem driverStep_exec_ip (s s2 : Sim) (u : Unit)
    (h : driverStep true s = .ok (s2, .ok (some u))) :
    -126 ≤ s2.ip ∧ s2.mem = s.mem ∧ s2.initSize = s.initSize := by
  obtain ⟨s1, cmd, hd, hx⟩ := driverStep_continue true s s2 u h
  rcases hx with ⟨_, hx⟩ | ⟨hf, _⟩
  · obtain ⟨hs1, h0, _, h2, _, _, _, hj⟩ := disassemble_some s s1 cmd hd
    obtain ⟨fm, fi, fn, fj⟩ := exec_frame s1 s2 cmd none hx
    have e1 : s1.ip = s.ip := by rw [hs1]
    have e2 : s1.lastInsSize = cmd.encodedSize := by rw [hs1]
    have e3 : s1.mem = s.mem := by rw [hs1]
    have e4 : s1.initSize = s.initSize := by rw [hs1]
    refine ⟨?_, fm.trans e3, fi.trans e4⟩
    cases cmd with
    | mov m =>
      have := fn (fun j e => by cases e)
      rw [this, e1, e2]
      omega
    | arithmetic a =>
      have := fn (fun j e => by cases e)
      rw [this, e1, e2]
      omega
    | jumpOrLoop j =>
      obtain ⟨b1, _, _⟩ := hj j rfl
      rcases fj j rfl with h3 | h3
      · rw [h3, e1, e2]
        omega
      · rw [h3, e1, e2]
        omega
  · cases hf

/-- Every state in which the driver loop, in execute mode, is about to decode
has `ip ≥ -126`, the memory and the program size of the start state. -/
theorem driver_exec_invariant (n : Nat) (s0 s : Sim) (h0 : -126 ≤ s0.ip)
    (h : driver true n s0 = .outOfFuel s) :
    -126 ≤ s.ip ∧ s.mem = s0.mem ∧ s.initSize = s0.initSize := by
  induction n generalizing s0 with
  | zero =>
    simp only [driver, Outcome.outOfFuel.injEq] at h
    rw [← h]
    exact ⟨h0, rfl, rfl⟩
  | succ n ih =>
    rw [driver] at h
    cases hd : driverStep true s0 with
    | error p => rw [hd] at h; cases h
    | ok pr =>
      obtain ⟨s1, res⟩ := pr
      rw [hd] at h
      cases res with
      | error err => cases h
      | ok o =>
        cases o with
        | none => cases h
        | some u =>
          obtain ⟨a1, a2, a3⟩ := driverStep_exec_ip s0 s1 u hd
          obtain ⟨b1, b2, b3⟩ := ih s1 a1 h
          exact ⟨b1, b2.trans a2, b3.trans a3⟩

/-- With a negative `ip` the decode step panics on the slice `mem[ip:]`. -/
theorem disassemble_negative_ip (s : Sim) (h : s.ip < 0) :
    s.disassemble = .error .indexOutOfRange := by
  have hge : ¬ s.ip ≥ (s.initSize : Int) := by omega
  unfold Sim.disassemble
  rw [if_neg hge]
  unfold memFrom
  rw [if_pos (Or.inl h)]

/-- The second test program has 4096 bytes. -/
theorem tailProgram_length : tailProgram.length = 4096 := by
  simp [tailProgram]

/-- No padding is added to a program of 4096 bytes. -/
theorem tailProgram_mem : (newSim tailProgram).mem = tailProgram := by
  rw [newSim_mem, tailProgram_length]
  exact List.append_nil _

/-- The bytes of the test program before the last four. -/
theorem tailProgram_getElem (i : Nat) (h : i < 4092) (hi : i < tailProgram.length) :
    tailProgram[i] = if i % 3 = 0 then 0xB8 else 0x00 := by
  unfold tailProgram
  rw [List.getElem_append_left (by simpa using h)]
  simp

/-- The memory of `tailProgram` from the start of its `k`-th instruction on. -/
theorem tailProgram_memFrom (k : Nat) (hk : k < 1364) :
    ∃ rest, memFrom tailProgram ((3 * k : Nat) : Int) = .ok (0xB8 :: 0x00 :: 0x00 :: rest) ∧
      1 ≤ rest.length := by
  have hl := tailProgram_length
  have h0 := tailProgram_getElem (3 * k) (by omega) (by omega)
  have h1 := tailProgram_getElem (3 * k + 1) (by omega) (by omega)
  have h2 := tailProgram_getElem (3 * k + 2) (by omega) (by omega)
  rw [if_pos (by omega)] at h0
  rw [if_neg (by omega)] at h1 h2
  refine ⟨tailProgram.drop (3 * k + 3), ?_, ?_⟩
  · rw [memFrom_ok _ _ (by omega) (by omega)]
    rw [Int.toNat_ofNat, List.drop_eq_getElem_cons (by omega), List.drop_eq_getElem_cons (by omega),
      List.drop_eq_getElem_cons (by omega), h0, h1, h2]
  · rw [List.length_drop]
    omega

/-- The memory of `tailProgram` at its last four bytes. -/
theorem tailProgram_memFrom_4092 : memFrom tailProgram 4092 = .ok [0x89, 0xD9, 0x89, 0xD9] := by
  have h := memFrom_append_right
    ((List.range 4092).map (fun i => if i % 3 = 0 then (0xB8 : Byte) else 0x00))
    [0x89, 0xD9, 0x89, 0xD9]
  rw [List.length_map, List.length_range] at h
  have e : ((4092 : Nat) : Int) = 4092 := rfl
  rw [e] at h
  exact h

/-- The memory of `tailProgram` at its last two bytes. -/
theorem tailProgram_memFrom_4094 : memFrom tailProgram 4094 = .ok [0x89, 0xD9] := by
  have h := memFrom_append_right
    ((List.range 4092).map (fun i => if i % 3 = 0 then (0xB8 : Byte) else 0x00) ++ [0x89, 0xD9])
    [0x89, 0xD9]
  rw [List.length_append, List.length_map, List.length_range, List.append_assoc] at h
  have e : (((4092 + [(0x89 : Byte), 0xD9].length : Nat)) : Int) = 4094 := rfl
  rw [e] at h
  exact h

/-- Decoding `89 D9` (`mov cx, bx`) at `ip`, four bytes of memory being there. -/
theorem disassemble_mov_cx_bx (s : Sim) (rest : List Byte)
    (hip : s.ip < s.initSize) (hmem : memFrom s.mem s.ip = .ok (0x89 :: 0xD9 :: rest))
    (hlen : 2 ≤ rest.length) :
    s.disassemble = .ok ({ s with lastInsSize := 2 },
      .ok (some (.mov { mod := 0b11, reg := 3, rm := 1, disp := 0, d := 0, w := 1,
                        typ := .Mov_RegisteryOrMemory_ToOrFrom_Register }))) := by
  have hn : ¬ s.ip ≥ (s.initSize : Int) := by omega
  have hpeek := mustPeek_four (0x89 :: 0xD9 :: rest) (by simp only [List.length_cons]; omega)
  have hp := parseMov_regreg (newReader (0x89 :: 0xD9 :: rest)) 0x89 0xD9 rest rfl
    (by decide) (by decide)
  have hm : isMov (0x89 : Byte).val = true := by decide
  unfold Sim.disassemble
  rw [if_neg hn]
  simp only [hmem, hpeek, List.take_succ_cons, hm, if_true, hp]
  rfl

/-- The driver without execution on the memory of `tailProgram`, started at
the `(1364 - j)`-th instruction, decodes up to `ip = 4094` and stops there on
the panic of the look-ahead. -/
theorem tailProgram_run (j : Nat) (hj : j ≤ 1364) (s : Sim) (hmem : s.mem = tailProgram)
    (hsz : s.initSize = 4096) (hip : s.ip = ((3 * (1364 - j) : Nat) : Int)) :
    driver false (j + 2) s = .panicked .ErrOutOfBound := by
  induction j generalizing s with
  | zero =>
    have hd := disassemble_mov_cx_bx s [0x89, 0xD9] (by rw [hip, hsz]; decide)
      (by rw [hmem, hip]; exact tailProgram_memFrom_4092) (by decide)
    have hd2 := disassemble_peek_short { s with lastInsSize := 2, ip := s.ip + 2 } [0x89, 0xD9]
      (by show s.ip + 2 < s.initSize
          rw [hip, hsz]; decide)
      (by show memFrom s.mem (s.ip + 2) = _
          rw [hmem, hip]; exact tailProgram_memFrom_4094) (by decide)
    have hs : driverStep false s =
        .ok ({ s with lastInsSize := 2, ip := s.ip + 2 }, .ok (some ())) := by
      unfold driverStep
      rw [hd]
      rfl
    have hs2 : driverStep false { s with lastInsSize := 2, ip := s.ip + 2 } =
        .error .ErrOutOfBound := by
      unfold driverStep
      rw [hd2]
    simp only [driver, hs, hs2]
  | succ j ih =>
    obtain ⟨rest, hm, hl⟩ := tailProgram_memFrom (1364 - (j + 1)) (by omega)
    have hs := driverStep_mov_ax s 0x00 0x00 rest (by rw [hip, hsz]; omega)
      (by rw [hmem, hip]; exact hm) hl
    have h2 := ih (by omega) { s with lastInsSize := 3, ip := s.ip + 3 } hmem hsz
      (by show s.ip + 3 = _
          rw [hip]; omega)
    rw [driver, hs]
    exact h2

/-- An iteration without execution that continues: `ip` was inside the
program and moves on by the size of the decoded instruction, two to six
bytes; nothing else but the recorded size changes. -/
theorem driverStep_false_ip (s s2 : Sim) (u : Unit)
    (h : driverStep false s = .ok (s2, .ok (some u))) :
    ∃ s1 cmd, s.disassemble = .ok (s1, .ok (some cmd)) ∧
      s2 = { s with lastInsSize := cmd.encodedSize, ip := s.ip + cmd.encodedSize } ∧
      0 ≤ s.ip ∧ s.ip < s.initSize ∧ 2 ≤ cmd.encodedSize ∧ cmd.encodedSize ≤ 6 := by
  obtain ⟨s1, cmd, hd, hx⟩ := driverStep_continue false s s2 u h
  rcases hx with ⟨hf, _⟩ | ⟨_, hs2⟩
  · cases hf
  · obtain ⟨hs1, h0, h1, h2, h3, _⟩ := disassemble_some s s1 cmd hd
    refine ⟨s1, cmd, hd, ?_, h0, h1, h2, h3⟩
    rw [hs2, hs1]

/-- After `n` iterations without execution that left the loop running, `ip`
has grown by at least `2 * n`, and the last of them started inside the
program. -/
theorem driver_false_progress (n : Nat) (s0 s : Sim)
    (h : driver false n s0 = .outOfFuel s) :
    s.initSize = s0.initSize ∧ s0.ip + 2 * n ≤ s.ip ∧
      (1 ≤ n → s0.ip + 2 * (n - 1 : Nat) < s0.initSize) := by
  induction n generalizing s0 with
  | zero =>
    simp only [driver, Outcome.outOfFuel.injEq] at h
    rw [← h]
    exact ⟨rfl, by omega, fun h1 => absurd h1 (by decide)⟩
  | succ n ih =>
    rw [driver] at h
    cases hd : driverStep false s0 with
    | error p => rw [hd] at h; cases h
    | ok pr =>
      obtain ⟨s1, res⟩ := pr
      rw [hd] at h
      cases res with
      | error err => cases h
      | ok o =>
        cases o with
        | none => cases h
        | some u =>
          obtain ⟨s', cmd, _, hs1, a0, a1, a2, a3⟩ := driverStep_false_ip s0 s1 u hd
          obtain ⟨b1, b2, b3⟩ := ih s1 h
          have e1 : s1.ip = s0.ip + cmd.encodedSize := by rw [hs1]
          have e2 : s1.initSize = s0.initSize := by rw [hs1]
          refine ⟨b1.trans e2, by omega, fun _ => ?_⟩
          by_cases hn : 1 ≤ n
          · have := b3 hn
            rw [e1, e2] at this
            have e3 : n + 1 - 1 = (n - 1) + 1 := by omega
            rw [e3]
            push_cast
            omega
          · have hn0 : n = 0 := by omega
            subst hn0
            simpa using a1

/-- The driver without execution stops on every program: the iterations that
decode an instruction are at most `⌈len / 2⌉`. -/
theorem driver_false_bound (prog : List Byte) (n : Nat) (s : Sim)
    (h : driver false n (newSim prog) = .outOfFuel s) : n ≤ (prog.length + 1) / 2 := by
  obtain ⟨_, _, h3⟩ := driver_false_progress n (newSim prog) s h
  by_cases hn : 1 ≤ n
  · have h4 := h3 hn
    have e1 : (newSim prog).ip = 0 := rfl
    rw [e1, newSim_initSize] at h4
    omega
  · omega

/-- Whatever `exec` returns for a Mov or for a jump or loop has the flags of
the given state. -/
theorem exec_flags (s s2 : Sim) (cmd : Command) (err : Option Error)
    (hc : ∀ a, cmd ≠ .arithmetic a) (h : s.exec cmd = .ok (s2, err)) : s2.flags = s.flags := by
  cases cmd with
  | arithmetic a => exact absurd rfl (hc a)
  | mov m =>
    unfold Sim.exec at h
    simp only at h
    cases hm : s.handleMov m with
    | error e => rw [hm] at h; cases h
    | ok pr =>
      obtain ⟨s1, e1⟩ := pr
      obtain ⟨⟨f1, _⟩, _⟩ := handleMov_frame s s1 m e1 hm
      simp only [hm, Except.ok.injEq, Prod.mk.injEq] at h
      rw [← h.1]
      exact f1
  | jumpOrLoop j =>
    unfold Sim.exec at h
    simp only [Except.ok.injEq, Prod.mk.injEq] at h
    rw [← h.1]
    unfold Sim.handleJumpOrLoop
    split
    · split <;> rfl
    · split
      · split <;> rfl
      · rfl

/-- An iteration of the driver changes the flags only when the decoded
instruction is an arithmetic one. -/
theorem driverStep_flags (e : Bool) (s s2 : Sim) (res : Except Error (Option Unit))
    (h : driverStep e s = .ok (s2, res))
    (hc : ∀ s1 a, s.disassemble ≠ .ok (s1, .ok (some (.arithmetic a)))) :
    s2.flags = s.flags := by
  unfold driverStep at h
  cases hd : s.disassemble with
  | error p => rw [hd] at h; cases h
  | ok pr =>
    obtain ⟨s1, r⟩ := pr
    obtain ⟨_, _, f3, _⟩ := disassemble_frame s s1 r hd
    rw [hd] at h
    cases r with
    | error err =>
      simp only [Except.ok.injEq, Prod.mk.injEq] at h
      rw [← h.1]
      exact f3
    | ok o =>
      cases o with
      | none =>
        simp only [Except.ok.injEq, Prod.mk.injEq] at h
        rw [← h.1]
        exact f3
      | some cmd =>
        have hna : ∀ a, cmd ≠ .arithmetic a := by
          intro a ha
          subst ha
          exact hc s1 a hd
        cases e with
        | false =>
          simp only [Bool.false_eq_true, if_false, Except.ok.injEq, Prod.mk.injEq] at h
          rw [← h.1]
          exact f3
        | true =>
          simp only [if_true] at h
          cases hx : s1.exec cmd with
          | error p => rw [hx] at h; cases h
          | ok pr2 =>
            obtain ⟨s3, err⟩ := pr2
            have hf := exec_flags s1 s3 cmd err hna hx
            rw [hx] at h
            cases err with
            | some er =>
              simp only [Except.ok.injEq, Prod.mk.injEq] at h
              rw [← h.1, hf]
              exact f3
            | none =>
              simp only [Except.ok.injEq, Prod.mk.injEq] at h
              rw [← h.1, hf]
              exact f3

/-- The bytes `8C` and `8E` match none of the five forms of `parseMov`: the
result is the zero value of `Mov`, one byte consumed. -/
theorem parseMov_segment (r : Reader) (fb : Byte) (rest : List Byte)
    (h : r.buf.drop r.idx = fb :: rest) (hfb : fb.val = 0x8C ∨ fb.val = 0x8E) :
    parseMov r = .ok ({}, ⟨r.idx + 1, r.buf⟩) := by
  have h1 := Reader.mustRead_of_drop r fb rest h
  have hno := (isMov_no_form fb (isMov_segment fb hfb)).2 hfb
  have c1 : ¬ fb.val >>> 2 = 0b100010 := fun hc => hno (Or.inl hc)
  have c2 : ¬ fb.val >>> 4 = 0b1011 := fun hc => hno (Or.inr (Or.inl hc))
  have c3 : ¬ fb.val >>> 1 = 0b1100011 := fun hc => hno (Or.inr (Or.inr (Or.inl hc)))
  have c4 : ¬ fb.val >>> 1 = 0b1010000 := fun hc => hno (Or.inr (Or.inr (Or.inr (Or.inl hc))))
  have c5 : ¬ fb.val >>> 1 = 0b1010001 := fun hc => hno (Or.inr (Or.inr (Or.inr (Or.inr hc))))
  unfold parseMov
  simp only [h1, c1, c2, c3, c4, c5, if_false]

/-- Decoding at a first byte `8C` or `8E`: the `invalid mov instruction`
error, carrying the four bytes peeked. -/
theorem disassemble_invalidMov (s : Sim) (fb : Byte) (rest : List Byte)
    (hip : s.ip < s.initSize) (hmem : memFrom s.mem s.ip = .ok (fb :: rest))
    (hlen : 3 ≤ rest.length) (hfb : fb.val = 0x8C ∨ fb.val = 0x8E) :
    s.disassemble = .ok (s, .error (.invalidMov (fb :: rest.take 3))) := by
  have hn : ¬ s.ip ≥ (s.initSize : Int) := by omega
  have hpeek := mustPeek_four (fb :: rest) (by simp; omega)
  have hm := isMov_segment fb hfb
  have hp := parseMov_segment (newReader (fb :: rest)) fb rest rfl hfb
  unfold Sim.disassemble
  rw [if_neg hn]
  simp only [hmem, hpeek, List.take_succ_cons, hm, if_true, hp]

/-- Which error a decode step can return: `invalid mov instruction` only at a
first byte `8C` or `8E`, `unknown instruction` only at a byte that no opcode
test accepts, and no other. -/
theorem disassemble_error (s s1 : Sim) (e : Error) (h : s.disassemble = .ok (s1, .error e)) :
    ∃ fb tl, memFrom s.mem s.ip = .ok (fb :: tl) ∧
      ((e = .invalidMov (fb :: tl.take 3) ∧ (fb.val = 0x8C ∨ fb.val = 0x8E)) ∨
       (e = .unknownInstruction (fb :: tl.take 3) ∧ isMov fb.val = false ∧
          isArithmetic fb.val = false ∧ isJumpOrLoop fb.val = false)) := by
  rcases disassemble_cases s s1 _ h with ⟨_, _, h2⟩ | ⟨_, _, fb, tl, hmem, _, hc⟩
  · cases h2
  · refine ⟨fb, tl, hmem, ?_⟩
    rcases hc with ⟨him, m, r1, hp, hm⟩ | ⟨_, _, a, r1, _, _, h2⟩ |
      ⟨_, _, _, kb, tl2, _, _, h2⟩ | ⟨h1, h2, h3, _, h5⟩
    · rcases hm with ⟨hinv, _, h2⟩ | ⟨_, _, h2⟩
      · left
        injection h2 with h2
        refine ⟨h2, ?_⟩
        obtain ⟨_, _, _, _, b, hb, _, hiff⟩ := parseMov_inv _ _ _ hp
        have hb2 := Reader.mustRead_of_drop ⟨0, fb :: tl⟩ fb tl rfl
        rw [hb2] at hb
        simp only [Except.ok.injEq, Prod.mk.injEq] at hb
        have hbv : b = fb.val := hb.1.symm
        subst hbv
        exact (isMov_no_form fb him).1 (hiff.1 hinv)
      · cases h2
    · cases h2
    · cases h2
    · right
      injection h5 with h5
      exact ⟨h5, h1, h2, h3⟩

/-- The opcodes `1010000w` and `1010001w`, and what the earlier tests of
`parseMov` say of them. -/
theorem accumulator_opcode :
    ∀ b : Byte, (b.val = 0xA0 ∨ b.val = 0xA1 ∨ b.val = 0xA2 ∨ b.val = 0xA3) →
      ¬ b.val >>> 2 = 0b100010 ∧ ¬ b.val >>> 4 = 0b1011 ∧ ¬ b.val >>> 1 = 0b1100011 ∧
      ((b.val = 0xA0 ∨ b.val = 0xA1) → b.val >>> 1 = 0b1010000) ∧
      ((b.val = 0xA2 ∨ b.val = 0xA3) →
        ¬ b.val >>> 1 = 0b1010000 ∧ b.val >>> 1 = 0b1010001) := by
  decide!

/-- Decoding a memory-to-accumulator Mov `1010000w`: the width bit of the opcode
is not looked at, and `w` keeps its zero value. -/
theorem parseMov_mem_to_acc (r : Reader) (fb lo hi : Byte) (rest : List Byte)
    (h : r.buf.drop r.idx = fb :: lo :: hi :: rest) (hfb : fb.val = 0xA0 ∨ fb.val = 0xA1) :
    parseMov r = .ok ({ typ := .Mov_Memory_To_Accumulator, w := 0,
                        data := (hi.val <<< 8) ||| lo.val }, ⟨r.idx + 3, r.buf⟩) := by
  have h1 := Reader.mustRead_of_drop r fb (lo :: hi :: rest) h
  have hrest := drop_succ_of_drop r fb (lo :: hi :: rest) h
  have hv := Reader.mustReadUint16_of_drop ⟨r.idx + 1, r.buf⟩ lo hi rest hrest
  obtain ⟨c1, c2, c3, c4, _⟩ := accumulator_opcode fb
    (hfb.elim Or.inl (fun x => Or.inr (Or.inl x)))
  have c4 := c4 hfb
  unfold parseMov
  simp only [h1]
  rw [if_neg c1, if_neg c2, if_neg c3, if_pos c4]
  simp only [hv]

/-- Decoding an accumulator-to-memory Mov `1010001w`: the width bit of the opcode
is not looked at, and `w` keeps its zero value. -/
theorem parseMov_acc_to_mem (r : Reader) (fb lo hi : Byte) (rest : List Byte)
    (h : r.buf.drop r.idx = fb :: lo :: hi :: rest) (hfb : fb.val = 0xA2 ∨ fb.val = 0xA3) :
    parseMov r = .ok ({ typ := .Mov_Accumulator_To_Memory, w := 0,
                        data := (hi.val <<< 8) ||| lo.val }, ⟨r.idx + 3, r.buf⟩) := by
  have h1 := Reader.mustRead_of_drop r fb (lo :: hi :: rest) h
  have hrest := drop_succ_of_drop r fb (lo :: hi :: rest) h
  have hv := Reader.mustReadUint16_of_drop ⟨r.idx + 1, r.buf⟩ lo hi rest hrest
  obtain ⟨c1, c2, c3, _, c5⟩ := accumulator_opcode fb
    (hfb.elim (fun x => Or.inr (Or.inr (Or.inl x))) (fun x => Or.inr (Or.inr (Or.inr x))))
  obtain ⟨c4, c5⟩ := c5 hfb
  unfold parseMov
  simp only [h1]
  rw [if_neg c1, if_neg c2, if_neg c3, if_neg c4, if_pos c5]
  simp only [hv]

/-! ## Arithmetic execution -/

/-- C1: every decoded arithmetic instruction carries `op = Arithmetic_Add`;
for every state and every register-direct 16-bit add (immediate to
register, or register with register in either direction), `exec` returns
without error and the target register holds `(target + source) mod 2^16`;
and the program `B8 01 00 83 C0 02`, run in execute mode from `newSim`, ends
with `ax = 3` and the zero and sign flags clear. -/
theorem C1_add_wraps_mod_2_16 :
    (∀ (r r1 : Reader) (a : Arithmetic),
      parseArithmetic r = .ok (a, r1) → a.op = .Arithmetic_Add) ∧
    (∀ (s : Sim) (a : Arithmetic) (hrm : a.rm < 8) (hreg : a.reg < 8),
      a.op = .Arithmetic_Add → a.w = 1 → a.mod = 0b11 →
      (a.typ = .Arithmetic_Immediate_To_RegisterOrMemory →
        ∃ s1, s.exec (.arithmetic a) = .ok (s1, none) ∧
          s1.regs ⟨a.rm, hrm⟩ = (s.regs ⟨a.rm, hrm⟩ + a.data) % 65536) ∧
      (a.typ = .Arithmetic_RegOrMemory_With_Register_To_Either → a.d ≠ 1 →
        ∃ s1, s.exec (.arithmetic a) = .ok (s1, none) ∧
          s1.regs ⟨a.rm, hrm⟩ = (s.regs ⟨a.rm, hrm⟩ + s.regs ⟨a.reg, hreg⟩) % 65536) ∧
      (a.typ = .Arithmetic_RegOrMemory_With_Register_To_Either → a.d = 1 →
        ∃ s1, s.exec (.arithmetic a) = .ok (s1, none) ∧
          s1.regs ⟨a.reg, hreg⟩ = (s.regs ⟨a.reg, hreg⟩ + s.regs ⟨a.rm, hrm⟩) % 65536)) ∧
    (∃ s, (∀ fuel, 3 ≤ fuel →
        driver true fuel (newSim [0xB8, 0x01, 0x00, 0x83, 0xC0, 0x02]) = .done s) ∧
      s.regs 0 = 3 ∧ s.flags.zero = false ∧ s.flags.sign = false) := by
  refine ⟨parseArithmetic_op, ?_, ?_⟩
  · intro s a hrm hreg hop hw hmod
    refine ⟨?_, ?_, ?_⟩
    · intro ht
      obtain ⟨s1, h1, h2, _⟩ := exec_add_wide s a ⟨a.rm, hrm⟩ _ _ hop hw
        (arithOperands_imm_wide s a hrm ht hmod hw)
      exact ⟨s1, h1, by simp [h2, setAt]⟩
    · intro ht hd
      have h0 := arithOperands_reg_wide s a hrm hreg ht hmod hw
      rw [if_neg hd] at h0
      obtain ⟨s1, h1, h2, _⟩ := exec_add_wide s a ⟨a.rm, hrm⟩ _ _ hop hw h0
      exact ⟨s1, h1, by simp [h2, setAt]⟩
    · intro ht hd
      have h0 := arithOperands_reg_wide s a hrm hreg ht hmod hw
      rw [if_pos hd] at h0
      obtain ⟨s1, h1, h2, _⟩ := exec_add_wide s a ⟨a.reg, hreg⟩ _ _ hop hw h0
      exact ⟨s1, h1, by simp [h2, setAt]⟩
  · obtain ⟨s, hs, hp⟩ := Outcome.exists_of_doneWith
      (driver true 3 (newSim [0xB8, 0x01, 0x00, 0x83, 0xC0, 0x02]))
      (fun s => decide (s.regs 0 = 3 ∧ s.flags.zero = false ∧ s.flags.sign = false))
      (by decide!)
    exact ⟨s, fun fuel hf => driver_done_of_le true 3 fuel _ s hf hs, of_decide_eq_true hp⟩

/-- C1 at a concrete input: `add cx, 0xFFFF` (immediate form, `mod = 11`,
`w = 1`) in a state with `cx = 2` leaves `cx = 1`: the sum wraps. -/
theorem C1_add_wraps_mod_2_16_witness :
    ∃ s1, Sim.exec { regs := setAt (fun _ => 0) 1 2 }
        (.arithmetic { typ := .Arithmetic_Immediate_To_RegisterOrMemory, mod := 0b11, rm := 1,
                       w := 1, data := 0xFFFF, firstByte := 0x81 }) = .ok (s1, none) ∧
      s1.regs 1 = 1 := by
  obtain ⟨s1, h1, h2⟩ := (C1_add_wraps_mod_2_16.2.1 { regs := setAt (fun _ => 0) 1 2 }
    { typ := .Arithmetic_Immediate_To_RegisterOrMemory, mod := 0b11, rm := 1,
      w := 1, data := 0xFFFF, firstByte := 0x81 }
    (by decide) (by decide) rfl rfl rfl).1 rfl
  refine ⟨s1, h1, ?_⟩
  rw [show (1 : Fin 8) = ⟨1, by decide⟩ from rfl, h2]
  rfl

/-- C2 (code defect): `cmp ax, bx` (bytes `39 D8`) decodes with
`op = Arithmetic_Add`, because `parseArithmetic` never assigns `op`; so after
`mov ax, 5; mov bx, 3` (which leave `ax = 5`, `bx = 3`) executing it writes
`ax = 8` instead of leaving `ax = 5`. -/
theorem C2_cmp_decodes_as_add_and_writes_target :
    (∃ a r1, parseArithmetic (newReader [0x39, 0xD8]) = .ok (a, r1) ∧
      isCmp a.firstByte = true ∧ a.op = .Arithmetic_Add ∧
      a.typ = .Arithmetic_RegOrMemory_With_Register_To_Either ∧
      a.mod = 0b11 ∧ a.d = 0 ∧ a.w = 1 ∧ a.reg = 3 ∧ a.rm = 0) ∧
    (∃ s, driver true 3 (newSim [0xB8, 0x05, 0x00, 0xBB, 0x03, 0x00]) = .done s ∧
      s.regs 0 = 5 ∧ s.regs 3 = 3) ∧
    (∃ s, driver true 4 (newSim [0xB8, 0x05, 0x00, 0xBB, 0x03, 0x00, 0x39, 0xD8]) = .done s ∧
      s.regs 0 = 8 ∧ s.regs 3 = 3) := by
  refine ⟨⟨_, _, rfl, rfl, rfl, rfl, rfl, rfl, rfl, rfl, rfl⟩, ?_, ?_⟩
  · obtain ⟨s, hs, hp⟩ := Outcome.exists_of_doneWith
      (driver true 3 (newSim [0xB8, 0x05, 0x00, 0xBB, 0x03, 0x00]))
      (fun s => decide (s.regs 0 = 5 ∧ s.regs 3 = 3)) (by decide!)
    exact ⟨s, hs, of_decide_eq_true hp⟩
  · obtain ⟨s, hs, hp⟩ := Outcome.exists_of_doneWith
      (driver true 4 (newSim [0xB8, 0x05, 0x00, 0xBB, 0x03, 0x00, 0x39, 0xD8]))
      (fun s => decide (s.regs 0 = 8 ∧ s.regs 3 = 3)) (by decide!)
    exact ⟨s, hs, of_decide_eq_true hp⟩

/-- C3 (code defect): `sub ax, bx` (bytes `29 D8`) decodes with
`op = Arithmetic_Add`; after `mov ax, 5; mov bx, 3` executing it leaves
`ax = 8 = (5 + 3) mod 2^16` instead of `2 = (5 - 3) mod 2^16`. -/
theorem C3_sub_decodes_as_add :
    (∃ a r1, parseArithmetic (newReader [0x29, 0xD8]) = .ok (a, r1) ∧
      isSub a.firstByte = true ∧ a.op = .Arithmetic_Add ∧
      a.typ = .Arithmetic_RegOrMemory_With_Register_To_Either ∧
      a.mod = 0b11 ∧ a.d = 0 ∧ a.w = 1 ∧ a.reg = 3 ∧ a.rm = 0) ∧
    (∃ s, driver true 3 (newSim [0xB8, 0x05, 0x00, 0xBB, 0x03, 0x00]) = .done s ∧
      s.regs 0 = 5 ∧ s.regs 3 = 3) ∧
    (∃ s, driver true 4 (newSim [0xB8, 0x05, 0x00, 0xBB, 0x03, 0x00, 0x29, 0xD8]) = .done s ∧
      s.regs 0 = 8 ∧ s.regs 3 = 3) := by
  refine ⟨⟨_, _, rfl, rfl, rfl, rfl, rfl, rfl, rfl, rfl, rfl⟩, ?_, ?_⟩
  · obtain ⟨s, hs, hp⟩ := Outcome.exists_of_doneWith
      (driver true 3 (newSim [0xB8, 0x05, 0x00, 0xBB, 0x03, 0x00]))
      (fun s => decide (s.regs 0 = 5 ∧ s.regs 3 = 3)) (by decide!)
    exact ⟨s, hs, of_decide_eq_true hp⟩
  · obtain ⟨s, hs, hp⟩ := Outcome.exists_of_doneWith
      (driver true 4 (newSim [0xB8, 0x05, 0x00, 0xBB, 0x03, 0x00, 0x29, 0xD8]))
      (fun s => decide (s.regs 0 = 8 ∧ s.regs 3 = 3)) (by decide!)
    exact ⟨s, hs, of_decide_eq_true hp⟩

/-- C4 (code defect): the zero flag is set on a zero result and never cleared.
`add ax, 0` from the initial state sets it; the following `add ax, 1` has the
non-zero result 1 and the run ends with `ax = 1` and the zero flag still set.
In general the flag after an arithmetic instruction is the disjunction of
`result = 0` and the flag before. -/
theorem C4_zero_flag_not_cleared :
    (∃ s, driver true 2 (newSim [0x83, 0xC0, 0x00]) = .done s ∧
      s.regs 0 = 0 ∧ s.flags.zero = true) ∧
    (∃ s, driver true 3 (newSim [0x83, 0xC0, 0x00, 0x83, 0xC0, 0x01]) = .done s ∧
      s.regs 0 = 1 ∧ s.flags.zero = true) ∧
    (∀ (f : Flags) (result : Nat),
      (updateFlags f result).zero = (decide (result = 0) || f.zero)) := by
  refine ⟨?_, ?_, ?_⟩
  rotate_left 2
  · intro f result
    by_cases h : result = 0 <;> simp [updateFlags, h]
  · obtain ⟨s, hs, hp⟩ := Outcome.exists_of_doneWith
      (driver true 2 (newSim [0x83, 0xC0, 0x00]))
      (fun s => decide (s.regs 0 = 0 ∧ s.flags.zero = true)) (by decide!)
    exact ⟨s, hs, of_decide_eq_true hp⟩
  · obtain ⟨s, hs, hp⟩ := Outcome.exists_of_doneWith
      (driver true 3 (newSim [0x83, 0xC0, 0x00, 0x83, 0xC0, 0x01]))
      (fun s => decide (s.regs 0 = 1 ∧ s.flags.zero = true)) (by decide!)
    exact ⟨s, hs, of_decide_eq_true hp⟩

/-- C5: for every state and every register-direct arithmetic instruction
(`mod = 11`, register fields below 8), whatever the flags before, `exec`
returns without error and the sign flag is set if and only if the 16-bit
result computed from the operands is at least `0x8000`. -/
theorem C5_sign_flag_iff_result_ge_0x8000 (s : Sim) (a : Arithmetic) (hmod : a.mod = 0b11)
    (hrm : a.rm < 8) (hreg : a.reg < 8) :
    ∃ tgt target source s1,
      s.arithOperands a = .ok (tgt, target, source) ∧
      s.exec (.arithmetic a) = .ok (s1, none) ∧
      (arithResult a.op target source).1 < 65536 ∧
      (s1.flags.sign = true ↔ 0x8000 ≤ (arithResult a.op target source).1) := by
  obtain ⟨tgt, target, source, hops, htgt⟩ := arithOperands_ok s a hmod hrm hreg
  obtain ⟨s1, h1, hf, _, _⟩ := handleArithmetic_flags s a tgt target source hops htgt
  refine ⟨tgt, target, source, { s1 with ip := s1.ip + s1.lastInsSize }, hops, ?_,
    arithResult_lt _ _ _, ?_⟩
  · simp only [Sim.exec, h1]
  · simp only [hf, updateFlags, decide_eq_true_eq]
    omega

/-- C5 at a concrete input: `add ax, bx` with `ax = 0x7FFF`, `bx = 1` and the
sign flag clear before. -/
theorem C5_sign_flag_iff_result_ge_0x8000_witness :
    ∃ tgt target source s1,
      Sim.arithOperands { regs := setAt (setAt (fun _ => 0) 0 0x7FFF) 3 1 }
        { typ := .Arithmetic_RegOrMemory_With_Register_To_Either, mod := 0b11, reg := 3,
          rm := 0, w := 1, firstByte := 0x01 } = .ok (tgt, target, source) ∧
      Sim.exec { regs := setAt (setAt (fun _ => 0) 0 0x7FFF) 3 1 }
        (.arithmetic { typ := .Arithmetic_RegOrMemory_With_Register_To_Either, mod := 0b11,
                       reg := 3, rm := 0, w := 1, firstByte := 0x01 }) = .ok (s1, none) ∧
      (arithResult .Arithmetic_Add target source).1 < 65536 ∧
      (s1.flags.sign = true ↔ 0x8000 ≤ (arithResult .Arithmetic_Add target source).1) :=
  C5_sign_flag_iff_result_ge_0x8000 { regs := setAt (setAt (fun _ => 0) 0 0x7FFF) 3 1 }
    { typ := .Arithmetic_RegOrMemory_With_Register_To_Either, mod := 0b11, reg := 3,
      rm := 0, w := 1, firstByte := 0x01 } rfl (by decide) (by decide)

/-! ## Register file -/

/-- C6 (code defect): `setReg(4, 0x12, 0)` (register `ah`) in the initial state
replaces the low byte of `regs[0]`, which becomes `0x0012`; the branch that
writes the high byte is dead because `idx > 3` is tested after
`idx = idx % 4`. The program `B4 12` (`mov ah, 0x12`) ends with `ax = 0x0012`. -/
theorem C6_setReg_high_index_writes_low_byte :
    (∃ s1 r, (newSim []).setReg 4 0x12 0 = .ok (s1, r) ∧
      (newSim []).regs 0 % 256 = 0 ∧ s1.regs 0 % 256 = 0x12 ∧ s1.regs 0 / 256 = 0) ∧
    (∃ s, driver true 2 (newSim [0xB4, 0x12]) = .done s ∧ s.regs 0 = 0x0012) := by
  refine ⟨⟨_, _, rfl, rfl, rfl, rfl⟩, ?_⟩
  obtain ⟨s, hs, hp⟩ := Outcome.exists_of_doneWith
    (driver true 2 (newSim [0xB4, 0x12]))
    (fun s => decide (s.regs 0 = 0x0012)) (by decide!)
  exact ⟨s, hs, of_decide_eq_true hp⟩

/-- C7 (code defect): in the initial state `getReg(4, 0)` after
`setReg(4, 0x12, 0)` returns 0, not `0x12`: the write went to the low byte of
`regs[0]` and the read takes the high byte. -/
theorem C7_getReg_after_setReg_high_index :
    ∃ s1 r, (newSim []).setReg 4 0x12 0 = .ok (s1, r) ∧ s1.getReg 4 0 = .ok 0 :=
  ⟨_, _, rfl, rfl⟩

/-! ## Jumps -/

/-- C8: a two-byte jump `74 kb` (jz) or `75 kb` (jnz) decoded at `ip = p`, in a
state whose memory holds at least four bytes from `p` on (the decoder peeks
four), has the signed offset `k = int8 kb`; `exec` then returns without error
and leaves `ip = p + 2 + k` when the branch is taken (zero flag set for jz,
clear for jnz) and `ip = p + 2` otherwise. -/
theorem C8_jz_jnz_ip (s : Sim) (kb : Byte) (rest : List Byte)
    (hip : s.ip < s.initSize) (hlen : 2 ≤ rest.length) :
    (memFrom s.mem s.ip = .ok (0x74 :: kb :: rest) →
      ∃ s1 s2,
        s.disassemble = .ok (s1, .ok (some (.jumpOrLoop { op := 0x74, inc := int8 kb.val }))) ∧
        s1.exec (.jumpOrLoop { op := 0x74, inc := int8 kb.val }) = .ok (s2, none) ∧
        s2.ip = if s.flags.zero then s.ip + 2 + int8 kb.val else s.ip + 2) ∧
    (memFrom s.mem s.ip = .ok (0x75 :: kb :: rest) →
      ∃ s1 s2,
        s.disassemble = .ok (s1, .ok (some (.jumpOrLoop { op := 0x75, inc := int8 kb.val }))) ∧
        s1.exec (.jumpOrLoop { op := 0x75, inc := int8 kb.val }) = .ok (s2, none) ∧
        s2.ip = if s.flags.zero then s.ip + 2 else s.ip + 2 + int8 kb.val) ∧
    (-128 ≤ int8 kb.val ∧ int8 kb.val < 128 ∧ int8 kb.val % 256 = kb.val) := by
  refine ⟨?_, ?_, ?_⟩
  · intro hmem
    have hd := disassemble_jump s 0x74 kb rest hip hmem hlen rfl rfl rfl
    refine ⟨_, _, hd, rfl, ?_⟩
    cases hz : s.flags.zero <;> simp [Sim.handleJumpOrLoop, hz]
  · intro hmem
    have hd := disassemble_jump s 0x75 kb rest hip hmem hlen rfl rfl rfl
    refine ⟨_, _, hd, rfl, ?_⟩
    cases hz : s.flags.zero <;> simp [Sim.handleJumpOrLoop, hz]
  · have h := int8_range kb.val
    have hk : kb.val % 256 = kb.val := Nat.mod_eq_of_lt kb.isLt
    rw [hk] at h
    exact h

/-- C8 at a concrete input: bytes `74 02` at `ip = 0` with the zero flag set
leave `ip = 4`. -/
theorem C8_jz_jnz_ip_witness :
    ∃ s1 s2,
      Sim.disassemble { newSim [0x74, 0x02] with flags := { zero := true } } =
        .ok (s1, .ok (some (.jumpOrLoop { op := 0x74, inc := 2 }))) ∧
      s1.exec (.jumpOrLoop { op := 0x74, inc := 2 }) = .ok (s2, none) ∧
      s2.ip = 4 := by
  have hmem : memFrom ({ newSim [0x74, 0x02] with flags := { zero := true } } : Sim).mem 0 =
      .ok (0x74 :: 0x02 :: List.replicate 4094 0) := by
    show memFrom ([0x74, 0x02] ++ List.replicate (max 2 4096 - 2) 0) 0 = _
    unfold memFrom
    rw [if_neg (by simp only [List.length_append, List.length_replicate]; omega)]
    rfl
  obtain ⟨s1, s2, h1, h2, h3⟩ :=
    (C8_jz_jnz_ip { newSim [0x74, 0x02] with flags := { zero := true } } 0x02
      (List.replicate 4094 0) (by decide) (by rw [List.length_replicate]; decide)).1 hmem
  exact ⟨s1, s2, h1, h2, h3⟩

/-! ## Decoder -/

/-- C9: on a reader whose next bytes are `b :: rest`, `parseCommon` sets
`mod = b >> 6`, `reg = (b >> 3) & 7`, `rm = b & 7`; when `mod = 10`, or
`mod = 00` and `rm = 110`, it takes the next two bytes, low byte first, as a
signed 16-bit displacement (cursor three bytes further); when `mod = 01` it
takes the next byte, sign-extended (cursor two bytes further); otherwise
(`mod = 11`, or `mod = 00` and `rm ≠ 110`) it reads no further byte and the
displacement is 0 (cursor one byte further). -/
theorem C9_parseCommon_fields_and_displacement (r : Reader) (b : Byte) (rest : List Byte)
    (h : r.buf.drop r.idx = b :: rest) :
    ((b.val >>> 6 = 0b10 ∨ (b.val >>> 6 = 0b00 ∧ b.val &&& 0b111 = 0b110)) →
      ∀ (lo hi : Byte) (rest2 : List Byte), rest = lo :: hi :: rest2 →
        parseCommon r = .ok ({ mod := b.val >>> 6, reg := (b.val >>> 3) &&& 0b111,
                               rm := b.val &&& 0b111,
                               disp := int16 (lo.val + 256 * hi.val) },
                             ⟨r.idx + 3, r.buf⟩)) ∧
    (b.val >>> 6 = 0b01 →
      ∀ (d : Byte) (rest2 : List Byte), rest = d :: rest2 →
        parseCommon r = .ok ({ mod := b.val >>> 6, reg := (b.val >>> 3) &&& 0b111,
                               rm := b.val &&& 0b111, disp := int8 d.val },
                             ⟨r.idx + 2, r.buf⟩)) ∧
    ((b.val >>> 6 = 0b11 ∨ (b.val >>> 6 = 0b00 ∧ b.val &&& 0b111 ≠ 0b110)) →
      parseCommon r = .ok ({ mod := b.val >>> 6, reg := (b.val >>> 3) &&& 0b111,
                             rm := b.val &&& 0b111, disp := 0 },
                           ⟨r.idx + 1, r.buf⟩)) :=
  parseCommon_cases r b rest h

/-- C9 at a concrete input: after the opcode `8B`, the bytes `41 FE`
(`mod = 01`, `reg = 000`, `rm = 001`) give the displacement `-2` and leave the
cursor two bytes further. -/
theorem C9_parseCommon_fields_and_displacement_witness :
    parseCommon ⟨1, [0x8B, 0x41, 0xFE]⟩ =
      .ok ({ mod := 1, reg := 0, rm := 1, disp := -2 }, ⟨3, [0x8B, 0x41, 0xFE]⟩) :=
  (C9_parseCommon_fields_and_displacement ⟨1, [0x8B, 0x41, 0xFE]⟩ 0x41 [0xFE] rfl).2.1
    (by decide) 0xFE [] rfl

/-- C10: for an arithmetic instruction `100000sw` whose next bytes are the
opcode `fb`, the mod-reg-rm byte `m` and `rest`, `parseArithmetic` reads the
immediate after the displacement as two bytes, low byte first, exactly when
`s = 0` and `w = 1`, and as one byte otherwise; the cursor ends
`2 + dispLen m + 2` bytes, respectively `2 + dispLen m + 1` bytes, after the
start of the instruction. -/
theorem C10_arithmetic_immediate_width (r : Reader) (fb m : Byte) (rest : List Byte)
    (h : r.buf.drop r.idx = fb :: m :: rest) (hfb : fb.val >>> 2 = 0b100000) :
    (((fb.val >>> 1) &&& 1 = 0 ∧ fb.val &&& 1 = 1) →
      dispLen m.val + 2 ≤ rest.length →
      ∃ a lo hi rest2,
        rest.drop (dispLen m.val) = lo :: hi :: rest2 ∧
        parseArithmetic r = .ok (a, ⟨r.idx + (2 + dispLen m.val + 2), r.buf⟩) ∧
        a.typ = .Arithmetic_Immediate_To_RegisterOrMemory ∧
        a.s = (fb.val >>> 1) &&& 1 ∧ a.w = fb.val &&& 1 ∧
        a.data = lo.val + 256 * hi.val) ∧
    (¬ ((fb.val >>> 1) &&& 1 = 0 ∧ fb.val &&& 1 = 1) →
      dispLen m.val + 1 ≤ rest.length →
      ∃ a b rest2,
        rest.drop (dispLen m.val) = b :: rest2 ∧
        parseArithmetic r = .ok (a, ⟨r.idx + (2 + dispLen m.val + 1), r.buf⟩) ∧
        a.typ = .Arithmetic_Immediate_To_RegisterOrMemory ∧
        a.s = (fb.val >>> 1) &&& 1 ∧ a.w = fb.val &&& 1 ∧
        a.data = b.val) := by
  have h1 := Reader.mustRead_of_drop r fb (m :: rest) h
  have hrest1 : r.buf.drop (r.idx + 1) = m :: rest := drop_succ_of_drop r fb (m :: rest) h
  have hrest2 : r.buf.drop (r.idx + 1 + 1) = rest :=
    drop_succ_of_drop ⟨r.idx + 1, r.buf⟩ m rest hrest1
  have hdrop : r.buf.drop (r.idx + 1 + (1 + dispLen m.val)) = rest.drop (dispLen m.val) := by
    rw [← hrest2, List.drop_drop]
    congr 1
    omega
  refine ⟨?_, ?_⟩
  · intro hsw hlen
    obtain ⟨c, hc, _⟩ := parseCommon_ok ⟨r.idx + 1, r.buf⟩ m rest hrest1 (by omega)
    obtain ⟨lo, hi, rest2, hr⟩ := exists_drop_cons_cons rest (dispLen m.val) hlen
    have h2 := Reader.mustReadUint16_of_drop
      ⟨r.idx + 1 + (1 + dispLen m.val), r.buf⟩ lo hi rest2
      (by rw [← hr]; exact hdrop)
    have hw : ((fb.val >>> 1 &&& 1 == 0) && (fb.val >>> 0 &&& 1 == 1)) = true := by
      simp [hsw.1, hsw.2]
    have e : r.idx + 1 + (1 + dispLen m.val) + 2 = r.idx + (2 + dispLen m.val + 2) := by omega
    simp only [e] at hc h2
    have hpa : parseArithmetic r =
        .ok ({ toCommon := c, typ := .Arithmetic_Immediate_To_RegisterOrMemory,
               s := (fb.val >>> 1) &&& 1, w := (fb.val >>> 0) &&& 1,
               data := (hi.val <<< 8) ||| lo.val, firstByte := fb.val },
             ⟨r.idx + (2 + dispLen m.val + 2), r.buf⟩) := by
      unfold parseArithmetic
      simp only [h1, hfb, if_true, hc, Reader.mustReadUint16W, hw, h2]
    exact ⟨_, lo, hi, rest2, hr, hpa, rfl, rfl, rfl, shl_or_eq lo.val hi.val lo.isLt⟩
  · intro hsw hlen
    obtain ⟨c, hc, _⟩ := parseCommon_ok ⟨r.idx + 1, r.buf⟩ m rest hrest1 (by omega)
    obtain ⟨b, rest2, hr⟩ := exists_drop_cons rest (dispLen m.val) hlen
    have h2 := Reader.mustRead_of_drop
      ⟨r.idx + 1 + (1 + dispLen m.val), r.buf⟩ b rest2
      (by rw [← hr]; exact hdrop)
    have hw : ((fb.val >>> 1 &&& 1 == 0) && (fb.val >>> 0 &&& 1 == 1)) = false := by
      simpa using hsw
    have e : r.idx + 1 + (1 + dispLen m.val) + 1 = r.idx + (2 + dispLen m.val + 1) := by omega
    simp only [e] at hc h2
    have hpa : parseArithmetic r =
        .ok ({ toCommon := c, typ := .Arithmetic_Immediate_To_RegisterOrMemory,
               s := (fb.val >>> 1) &&& 1, w := (fb.val >>> 0) &&& 1,
               data := b.val, firstByte := fb.val },
             ⟨r.idx + (2 + dispLen m.val + 1), r.buf⟩) := by
      unfold parseArithmetic
      simp only [h1, hfb, if_true, hc, Reader.mustReadUint16W, hw, h2]
      rfl
    exact ⟨_, b, rest2, hr, hpa, rfl, rfl, rfl, rfl⟩

/-- C10 at a concrete input: `81 C0 34 12` (`s = 0`, `w = 1`, `mod = 11`) is
four bytes long and carries the immediate `0x1234`. -/
theorem C10_arithmetic_immediate_width_witness :
    ∃ a, parseArithmetic (newReader [0x81, 0xC0, 0x34, 0x12]) =
        .ok (a, ⟨4, [0x81, 0xC0, 0x34, 0x12]⟩) ∧ a.data = 0x1234 := by
  obtain ⟨a, lo, hi, rest2, hr, hpa, _, _, _, hd⟩ :=
    (C10_arithmetic_immediate_width (newReader [0x81, 0xC0, 0x34, 0x12]) 0x81 0xC0
      [0x34, 0x12] rfl (by decide)).1 (by decide) (by decide)
  have hr2 : ([0x34, 0x12] : List Byte) = lo :: hi :: rest2 := hr
  injection hr2 with h1 h2
  injection h2 with h2 h3
  refine ⟨a, hpa, ?_⟩
  rw [hd, ← h1, ← h2]
  rfl

/-! ## Decoder and formatter -/

/-- C11 (code defect): for `100000sw` with `s = 1`, `w = 1` the immediate byte
is zero-extended, not sign-extended: `83 C0 FF` decodes with `data = 0x00FF`,
and `mov ax, 5; add ax, -1` (`B8 05 00 83 C0 FF`) ends with
`ax = 0x0104 = 5 + 255` instead of 4. -/
theorem C11_immediate_byte_zero_extended :
    (∃ a r1, parseArithmetic (newReader [0x83, 0xC0, 0xFF]) = .ok (a, r1) ∧
      a.typ = .Arithmetic_Immediate_To_RegisterOrMemory ∧ a.s = 1 ∧ a.w = 1 ∧
      a.data = 0x00FF) ∧
    (∃ s, driver true 3 (newSim [0xB8, 0x05, 0x00, 0x83, 0xC0, 0xFF]) = .done s ∧
      s.regs 0 = 0x0104) := by
  refine ⟨⟨_, _, rfl, rfl, rfl, rfl, rfl⟩, ?_⟩
  obtain ⟨s, hs, hp⟩ := Outcome.exists_of_doneWith
    (driver true 3 (newSim [0xB8, 0x05, 0x00, 0x83, 0xC0, 0xFF]))
    (fun s => decide (s.regs 0 = 0x0104)) (by decide!)
  exact ⟨s, hs, of_decide_eq_true hp⟩


/-- C12 (code defect): the one-byte program `F4` gives the `unknown instruction`
error carrying `F4` and the three memory bytes after it, with `ip` and the
recorded size unchanged. But `endProgram` (4096 bytes: 1365 times `B8 00 00`,
then `F4`) is its own memory image, with the single byte `F4` from `ip = 4095`
on; the decode step at `ip = 4095` panics with `ErrOutOfBound` in its
four-byte look-ahead before the opcode is examined, whatever the registers,
flags and recorded size; and the driver run ends on that panic after the 1365
Mov instructions. -/
theorem C12_unknown_opcode_at_end_of_memory :
    (newSim [0xF4]).decodeView =
      .ok (.error (.unknownInstruction [0xF4, 0, 0, 0]), 0, 0) ∧
    (isMov 0xF4 = false ∧ isArithmetic 0xF4 = false ∧ isJumpOrLoop 0xF4 = false) ∧
    (newSim endProgram).mem = endProgram ∧ (newSim endProgram).initSize = 4096 ∧
    memFrom endProgram 4095 = .ok [0xF4] ∧
    (∀ (regs : Fin 8 → Nat) (flags : Flags) (sz : Nat),
      Sim.disassemble { regs := regs, flags := flags, mem := endProgram, ip := 4095,
                        initSize := 4096, lastInsSize := sz } = .error .ErrOutOfBound) ∧
    driver false 1366 (newSim endProgram) = .panicked .ErrOutOfBound := by
  refine ⟨by decide!, ⟨rfl, rfl, rfl⟩, endProgram_mem,
    (newSim_initSize endProgram).trans endProgram_length, endProgram_memFrom_last, ?_, ?_⟩
  · intro regs flags sz
    exact endProgram_decode_last _ rfl rfl rfl
  · exact endProgram_run 1365 (Nat.le_refl _) (newSim endProgram) endProgram_mem
      ((newSim_initSize endProgram).trans endProgram_length) rfl

/-- C13 (code defect): `80 C8 01` (`100000sw` with reg field `001`, the
encoding of `or al, 1`) is accepted by the decoders (`decodeNext`, the buffer
decoder `disassemble`, and `Sim.disassemble` with recorded size 3), and
formatting the decoded instruction reaches `panic("unreachable")` in
`Arithmetic.opName`. -/
theorem C13_formatter_reaches_unreachable :
    (∃ a r1, decodeNext (newReader [0x80, 0xC8, 0x01]) = .ok (.ok (.arithmetic a, r1)) ∧
      a.typ = .Arithmetic_Immediate_To_RegisterOrMemory ∧ a.mod = 0b11 ∧ a.reg = 0b001 ∧
      disassemble [0x80, 0xC8, 0x01] = some (.ok (.ok [.arithmetic a])) ∧
      a.opName = .error .unreachable ∧
      (Command.arithmetic a).Disassemble = .error .unreachable) ∧
    (∃ a, (newSim [0x80, 0xC8, 0x01]).decodeView = .ok (.ok (some (.arithmetic a)), 0, 3) ∧
      (Command.arithmetic a).Disassemble = .error .unreachable) := by
  refine ⟨⟨_, _, rfl, rfl, rfl, rfl, rfl, rfl, rfl⟩,
    ⟨{ typ := .Arithmetic_Immediate_To_RegisterOrMemory, mod := 3, reg := 1, rm := 0,
       data := 1, firstByte := 0x80 }, ?_, rfl⟩⟩
  decide!

/-- C14: for the bytes `fb m` with `fb = 100010dw` and `mod = 11` in `m`,
`parseMov` consumes the two bytes and the formatter yields `mov D, S`: with
`d = 0`, `D` names register `rm` and `S` register `reg`; with `d = 1` they are
swapped; the names are taken from `REGISTERS_16` when `w = 1` and from
`REGISTERS_8` when `w = 0`. -/
theorem C14_mov_regreg_text (r : Reader) (fb m : Byte) (rest : List Byte)
    (h : r.buf.drop r.idx = fb :: m :: rest) (hfb : fb.val >>> 2 = 0b100010)
    (hm : m.val >>> 6 = 0b11) :
    ∃ mov regN rmN,
      parseMov r = .ok (mov, ⟨r.idx + 2, r.buf⟩) ∧
      (if fb.val &&& 1 = 1 then REGISTERS_16 else REGISTERS_8)[(m.val >>> 3) &&& 0b111]? =
        some regN ∧
      (if fb.val &&& 1 = 1 then REGISTERS_16 else REGISTERS_8)[m.val &&& 0b111]? = some rmN ∧
      ((fb.val >>> 1) &&& 1 = 0 → mov.Disassemble = .ok ("mov " ++ rmN ++ ", " ++ regN)) ∧
      ((fb.val >>> 1) &&& 1 = 1 → mov.Disassemble = .ok ("mov " ++ regN ++ ", " ++ rmN)) := by
  have hp := parseMov_regreg r fb m rest h hfb hm
  obtain ⟨regN, rmN, h1, h2, h3⟩ := Disassemble_regreg ((fb.val >>> 1) &&& 1) (fb.val &&& 1)
    ((m.val >>> 3) &&& 0b111) (m.val &&& 0b111) (and_seven_lt _) (and_seven_lt _)
  have ht : (if fb.val &&& 1 = 1 then REGISTERS_16 else REGISTERS_8) =
      (if fb.val &&& 1 = 0 then REGISTERS_8 else REGISTERS_16) := by
    rcases and_one_cases fb.val with hw | hw <;> simp [hw]
  refine ⟨_, regN, rmN, hp, by rw [ht]; exact h1, by rw [ht]; exact h2, ?_, ?_⟩
  · intro hd
    rw [h3, hd]
    rfl
  · intro hd
    rw [h3, hd]
    rfl

/-- C14 at a concrete input: bytes `89 D9` yield `mov cx, bx`. -/
theorem C14_mov_regreg_text_witness :
    ∃ mov, parseMov (newReader [0x89, 0xD9]) = .ok (mov, ⟨2, [0x89, 0xD9]⟩) ∧
      mov.Disassemble = .ok "mov cx, bx" := by
  obtain ⟨mov, regN, rmN, hp, h1, h2, h3, _⟩ :=
    C14_mov_regreg_text (newReader [0x89, 0xD9]) 0x89 0xD9 [] rfl (by decide) (by decide)
  have e1 : regN = "bx" := by
    have : some "bx" = some regN := h1
    injection this with this
    exact this.symm
  have e2 : rmN = "cx" := by
    have : some "cx" = some rmN := h2
    injection this with this
    exact this.symm
  refine ⟨mov, hp, ?_⟩
  rw [h3 (by decide), e1, e2]
  rfl

/-- C15: for an opcode `fb = 1011wreg`, `parseMov` takes `w` from bit 3 and the
register from the low three bits, reads two data bytes, low byte first, when
`w = 1` and one data byte when `w = 0`, and the formatter renders
`mov <name>, <data in decimal>`, the name taken from `REGISTERS_16` when
`w = 1` and from `REGISTERS_8` when `w = 0`. -/
theorem C15_mov_immediate_to_register (r : Reader) (fb : Byte) (rest : List Byte)
    (h : r.buf.drop r.idx = fb :: rest) (hfb : fb.val >>> 4 = 0b1011) :
    ((fb.val >>> 3) &&& 1 = 1 →
      ∀ (lo hi : Byte) (rest2 : List Byte), rest = lo :: hi :: rest2 →
        ∃ mov regN,
          parseMov r = .ok (mov, ⟨r.idx + 3, r.buf⟩) ∧
          mov.typ = .Mov_Immediate_To_Register ∧ mov.w = 1 ∧ mov.reg = fb.val &&& 0b111 ∧
          mov.data = lo.val + 256 * hi.val ∧
          REGISTERS_16[fb.val &&& 0b111]? = some regN ∧
          mov.Disassemble = .ok ("mov " ++ regN ++ ", " ++ toString (lo.val + 256 * hi.val))) ∧
    ((fb.val >>> 3) &&& 1 = 0 →
      ∀ (b : Byte) (rest2 : List Byte), rest = b :: rest2 →
        ∃ mov regN,
          parseMov r = .ok (mov, ⟨r.idx + 2, r.buf⟩) ∧
          mov.typ = .Mov_Immediate_To_Register ∧ mov.w = 0 ∧ mov.reg = fb.val &&& 0b111 ∧
          mov.data = b.val ∧
          REGISTERS_8[fb.val &&& 0b111]? = some regN ∧
          mov.Disassemble = .ok ("mov " ++ regN ++ ", " ++ toString b.val)) := by
  refine ⟨?_, ?_⟩
  · intro hw lo hi rest2 hr
    rw [hr] at h
    obtain ⟨regN, a1, a2⟩ := Disassemble_imm 1 (fb.val &&& 0b111) (lo.val + 256 * hi.val)
      (and_seven_lt _)
    exact ⟨_, regN, parseMov_imm_wide r fb lo hi rest2 h hfb hw, rfl, rfl, rfl, rfl, a1, a2⟩
  · intro hw b rest2 hr
    rw [hr] at h
    obtain ⟨regN, a1, a2⟩ := Disassemble_imm 0 (fb.val &&& 0b111) b.val (and_seven_lt _)
    exact ⟨_, regN, parseMov_imm_narrow r fb b rest2 h hfb hw, rfl, rfl, rfl, rfl, a1, a2⟩

/-- C15 at a concrete input: bytes `B1 0C` yield `mov cl, 12`. -/
theorem C15_mov_immediate_to_register_witness :
    ∃ mov, parseMov (newReader [0xB1, 0x0C]) = .ok (mov, ⟨2, [0xB1, 0x0C]⟩) ∧
      mov.Disassemble = .ok "mov cl, 12" := by
  obtain ⟨mov, regN, hp, _, _, _, _, h1, h2⟩ :=
    (C15_mov_immediate_to_register (newReader [0xB1, 0x0C]) 0xB1 [0x0C] rfl (by decide)).2 (by decide) 0x0C [] rfl
  have e1 : regN = "cl" := by
    have : some "cl" = some regN := h1
    injection this with this
    exact this.symm
  refine ⟨mov, hp, ?_⟩
  rw [h2, e1]
  decide

/-- C16, counterexample: the two different valid encodings `89 D9`
(`d = 0`, `reg = bx`, `rm = cx`) and `8B CB` (`d = 1`, `reg = cx`, `rm = bx`)
both render as `mov cx, bx`. -/
theorem C16_two_encodings_same_text :
    ((0x89 : Byte).val >>> 2 = 0b100010 ∧ (0xD9 : Byte).val >>> 6 = 0b11) ∧
    ((0x8B : Byte).val >>> 2 = 0b100010 ∧ (0xCB : Byte).val >>> 6 = 0b11) ∧
    ((0x89 : Byte), (0xD9 : Byte)) ≠ ((0x8B : Byte), (0xCB : Byte)) ∧
    movRegText 0x89 0xD9 = .ok "mov cx, bx" ∧
    movRegText 0x8B 0xCB = .ok "mov cx, bx" := by
  decide

/-- C16, amended: on the valid two-byte encodings `100010dw` with `mod = 11`,
a re-assembler that emits the direction bit `d` of the encoding gives back
the identical two bytes from the rendered text; hence decode followed by
format is injective on the encodings that share `d`. -/
theorem C16_round_trip_for_fixed_direction :
    (∀ (fb m : Byte), fb.val >>> 2 = 0b100010 → m.val >>> 6 = 0b11 →
      ∃ text, movRegText fb m = .ok text ∧
        reassembleMov ((fb.val >>> 1) &&& 1) text = some (fb, m)) ∧
    (∀ (fb1 m1 fb2 m2 : Byte),
      fb1.val >>> 2 = 0b100010 → m1.val >>> 6 = 0b11 →
      fb2.val >>> 2 = 0b100010 → m2.val >>> 6 = 0b11 →
      (fb1.val >>> 1) &&& 1 = (fb2.val >>> 1) &&& 1 →
      movRegText fb1 m1 = movRegText fb2 m2 → fb1 = fb2 ∧ m1 = m2) := by
  refine ⟨fun fb m hfb hm => roundTripMov_spec fb m (roundTripMov_all fb hfb m hm), ?_⟩
  intro fb1 m1 fb2 m2 h1 h1m h2 h2m hd ht
  obtain ⟨t1, e1, r1⟩ := roundTripMov_spec fb1 m1 (roundTripMov_all fb1 h1 m1 h1m)
  obtain ⟨t2, e2, r2⟩ := roundTripMov_spec fb2 m2 (roundTripMov_all fb2 h2 m2 h2m)
  have ht12 : t1 = t2 := by
    rw [e1, e2] at ht
    injection ht
  rw [ht12, hd, r2] at r1
  injection r1 with r1
  injection r1 with ra rb
  exact ⟨ra.symm, rb.symm⟩

/-- C16 amended, at concrete inputs: `89 D9` is recovered from its text with
`d = 0`, and an encoding with the same text and the same `d` is `89 D9`. -/
theorem C16_round_trip_for_fixed_direction_witness :
    (∃ text, movRegText 0x89 0xD9 = .ok text ∧ reassembleMov 0 text = some (0x89, 0xD9)) ∧
    (movRegText 0x89 0xD9 = movRegText 0x89 0xD9 →
      (0x89 : Byte) = 0x89 ∧ (0xD9 : Byte) = 0xD9) :=
  ⟨C16_round_trip_for_fixed_direction.1 0x89 0xD9 (by decide) (by decide),
   C16_round_trip_for_fixed_direction.2 0x89 0xD9 0x89 0xD9 (by decide) (by decide)
     (by decide) (by decide) rfl⟩

/-! ## Byte cursor -/

/-- C17: `read` fails with `ErrOutOfBound` if and only if `idx ≥ len`, and
`readN n` if and only if `idx + n > len`; a failing call leaves the reader
unchanged; a successful `read` returns `buf[idx]` and advances `idx` by 1, a
successful `readN n` returns the `n` bytes `buf[idx], …, buf[idx+n-1]` and
advances `idx` by `n`; in both cases the new `idx` is at most `len`. -/
theorem C17_read_readN_bounds (r : Reader) (n : Nat) :
    (r.read.1 = .error .ErrOutOfBound ↔ r.idx ≥ r.buf.length) ∧
    (r.idx ≥ r.buf.length → r.read = (.error .ErrOutOfBound, r)) ∧
    (∀ h : r.idx < r.buf.length,
      r.read = (.ok (r.buf[r.idx]).val, ⟨r.idx + 1, r.buf⟩) ∧ r.idx + 1 ≤ r.buf.length) ∧
    ((r.readN n).1 = .error .ErrOutOfBound ↔ r.idx + n > r.buf.length) ∧
    (r.idx + n > r.buf.length → r.readN n = (.error .ErrOutOfBound, r)) ∧
    (r.idx + n ≤ r.buf.length →
      ∃ bs, r.readN n = (.ok bs, ⟨r.idx + n, r.buf⟩) ∧ bs.length = n ∧
        ∀ k, k < n → bs[k]? = r.buf[r.idx + k]?) := by
  obtain ⟨a1, a2⟩ := read_spec r
  obtain ⟨b1, b2⟩ := readN_spec r n
  refine ⟨?_, a1, fun h => ⟨a2 h, h⟩, ?_, b1, ?_⟩
  · constructor
    · intro h
      by_contra hc
      rw [a2 (by omega)] at h
      simp at h
    · intro h
      rw [a1 h]
  · constructor
    · intro h
      by_contra hc
      rw [b2 (by omega)] at h
      simp at h
    · intro h
      rw [b1 h]
  · intro h
    obtain ⟨c1, c2⟩ := take_drop_spec r.buf r.idx n h
    exact ⟨_, b2 h, c1, c2⟩

/-- C17 at concrete inputs: `read` at the end of a three-byte buffer fails and
keeps the reader; `readN 2` at position 1 returns two bytes and ends at 3. -/
theorem C17_read_readN_bounds_witness :
    Reader.read ⟨3, [0x0A, 0x0B, 0x0C]⟩ = (.error .ErrOutOfBound, ⟨3, [0x0A, 0x0B, 0x0C]⟩) ∧
    (∃ bs, Reader.readN ⟨1, [0x0A, 0x0B, 0x0C]⟩ 2 = (.ok bs, ⟨3, [0x0A, 0x0B, 0x0C]⟩) ∧
      bs.length = 2 ∧
      ∀ k, k < 2 → bs[k]? = ([0x0A, 0x0B, 0x0C] : List Byte)[1 + k]?) :=
  ⟨(C17_read_readN_bounds ⟨3, [0x0A, 0x0B, 0x0C]⟩ 0).2.1 (by decide),
   (C17_read_readN_bounds ⟨1, [0x0A, 0x0B, 0x0C]⟩ 2).2.2.2.2.2 (by decide)⟩

/-- C18: with two bytes remaining at position `i`, `mustReadUint16` returns
`buf[i] + 256 * buf[i+1]` and advances the position by 2; `mustReadUint16W`
does the same when `wide` is true, and returns `buf[i]` alone, advancing the
position by 1, when `wide` is false. -/
theorem C18_read_uint16_little_endian (r : Reader) (h : r.idx + 2 ≤ r.buf.length) :
    r.mustReadUint16 =
      .ok ((r.buf[r.idx]).val + 256 * (r.buf[r.idx + 1]).val, ⟨r.idx + 2, r.buf⟩) ∧
    r.mustReadUint16W true =
      .ok ((r.buf[r.idx]).val + 256 * (r.buf[r.idx + 1]).val, ⟨r.idx + 2, r.buf⟩) ∧
    r.mustReadUint16W false = .ok ((r.buf[r.idx]).val, ⟨r.idx + 1, r.buf⟩) := by
  have hd : r.buf.drop r.idx = r.buf[r.idx] :: r.buf[r.idx + 1] :: r.buf.drop (r.idx + 2) := by
    rw [List.drop_eq_getElem_cons (by omega), List.drop_eq_getElem_cons (by omega)]
  have h16 := Reader.mustReadUint16_of_drop r _ _ _ hd
  rw [shl_or_eq _ _ (r.buf[r.idx]).isLt] at h16
  have h8 := Reader.mustRead_of_drop r _ _ hd
  refine ⟨h16, ?_, ?_⟩
  · simp only [Reader.mustReadUint16W, if_true, h16]
  · simp [Reader.mustReadUint16W, h8]

/-- C18 at a concrete input: the bytes `34 12` read as `0x1234`. -/
theorem C18_read_uint16_little_endian_witness :
    Reader.mustReadUint16 ⟨1, [0xB8, 0x34, 0x12]⟩ = .ok (0x1234, ⟨3, [0xB8, 0x34, 0x12]⟩) ∧
    Reader.mustReadUint16W ⟨1, [0xB8, 0x34, 0x12]⟩ true =
      .ok (0x1234, ⟨3, [0xB8, 0x34, 0x12]⟩) ∧
    Reader.mustReadUint16W ⟨1, [0xB8, 0x34, 0x12]⟩ false =
      .ok (0x34, ⟨2, [0xB8, 0x34, 0x12]⟩) :=
  C18_read_uint16_little_endian ⟨1, [0xB8, 0x34, 0x12]⟩ (by decide)


/-- C19, counterexample: with two bytes remaining, `mustPeek 4` panics with
`ErrOutOfBound`; it does not return the two remaining bytes. -/
theorem C19_mustPeek_does_not_clamp :
    Reader.remaining (newReader [0x01, 0x02]) = 2 ∧
    (newReader [0x01, 0x02]).mustPeek 4 = .error .ErrOutOfBound := by
  decide

/-- C19, amended: when at least `n` bytes remain, `mustPeek n` returns the `n`
bytes `buf[idx], …, buf[idx+n-1]` and leaves the reader unchanged; when fewer
than `n` bytes remain it panics with `ErrOutOfBound`. -/
theorem C19_mustPeek_exact_or_panic (r : Reader) (n : Nat) :
    (r.idx + n ≤ r.buf.length →
      ∃ bs, r.mustPeek n = .ok (bs, r) ∧ bs.length = n ∧
        ∀ k, k < n → bs[k]? = r.buf[r.idx + k]?) ∧
    (r.idx + n > r.buf.length → r.mustPeek n = .error .ErrOutOfBound) := by
  obtain ⟨b1, b2⟩ := readN_spec r n
  refine ⟨?_, ?_⟩
  · intro h
    obtain ⟨c1, c2⟩ := take_drop_spec r.buf r.idx n h
    refine ⟨_, ?_, c1, c2⟩
    simp [Reader.mustPeek, Reader.mustReadN, b2 h]
  · intro h
    simp [Reader.mustPeek, Reader.mustReadN, b1 h]

/-- C19 amended, at concrete inputs: two bytes peeked at position 1 of a
four-byte buffer, and a panic when four are asked for there. -/
theorem C19_mustPeek_exact_or_panic_witness :
    (∃ bs, Reader.mustPeek ⟨1, [0x0A, 0x0B, 0x0C, 0x0D]⟩ 2 =
        .ok (bs, ⟨1, [0x0A, 0x0B, 0x0C, 0x0D]⟩) ∧ bs.length = 2 ∧
        ∀ k, k < 2 → bs[k]? = ([0x0A, 0x0B, 0x0C, 0x0D] : List Byte)[1 + k]?) ∧
    Reader.mustPeek ⟨1, [0x0A, 0x0B, 0x0C, 0x0D]⟩ 4 = .error .ErrOutOfBound :=
  ⟨(C19_mustPeek_exact_or_panic ⟨1, [0x0A, 0x0B, 0x0C, 0x0D]⟩ 2).1 (by decide),
   (C19_mustPeek_exact_or_panic ⟨1, [0x0A, 0x0B, 0x0C, 0x0D]⟩ 4).2 (by decide)⟩

/-! ## Decode step of the driver -/

/-- C20, counterexample: for the one-byte program `B8` the decode step returns
`mov ax, 0` with recorded size 3: the two data bytes are the zero bytes of the
memory after the program, and no bounds error is raised. -/
theorem C20_truncated_mov_decodes_from_padding :
    (newSim [0xB8]).initSize = 1 ∧
    (newSim [0xB8]).decodeView =
      .ok (.ok (some (.mov { typ := .Mov_Immediate_To_Register, w := 1, reg := 0, data := 0 })),
           0, 3) := by
  refine ⟨rfl, ?_⟩
  decide!

/-- C20, amended: for a program of at most 4090 bytes the memory is the program
followed by zero bytes up to 4096 bytes, and the decode step at every `ip`
inside the program returns without a panic (so without a bounds error): an
instruction that the program cuts short is completed from the zero bytes. -/
theorem C20_decode_reads_padded_memory (prog : List Byte) (s : Sim) (hmem : s.mem = (newSim prog).mem)
    (hsz : s.initSize = prog.length) (hlen : prog.length ≤ 4090)
    (h0 : 0 ≤ s.ip) (hip : s.ip < prog.length) :
    s.mem = prog ++ List.replicate (4096 - prog.length) 0 ∧
    ∃ s1 res, s.disassemble = .ok (s1, res) := by
  have hmax : max prog.length 4096 = 4096 := by omega
  have hml : s.mem.length = 4096 := by
    rw [hmem, newSim_mem_length, hmax]
  have hmf := memFrom_ok s.mem s.ip h0 (by omega)
  have hbl : 6 ≤ (s.mem.drop s.ip.toNat).length := by
    rw [List.length_drop, hml]
    omega
  obtain ⟨s1, res, hd, _⟩ := disassemble_total s _ (by omega) hmf hbl
  refine ⟨?_, s1, res, hd⟩
  rw [hmem, newSim_mem, hmax]

/-- C20 amended, at a concrete input: the one-byte program `B8`. -/
theorem C20_decode_reads_padded_memory_witness :
    (newSim [0xB8]).mem = [0xB8] ++ List.replicate (4096 - 1) 0 ∧
    ∃ s1 res, (newSim [0xB8]).disassemble = .ok (s1, res) :=
  C20_decode_reads_padded_memory [0xB8] (newSim [0xB8]) rfl rfl (by decide) (by decide) (by decide)

/-! ## Formatter -/

/-- C21 (code defect): for the displacement `-32768` the Go negation `-c.disp`
wraps to `-32768`, so `rmName` renders `[bx + di - -32768]` instead of
`[bx + di - 32768]`; the bytes `8B 81 00 80` decode to that displacement and
format as `mov ax, [bx + di - -32768]`. For `-32767` the text is as stated. -/
theorem C21_rmName_min_displacement :
    Common.rmName { mod := 0b10, rm := 1, disp := -32768 } 1 = .ok "[bx + di - -32768]" ∧
    Common.rmName { mod := 0b10, rm := 1, disp := -32767 } 1 = .ok "[bx + di - 32767]" ∧
    (∃ m r1, parseMov (newReader [0x8B, 0x81, 0x00, 0x80]) = .ok (m, r1) ∧
      m.mod = 0b10 ∧ m.rm = 1 ∧ m.disp = -32768 ∧
      m.Disassemble = .ok "mov ax, [bx + di - -32768]") := by
  refine ⟨by decide, by decide, ⟨_, _, rfl, rfl, rfl, rfl, ?_⟩⟩
  decide

/-! ## Jumps, loops and Mov in the simulator -/

/-- C22: a jump or loop opcode in `0x70..0x7F` or `0xE0..0xE3` other than `74`
(jz) and `75` (jnz), decoded at `ip = p` in a state whose memory holds at
least four bytes from `p` on, is executed without error whatever the state
and the offset byte: `exec` returns a `nil` error and leaves `ip = p + 2`,
with registers, flags and memory as they were. -/
theorem C22_other_jumps_fall_through (s : Sim) (opc kb : Byte) (rest : List Byte)
    (hip : s.ip < s.initSize) (hlen : 2 ≤ rest.length)
    (hmem : memFrom s.mem s.ip = .ok (opc :: kb :: rest))
    (hop : (0x70 ≤ opc.val ∧ opc.val ≤ 0x7F) ∨ (0xE0 ≤ opc.val ∧ opc.val ≤ 0xE3))
    (h74 : opc.val ≠ 0x74) (h75 : opc.val ≠ 0x75) :
    ∃ s1 s2,
      s.disassemble = .ok (s1, .ok (some (.jumpOrLoop { op := opc.val, inc := int8 kb.val }))) ∧
      s1.exec (.jumpOrLoop { op := opc.val, inc := int8 kb.val }) = .ok (s2, none) ∧
      s2.ip = s.ip + 2 ∧ s2.regs = s.regs ∧ s2.flags = s.flags ∧ s2.mem = s.mem := by
  obtain ⟨hj, hm, ha⟩ := jump_opcode_range opc hop
  have hd := disassemble_jump s opc kb rest hip hmem hlen hm ha hj
  refine ⟨_, _, hd, rfl, ?_⟩
  simp [Sim.handleJumpOrLoop, h74, h75]

/-- C22 at a concrete input: bytes `E2 FC` (loop with offset -4) at `ip = 0`
leave `ip = 2`. -/
theorem C22_other_jumps_fall_through_witness :
    ∃ s1 s2,
      (newSim [0xE2, 0xFC]).disassemble =
        .ok (s1, .ok (some (.jumpOrLoop { op := 0xE2, inc := int8 0xFC }))) ∧
      s1.exec (.jumpOrLoop { op := 0xE2, inc := int8 0xFC }) = .ok (s2, none) ∧
      s2.ip = 0 + 2 ∧ s2.regs = (newSim [0xE2, 0xFC]).regs ∧
      s2.flags = (newSim [0xE2, 0xFC]).flags ∧ s2.mem = (newSim [0xE2, 0xFC]).mem := by
  have hmem : memFrom (newSim [0xE2, 0xFC]).mem 0 =
      .ok (0xE2 :: 0xFC :: List.replicate 4094 0) := by
    show memFrom ([0xE2, 0xFC] ++ List.replicate (max 2 4096 - 2) 0) 0 = _
    unfold memFrom
    rw [if_neg (by simp only [List.length_append, List.length_replicate]; omega)]
    rfl
  exact C22_other_jumps_fall_through (newSim [0xE2, 0xFC]) 0xE2 0xFC (List.replicate 4094 0)
    (by decide) (by rw [List.length_replicate]; decide) hmem (by decide) (by decide) (by decide)
/-- C23: for a Mov that the decode step returns, `exec` returns; its error is
`nil` or `unsupported mov type`, the latter exactly when the Mov is neither
immediate-to-register nor a register/memory-to/from-register form with
`mod = 11`; with that error the registers, the flags and the memory are as
before the call. The Mov has a text in every case, so a memory-operand Mov
decodes and formats and is rejected by execution. -/
theorem C23_unsupported_mov (s s1 : Sim) (m : Mov)
    (h : s.disassemble = .ok (s1, .ok (some (.mov m)))) :
    ∃ s2 err, s1.exec (.mov m) = .ok (s2, err) ∧
      (err = none ∨ err = some .unsupportedMov) ∧
      (err = some .unsupportedMov ↔
        ¬ (m.typ = .Mov_Immediate_To_Register ∨
           (m.typ = .Mov_RegisteryOrMemory_ToOrFrom_Register ∧ m.mod = 0b11))) ∧
      (err = some .unsupportedMov →
        s2.regs = s.regs ∧ s2.flags = s.flags ∧ s2.mem = s.mem) ∧
      (∃ text, m.Disassemble = .ok text) := by
  obtain ⟨hs1, _, _, _, _, hmv, _, _⟩ := disassemble_some s s1 _ h
  obtain ⟨hv, hmod, hreg, hrm⟩ := hmv m rfl
  obtain ⟨s3, err, h3⟩ := handleMov_ok s1 m hreg hrm
  obtain ⟨_, f2, f3, f4⟩ := handleMov_frame s1 s3 m err h3
  refine ⟨{ s3 with ip := s3.ip + s3.lastInsSize }, err, ?_, f2, f3, ?_,
    Mov.Disassemble_ok m hv hmod hreg hrm⟩
  · simp only [Sim.exec, h3]
  · intro he
    have h4 := f4 he
    subst h4
    rw [hs1]
    exact ⟨rfl, rfl, rfl⟩

/-- C23 at a concrete input: `8B 41 FE` (`mov ax, [bx + di - 2]`) is decoded
and then rejected by `exec`. -/
theorem C23_unsupported_mov_witness :
    ∃ s1 m, (newSim [0x8B, 0x41, 0xFE]).disassemble = .ok (s1, .ok (some (.mov m))) ∧
      m.mod = 0b01 ∧
      ∃ s2 err, s1.exec (.mov m) = .ok (s2, err) ∧
        (err = none ∨ err = some .unsupportedMov) ∧
        (err = some .unsupportedMov ↔
          ¬ (m.typ = .Mov_Immediate_To_Register ∨
             (m.typ = .Mov_RegisteryOrMemory_ToOrFrom_Register ∧ m.mod = 0b11))) ∧
        (err = some .unsupportedMov →
          s2.regs = (newSim [0x8B, 0x41, 0xFE]).regs ∧ s2.flags = (newSim [0x8B, 0x41, 0xFE]).flags ∧
            s2.mem = (newSim [0x8B, 0x41, 0xFE]).mem) ∧
        (∃ text, m.Disassemble = .ok text) := by
  have hv : (newSim [0x8B, 0x41, 0xFE]).decodeView =
      .ok (.ok (some (.mov
        { mod := 0b01, reg := 0, rm := 1, disp := -2, typ := .Mov_RegisteryOrMemory_ToOrFrom_Register, d := 1, w := 1 })),
        0, 3) := by
    decide!
  unfold Sim.decodeView at hv
  cases hd : (newSim [0x8B, 0x41, 0xFE]).disassemble with
  | error e => rw [hd] at hv; cases hv
  | ok pr =>
    obtain ⟨s1, res⟩ := pr
    rw [hd] at hv
    simp only [Except.ok.injEq, Prod.mk.injEq] at hv
    obtain ⟨hres, _⟩ := hv
    subst hres
    exact ⟨s1, _, rfl, rfl, C23_unsupported_mov _ s1 _ hd⟩

/-- C24 (code defect): the first `switch` of `handleArithmetic` has no case for
the immediate-to-accumulator subtype, so target, source and target register
keep their zero values: whatever the state and the immediate, executing such
an add with `w = 1` writes 0 to `ax` and sets the zero flag. The bytes
`05 03 00` decode to that subtype with data 3 and format as `add ax, 3`; after
`mov ax, 5` the program `B8 05 00 05 03 00` ends with `ax = 0`, not 8. -/
theorem C24_accumulator_add_writes_zero :
    (∀ (s : Sim) (a : Arithmetic), a.typ = .Arithmetic_Immediate_To_Accumulator →
      a.op = .Arithmetic_Add → a.w = 1 →
      ∃ s2, s.exec (.arithmetic a) = .ok (s2, none) ∧ s2.regs 0 = 0 ∧
        (∀ i : Fin 8, i ≠ 0 → s2.regs i = s.regs i) ∧ s2.flags.zero = true) ∧
    (∃ a r1, parseArithmetic (newReader [0x05, 0x03, 0x00]) = .ok (a, r1) ∧
      a.typ = .Arithmetic_Immediate_To_Accumulator ∧ a.op = .Arithmetic_Add ∧ a.w = 1 ∧
      a.data = 3 ∧ a.Disassemble = .ok "add ax, 3") ∧
    (∃ s, driver true 2 (newSim [0xB8, 0x05, 0x00]) = .done s ∧ s.regs 0 = 5) ∧
    (∃ s, driver true 3 (newSim [0xB8, 0x05, 0x00, 0x05, 0x03, 0x00]) = .done s ∧
      s.regs 0 = 0 ∧ s.flags.zero = true) := by
  refine ⟨?_, ⟨_, _, rfl, rfl, rfl, rfl, rfl, by decide⟩, ?_, ?_⟩
  · intro s a ht hop hw
    refine ⟨_, exec_accumulator_add s a ht hop hw, ?_, ?_, ?_⟩
    · simp [setAt]
    · intro i hi
      simp [setAt, hi]
    · simp [updateFlags]
  · obtain ⟨s, hs, hp⟩ := Outcome.exists_of_doneWith
      (driver true 2 (newSim [0xB8, 0x05, 0x00]))
      (fun s => decide (s.regs 0 = 5)) (by decide!)
    exact ⟨s, hs, of_decide_eq_true hp⟩
  · obtain ⟨s, hs, hp⟩ := Outcome.exists_of_doneWith
      (driver true 3 (newSim [0xB8, 0x05, 0x00, 0x05, 0x03, 0x00]))
      (fun s => decide (s.regs 0 = 0 ∧ s.flags.zero = true)) (by decide!)
    exact ⟨s, hs, of_decide_eq_true hp⟩

/-! ## Driver loop -/

/-- C25 refuted as stated: the program `75 FC` (jnz with offset -4) starts with
the zero flag clear, so the branch is taken at `ip = 0` and the loop is about
to decode at `ip = 0 + 2 - 4 = -2`. -/
theorem C25_negative_ip_reachable :
    ∃ s, driver true 1 (newSim [0x75, 0xFC]) = .outOfFuel s ∧ s.ip = -2 := by
  obtain ⟨s, hs, hp⟩ := Outcome.exists_of_runningWith
    (driver true 1 (newSim [0x75, 0xFC])) (fun s => decide (s.ip = -2)) (by decide!)
  exact ⟨s, hs, of_decide_eq_true hp⟩

/-- C25 amended: a state `s` in which the driver loop, in execute mode, is
about to decode after `n` iterations from `newSim prog` has `ip ≥ -126`, and
keeps the memory and the program size of `newSim prog`. When `0 ≤ ip` and
`ip` is inside the program, the slice `mem[ip:]` is in range; when `ip < 0`
the decode step panics on that slice and the run ends on the panic. -/
theorem C25_ip_lower_bound (prog : List Byte) (n : Nat) (s : Sim)
    (h : driver true n (newSim prog) = .outOfFuel s) :
    -126 ≤ s.ip ∧ s.initSize = prog.length ∧ s.mem = (newSim prog).mem ∧
    (0 ≤ s.ip → s.ip < s.initSize → memFrom s.mem s.ip = .ok (s.mem.drop s.ip.toNat)) ∧
    (s.ip < 0 → s.disassemble = .error .indexOutOfRange ∧
      driver true (n + 1) (newSim prog) = .panicked .indexOutOfRange) := by
  obtain ⟨a1, a2, a3⟩ := driver_exec_invariant n (newSim prog) s (by show (-126 : Int) ≤ 0; decide) h
  have hsz : s.initSize = prog.length := a3.trans (newSim_initSize prog)
  refine ⟨a1, hsz, a2, ?_, ?_⟩
  · intro h0 h1
    have hl : s.mem.length = max prog.length 4096 := by rw [a2]; exact newSim_mem_length prog
    exact memFrom_ok _ _ h0 (by rw [hl]; omega)
  · intro hneg
    have hd := disassemble_negative_ip s hneg
    refine ⟨hd, ?_⟩
    rw [driver_succ_of_outOfFuel true n _ s h]
    simp only [driver, driverStep, hd]

/-- C25 amended, at a concrete input: the program `75 FC` after one iteration. -/
theorem C25_ip_lower_bound_witness :
    ∃ s, driver true 1 (newSim [0x75, 0xFC]) = .outOfFuel s ∧ s.ip < 0 ∧ -126 ≤ s.ip ∧
      s.disassemble = .error .indexOutOfRange ∧
      driver true (1 + 1) (newSim [0x75, 0xFC]) = .panicked .indexOutOfRange := by
  obtain ⟨s, hs, hp⟩ := Outcome.exists_of_runningWith
    (driver true 1 (newSim [0x75, 0xFC])) (fun s => decide (s.ip < 0)) (by decide!)
  have hneg : s.ip < 0 := of_decide_eq_true hp
  have h := C25_ip_lower_bound [0x75, 0xFC] 1 s hs
  exact ⟨s, hs, hneg, h.1, (h.2.2.2.2 hneg).1, (h.2.2.2.2 hneg).2⟩

/-- C26 (code defect): `tailProgram` (4096 bytes: 1364 times `B8 00 00`, then
twice `89 D9`) is its own memory image. Its last two bytes `89 D9` are the
complete instruction `mov cx, bx`, which the decode step returns at
`ip = 4092`, where four bytes are left; at `ip = 4094` the same two bytes are
left, and the decode step panics with `ErrOutOfBound` in its four-byte
look-ahead, whatever the registers, flags and recorded size. The driver run
ends on that panic after 1365 decoded instructions. -/
theorem C26_decode_needs_four_bytes :
    tailProgram.length = 4096 ∧ (newSim tailProgram).mem = tailProgram ∧
    (newSim tailProgram).initSize = 4096 ∧
    memFrom tailProgram 4092 = .ok [0x89, 0xD9, 0x89, 0xD9] ∧
    memFrom tailProgram 4094 = .ok [0x89, 0xD9] ∧
    (∃ m r1, parseMov (newReader [0x89, 0xD9]) = .ok (m, r1) ∧ r1.idx = 2 ∧
      m.Disassemble = .ok "mov cx, bx") ∧
    (∀ (regs : Fin 8 → Nat) (flags : Flags) (sz : Nat),
      ∃ s1 m,
        Sim.disassemble { regs := regs, flags := flags, mem := tailProgram, ip := 4092,
                          initSize := 4096, lastInsSize := sz } =
          .ok (s1, .ok (some (.mov m))) ∧
        s1.lastInsSize = 2 ∧ m.Disassemble = .ok "mov cx, bx") ∧
    (∀ (regs : Fin 8 → Nat) (flags : Flags) (sz : Nat),
      Sim.disassemble { regs := regs, flags := flags, mem := tailProgram, ip := 4094,
                        initSize := 4096, lastInsSize := sz } = .error .ErrOutOfBound) ∧
    driver false 1366 (newSim tailProgram) = .panicked .ErrOutOfBound := by
  refine ⟨tailProgram_length, tailProgram_mem,
    (newSim_initSize tailProgram).trans tailProgram_length, tailProgram_memFrom_4092,
    tailProgram_memFrom_4094, ⟨_, _, rfl, rfl, by decide⟩, ?_, ?_, ?_⟩
  · intro regs flags sz
    refine ⟨_, _, disassemble_mov_cx_bx _ [0x89, 0xD9] (by show (4092 : Int) < 4096; decide)
      tailProgram_memFrom_4092 (by decide), rfl, by decide⟩
  · intro regs flags sz
    exact disassemble_peek_short _ [0x89, 0xD9] (by show (4094 : Int) < 4096; decide)
      tailProgram_memFrom_4094 (by decide)
  · exact tailProgram_run 1364 (Nat.le_refl _) (newSim tailProgram) tailProgram_mem
      ((newSim_initSize tailProgram).trans tailProgram_length) rfl

/-- C27: a decode step that returns an instruction records a size of two to
six bytes; an iteration of the driver without execution that continues
therefore leaves `ip` strictly greater; and on every program the iterations
that decode an instruction are at most `⌈len / 2⌉`, so that the loop has
stopped (end of program, error or panic) within `⌈len / 2⌉ + 1` iterations,
the last of which is the one that stops. -/
theorem C27_sizes_and_termination :
    (∀ (s s1 : Sim) (cmd : Command), s.disassemble = .ok (s1, .ok (some cmd)) →
      2 ≤ s1.lastInsSize ∧ s1.lastInsSize ≤ 6) ∧
    (∀ (s s2 : Sim) (u : Unit), driverStep false s = .ok (s2, .ok (some u)) →
      s.ip < s2.ip ∧ s2.ip ≤ s.ip + 6) ∧
    (∀ (prog : List Byte) (n : Nat) (s : Sim),
      driver false n (newSim prog) = .outOfFuel s → n ≤ (prog.length + 1) / 2) ∧
    (∀ (prog : List Byte) (s : Sim),
      driver false ((prog.length + 1) / 2 + 1) (newSim prog) ≠ .outOfFuel s) := by
  refine ⟨?_, ?_, driver_false_bound, ?_⟩
  · intro s s1 cmd h
    obtain ⟨hs1, _, _, h2, h3, _⟩ := disassemble_some s s1 cmd h
    have e : s1.lastInsSize = cmd.encodedSize := by rw [hs1]
    rw [e]
    exact ⟨h2, h3⟩
  · intro s s2 u h
    obtain ⟨s1, cmd, _, hs2, _, _, h2, h3⟩ := driverStep_false_ip s s2 u h
    have e : s2.ip = s.ip + cmd.encodedSize := by rw [hs2]
    rw [e]
    omega
  · intro prog s h
    have := driver_false_bound prog _ s h
    omega

/-- C27 at a concrete input: the two-byte program `89 D9` is decoded in one
iteration, `⌈2 / 2⌉ = 1`, and the loop has stopped after the second. -/
theorem C27_sizes_and_termination_witness :
    ∃ s, driver false 1 (newSim [0x89, 0xD9]) = .outOfFuel s ∧
      1 ≤ (([0x89, 0xD9] : List Byte).length + 1) / 2 ∧
      ∀ s2, driver false ((([0x89, 0xD9] : List Byte).length + 1) / 2 + 1) (newSim [0x89, 0xD9]) ≠
        .outOfFuel s2 := by
  obtain ⟨s, hs, _⟩ := Outcome.exists_of_runningWith
    (driver false 1 (newSim [0x89, 0xD9])) (fun _ => true) (by decide!)
  exact ⟨s, hs, C27_sizes_and_termination.2.2.1 [0x89, 0xD9] 1 s hs,
    fun s2 => C27_sizes_and_termination.2.2.2 [0x89, 0xD9] s2⟩
/-- C28: a decode step that returns leaves `ip`, the registers, the flags, the
memory and the program size as they were. When it returns an instruction, the
recorded size is the number of bytes of the encoding of that instruction
(opcode, mod-reg-rm byte, displacement and data bytes as its form has them),
and the iteration of the driver without execution leaves `ip` greater by
exactly that number, the rest of the state being as the decode step left it. -/
theorem C28_decode_frame (s s1 : Sim) (res : Except Error (Option Command))
    (h : s.disassemble = .ok (s1, res)) :
    s1.ip = s.ip ∧ s1.regs = s.regs ∧ s1.flags = s.flags ∧ s1.mem = s.mem ∧
    s1.initSize = s.initSize ∧
    (∀ cmd, res = .ok (some cmd) →
      s1.lastInsSize = cmd.encodedSize ∧
      driverStep false s =
        .ok ({ s with lastInsSize := cmd.encodedSize, ip := s.ip + cmd.encodedSize },
             .ok (some ()))) := by
  obtain ⟨f1, f2, f3, f4, f5⟩ := disassemble_frame s s1 res h
  refine ⟨f1, f2, f3, f4, f5, ?_⟩
  intro cmd hres
  subst hres
  obtain ⟨hs1, _⟩ := disassemble_some s s1 cmd h
  refine ⟨by rw [hs1], ?_⟩
  unfold driverStep
  rw [h, hs1]
  rfl

/-- C28 at a concrete input: `8B 41 FE` (`mov ax, [bx + di - 2]`) at `ip = 0`
has the recorded size 3 = opcode + mod-reg-rm byte + one displacement byte. -/
theorem C28_decode_frame_witness :
    ∃ s1 m, (newSim [0x8B, 0x41, 0xFE]).disassemble = .ok (s1, .ok (some (.mov m))) ∧
      s1.ip = 0 ∧ s1.lastInsSize = 3 ∧ m.encodedSize = 3 := by
  have hv : (newSim [0x8B, 0x41, 0xFE]).decodeView =
      .ok (.ok (some (.mov
        { mod := 0b01, reg := 0, rm := 1, disp := -2, d := 1, w := 1,
          typ := .Mov_RegisteryOrMemory_ToOrFrom_Register })),
        0, 3) := by
    decide!
  unfold Sim.decodeView at hv
  cases hd : (newSim [0x8B, 0x41, 0xFE]).disassemble with
  | error e => rw [hd] at hv; cases hv
  | ok pr =>
    obtain ⟨s1, res⟩ := pr
    rw [hd] at hv
    simp only [Except.ok.injEq, Prod.mk.injEq] at hv
    obtain ⟨hres, _, hsz⟩ := hv
    subst hres
    have h := C28_decode_frame _ s1 _ hd
    exact ⟨s1, _, rfl, h.1, hsz, rfl⟩

/-- C29: `exec` of a Mov (with register fields below 8, as every decoded Mov
has them) and `exec` of a jump or loop return, and the state they return has
the zero and sign flags of the state they were given, whether the Mov is
executed or rejected and whether the branch is taken or not. An iteration of
the driver, in either mode, changes the flags only when the decoded
instruction is an arithmetic one. -/
theorem C29_flags_frame :
    (∀ (s : Sim) (m : Mov), m.reg < 8 → m.rm < 8 →
      ∃ s2 err, s.exec (.mov m) = .ok (s2, err) ∧
        s2.flags.zero = s.flags.zero ∧ s2.flags.sign = s.flags.sign) ∧
    (∀ (s : Sim) (j : JumpOrLoop),
      ∃ s2, s.exec (.jumpOrLoop j) = .ok (s2, none) ∧
        s2.flags.zero = s.flags.zero ∧ s2.flags.sign = s.flags.sign) ∧
    (∀ (e : Bool) (s s2 : Sim) (res : Except Error (Option Unit)),
      driverStep e s = .ok (s2, res) →
      (∀ s1 a, s.disassemble ≠ .ok (s1, .ok (some (.arithmetic a)))) →
      s2.flags = s.flags) := by
  refine ⟨?_, ?_, driverStep_flags⟩
  · intro s m hreg hrm
    obtain ⟨s1, err, h1⟩ := handleMov_ok s m hreg hrm
    have hx : s.exec (.mov m) = .ok ({ s1 with ip := s1.ip + s1.lastInsSize }, err) := by
      simp only [Sim.exec, h1]
    have hf := exec_flags s _ (.mov m) err (fun a ha => by cases ha) hx
    exact ⟨_, err, hx, by rw [hf], by rw [hf]⟩
  · intro s j
    have hx : s.exec (.jumpOrLoop j) =
        .ok ((Sim.handleJumpOrLoop { s with ip := s.ip + s.lastInsSize } j).1, none) := rfl
    have hf := exec_flags s _ (.jumpOrLoop j) none (fun a ha => by cases ha) hx
    exact ⟨_, hx, by rw [hf], by rw [hf]⟩

/-- C29 at a concrete input: after `add bx, 0` (`83 C3 00`) has set the zero
flag, `mov ax, 5` (`B8 05 00`) and a taken `jz` (`74 00`) leave it set. -/
theorem C29_flags_frame_witness :
    (∃ s, driver true 4 (newSim [0x83, 0xC3, 0x00, 0xB8, 0x05, 0x00, 0x74, 0x00]) = .done s ∧
      s.flags.zero = true ∧ s.flags.sign = false ∧ s.regs 0 = 5) ∧
    (∃ s2 err, Sim.exec { flags := { zero := true, sign := true } }
        (.mov { typ := .Mov_Immediate_To_Register, w := 1, reg := 0, data := 5 }) = .ok (s2, err) ∧
      s2.flags.zero = true ∧ s2.flags.sign = true) := by
  refine ⟨?_, ?_⟩
  · obtain ⟨s, hs, hp⟩ := Outcome.exists_of_doneWith
      (driver true 4 (newSim [0x83, 0xC3, 0x00, 0xB8, 0x05, 0x00, 0x74, 0x00]))
      (fun s => decide (s.flags.zero = true ∧ s.flags.sign = false ∧ s.regs 0 = 5)) (by decide!)
    exact ⟨s, hs, of_decide_eq_true hp⟩
  · exact C29_flags_frame.1 { flags := { zero := true, sign := true } }
      { typ := .Mov_Immediate_To_Register, w := 1, reg := 0, data := 5 } (by decide) (by decide)

/-! ## Decode errors -/

/-- C30: with at least six bytes of memory from `ip` on, inside the program,
the decode step returns, and what it returns is the `invalid mov instruction`
error exactly when the first byte is `8C` or `8E`; these two bytes are
accepted by `isMov`, and the error then carries the four bytes peeked and
leaves the state unchanged. It is a different error from `unknown
instruction`. The `invalid add instruction` error is returned by no decode
step, because `parseArithmetic` returns no instruction of the invalid subtype. -/
theorem C30_invalid_mov (s : Sim) (fb : Byte) (rest : List Byte)
    (hip : s.ip < s.initSize) (hmem : memFrom s.mem s.ip = .ok (fb :: rest))
    (hlen : 5 ≤ rest.length) :
    ∃ s1 res, s.disassemble = .ok (s1, res) ∧
      ((∃ bs, res = .error (.invalidMov bs)) ↔ (fb.val = 0x8C ∨ fb.val = 0x8E)) ∧
      ((fb.val = 0x8C ∨ fb.val = 0x8E) →
        isMov fb.val = true ∧ res = .error (.invalidMov (fb :: rest.take 3)) ∧ s1 = s) ∧
      (∀ bs bs2, res = .error (.invalidMov bs) → res ≠ .error (.unknownInstruction bs2)) ∧
      (∀ bs, res ≠ .error (.invalidAdd bs)) ∧
      (∀ (t t1 : Sim) (bs : List Byte), t.disassemble ≠ .ok (t1, .error (.invalidAdd bs))) ∧
      (∀ (r r1 : Reader) (a : Arithmetic),
        parseArithmetic r = .ok (a, r1) → a.typ ≠ .Arithmetic_Invalid) := by
  have hnoAdd : ∀ (t t1 : Sim) (bs : List Byte),
      t.disassemble ≠ .ok (t1, .error (.invalidAdd bs)) := by
    intro t t1 bs ht
    obtain ⟨b, tl, _, hc⟩ := disassemble_error t t1 _ ht
    rcases hc with ⟨h1, _⟩ | ⟨h1, _⟩ <;> cases h1
  obtain ⟨s1, res, hd, _, _⟩ := disassemble_total s (fb :: rest) hip hmem
    (by simp only [List.length_cons]; omega)
  refine ⟨s1, res, hd, ⟨?_, ?_⟩, ?_, ?_, ?_, hnoAdd,
    fun r r1 a h => (parseArithmetic_inv r r1 a h).2.1⟩
  · rintro ⟨bs, hbs⟩
    subst hbs
    obtain ⟨b, tl, hm2, hc⟩ := disassemble_error s s1 _ hd
    rw [hmem] at hm2
    injection hm2 with hm2
    injection hm2 with hb _
    subst hb
    rcases hc with ⟨_, h2⟩ | ⟨h1, _⟩
    · exact h2
    · cases h1
  · intro hfb
    rw [disassemble_invalidMov s fb rest hip hmem (by omega) hfb] at hd
    simp only [Except.ok.injEq, Prod.mk.injEq] at hd
    exact ⟨_, hd.2.symm⟩
  · intro hfb
    rw [disassemble_invalidMov s fb rest hip hmem (by omega) hfb] at hd
    simp only [Except.ok.injEq, Prod.mk.injEq] at hd
    exact ⟨isMov_segment fb hfb, hd.2.symm, hd.1.symm⟩
  · intro bs bs2 h1 h2
    rw [h1] at h2
    cases h2
  · intro bs hbs
    subst hbs
    exact hnoAdd s s1 bs hd

/-- C30 at a concrete input: the program `8C D8` (a Mov from a segment
register) gives the `invalid mov instruction` error with the bytes
`8C D8 00 00`. -/
theorem C30_invalid_mov_witness :
    ∃ s1 res, (newSim [0x8C, 0xD8]).disassemble = .ok (s1, res) ∧
      res = .error (.invalidMov [0x8C, 0xD8, 0x00, 0x00]) ∧ s1 = newSim [0x8C, 0xD8] := by
  have hmem : memFrom (newSim [0x8C, 0xD8]).mem (newSim [0x8C, 0xD8]).ip =
      .ok (0x8C :: (0xD8 :: List.replicate 4094 0)) := by
    show memFrom ([0x8C, 0xD8] ++ List.replicate (max 2 4096 - 2) 0) 0 = _
    unfold memFrom
    rw [if_neg (by simp only [List.length_append, List.length_replicate]; omega)]
    rfl
  obtain ⟨s1, res, hd, _, h2, _⟩ := C30_invalid_mov (newSim [0x8C, 0xD8]) 0x8C
    (0xD8 :: List.replicate 4094 0) (by decide) hmem
    (by rw [List.length_cons, List.length_replicate]; decide)
  obtain ⟨_, h3, h4⟩ := h2 (Or.inl rfl)
  exact ⟨s1, res, hd, h3, h4⟩

/-! ## Accumulator forms of Mov -/

/-- C31 (code defect): for the opcodes `A0`..`A3` (`1010000w`, `1010001w`)
`parseMov` assigns the subtype and the address only, so the decoded `w` is the
zero value 0 whatever the width bit of the opcode (0 for `A1` and `A3`, whose
bit is 1), and `Mov.Disassemble` writes the accumulator as `ax` whatever `w`
is: `A0 10 00` renders as `mov ax, [16]` instead of `mov al, [16]`, and
`A2 10 00` as `mov [16], ax` instead of `mov [16], al`. The arithmetic
immediate-to-accumulator form does record `w` and name `al` (`04 05` renders
as `add al, 5`). -/
theorem C31_accumulator_mov_drops_width :
    (∀ (r : Reader) (fb lo hi : Byte) (rest : List Byte),
      r.buf.drop r.idx = fb :: lo :: hi :: rest → (fb.val = 0xA0 ∨ fb.val = 0xA1) →
      ∃ m, parseMov r = .ok (m, ⟨r.idx + 3, r.buf⟩) ∧ m.typ = .Mov_Memory_To_Accumulator ∧
        m.w = 0 ∧ m.data = (hi.val <<< 8) ||| lo.val ∧
        m.Disassemble = .ok ("mov ax, [" ++ fmtD m.data ++ "]")) ∧
    (∀ (r : Reader) (fb lo hi : Byte) (rest : List Byte),
      r.buf.drop r.idx = fb :: lo :: hi :: rest → (fb.val = 0xA2 ∨ fb.val = 0xA3) →
      ∃ m, parseMov r = .ok (m, ⟨r.idx + 3, r.buf⟩) ∧ m.typ = .Mov_Accumulator_To_Memory ∧
        m.w = 0 ∧ m.data = (hi.val <<< 8) ||| lo.val ∧
        m.Disassemble = .ok ("mov [" ++ fmtD m.data ++ "], ax")) ∧
    (∀ m : Mov, m.typ = .Mov_Memory_To_Accumulator →
      m.Disassemble = .ok ("mov ax, [" ++ fmtD m.data ++ "]")) ∧
    (∀ m : Mov, m.typ = .Mov_Accumulator_To_Memory →
      m.Disassemble = .ok ("mov [" ++ fmtD m.data ++ "], ax")) ∧
    (∃ m r1, parseMov (newReader [0xA0, 0x10, 0x00]) = .ok (m, r1) ∧
      (0xA0 : Nat) &&& 1 = 0 ∧ m.w = 0 ∧ m.Disassemble = .ok "mov ax, [16]") ∧
    (∃ m r1, parseMov (newReader [0xA1, 0x10, 0x00]) = .ok (m, r1) ∧
      (0xA1 : Nat) &&& 1 = 1 ∧ m.w = 0 ∧ m.Disassemble = .ok "mov ax, [16]") ∧
    (∃ m r1, parseMov (newReader [0xA2, 0x10, 0x00]) = .ok (m, r1) ∧
      (0xA2 : Nat) &&& 1 = 0 ∧ m.w = 0 ∧ m.Disassemble = .ok "mov [16], ax") ∧
    (∃ m r1, parseMov (newReader [0xA3, 0x10, 0x00]) = .ok (m, r1) ∧
      (0xA3 : Nat) &&& 1 = 1 ∧ m.w = 0 ∧ m.Disassemble = .ok "mov [16], ax") ∧
    (∃ a r1, parseArithmetic (newReader [0x04, 0x05]) = .ok (a, r1) ∧
      a.typ = .Arithmetic_Immediate_To_Accumulator ∧ a.w = 0 ∧
      a.Disassemble = .ok "add al, 5") := by
  refine ⟨?_, ?_, ?_, ?_, ⟨_, _, rfl, by decide, rfl, by decide⟩,
    ⟨_, _, rfl, by decide, rfl, by decide⟩, ⟨_, _, rfl, by decide, rfl, by decide⟩,
    ⟨_, _, rfl, by decide, rfl, by decide⟩, ⟨_, _, rfl, rfl, rfl, by decide⟩⟩
  · intro r fb lo hi rest h hfb
    exact ⟨_, parseMov_mem_to_acc r fb lo hi rest h hfb, rfl, rfl, rfl, rfl⟩
  · intro r fb lo hi rest h hfb
    exact ⟨_, parseMov_acc_to_mem r fb lo hi rest h hfb, rfl, rfl, rfl, rfl⟩
  · intro m ht
    simp only [Mov.Disassemble, ht]
  · intro m ht
    simp only [Mov.Disassemble, ht]

end Sim8086
